import Mathlib

/-!
Shallow embedding of the `modernize_attrs` codemod
(`src/modernize_attrs/__init__.py`): a libcst-based rewriter that converts
legacy `@attr.s` / `attr.ib(type=...)` class declarations to the modern
`@define` / annotated-field API, and reconciles the file's imports.

The embedding models the subset of Python syntax the codemod inspects:
expressions (names, attribute access, calls with keyword/positional
arguments, tuples, opaque literals), class-body statements (annotated
assignments, plain assignments, decorated method definitions, expression
statements) and module-level items (class definitions, `import m`,
`from m import a, b`, plain statements).  Machine-level details the codemod
never looks at (whitespace, comments attached to nodes) are not modelled;
`lit` stands for any expression the codemod treats as opaque.

The qualified-name metadata provider of libcst is modelled as an oracle
(`Resolver`), as the specification describes it; `stdResolver` is the
concrete instance resolving plain dotted names, which is what the provider
returns for files using `import attr` / `import attrs`.
-/

namespace ModernizeAttrs

/-- Expressions of the modelled Python subset.  Argument lists of calls are
represented by the `argNil` / `argCons` constructors (an `argCons` carries
the optional keyword of the argument, mirroring `cst.Arg.keyword`). -/
inductive Expr where
  | name (s : String)
  | attr (base : Expr) (fld : String)
  | call (func : Expr) (args : Expr)
  | argNil
  | argCons (kw : Option String) (v : Expr) (tl : Expr)
  | tup2 (a b : Expr)
  | lit (s : String)
deriving DecidableEq

/-- Class-body statements (and plain module-level statements).  Method
bodies are modelled as lists of expression statements, which is all the
codemod ever inspects inside them. -/
inductive Stmt where
  | annAssign (tgt : Expr) (ann : Expr) (value : Option Expr)
  | assign (tgt : Expr) (extras : List Expr) (value : Expr)
  | funcDef (nm : String) (decs : List Expr) (body : List Expr)
  | exprStmt (e : Expr)
deriving DecidableEq

/-- Module-level items of a parsed source file. -/
inductive TopStmt where
  | classDef (nm : String) (decs : List Expr) (body : List Stmt)
  | importMod (modName : String)
  | importFrom (modName : String) (names : List String)
  | stmt (s : Stmt)
deriving DecidableEq

/-- The qualified-name oracle: given an expression node, the list of
fully-qualified names it could denote (libcst's `QualifiedNameProvider`). -/
abbrev Resolver := Expr → List String

/-- Dotted rendering of a plain name / attribute chain. -/
def dotted : Expr → Option String
  | .name s => some s
  | .attr b f => (dotted b).map (fun p => p ++ "." ++ f)
  | _ => none

/-- The concrete resolver for files that access the legacy API through
plain dotted names (`import attr` … `attr.ib`), which is how
`QualifiedNameProvider` resolves them. -/
def stdResolver : Resolver := fun e => (dotted e).toList

/-- Legacy field-builder names recognised by `_is_ib_call`. -/
def ibNames : List String := ["attr.ib", "attrs.ib", "attr.attrib", "attrs.attrib"]

/-- Legacy class-marker names recognised by `_is_attrs_decorator`. -/
def attrsMarkerNames : List String := ["attr.s", "attrs.s", "attr.attrs"]

/-- For a `Call` decorator the metadata provider resolves the called
function; for other decorator shapes the node itself. -/
def decTarget : Expr → Expr
  | .call f _ => f
  | e => e

/-- `_is_attrs_decorator`: the decorator resolves to a legacy marker. -/
def isAttrsDecoratorB (res : Resolver) (d : Expr) : Bool :=
  (res (decTarget d)).any (fun n => attrsMarkerNames.contains n)

/-- `_is_ib_call`: the node is a call whose function resolves to a legacy
field builder. -/
def isIbCallB (res : Resolver) : Expr → Bool
  | .call f _ => (res f).any (fun n => ibNames.contains n)
  | _ => false

/-- Argument list of a call node (empty for non-calls). -/
def callArgs : Expr → Expr
  | .call _ args => args
  | _ => .argNil

/-- Convert an embedded argument list to a Lean list of
(keyword, value) pairs. -/
def argsToList : Expr → List (Option String × Expr)
  | .argCons kw v tl => (kw, v) :: argsToList tl
  | _ => []

/-- Convert a Lean list of (keyword, value) pairs back to an embedded
argument list. -/
def argsOfList : List (Option String × Expr) → Expr
  | [] => .argNil
  | (kw, v) :: tl => .argCons kw v (argsOfList tl)

/-- The shape test on a `default=` value used by `_parse_field_args`:
a call whose function is an attribute `…​.Factory` or the bare name
`Factory`. -/
def factoryShaped : Expr → Bool
  | .call (.attr _ a) _ => a == "Factory"
  | .call (.name n) _ => n == "Factory"
  | _ => false

/-- Function part of a call node. -/
def callFuncOpt : Expr → Option Expr
  | .call f _ => some f
  | _ => none

/-- Value of the first argument of a call node, when the call has
arguments (`arg.value.args[0].value`). -/
def firstArgVal : Expr → Option Expr
  | .call _ (.argCons _ v _) => some v
  | _ => none

/-- The decomposition produced by `_parse_field_args`. -/
structure Parsed where
  factoryFunc : Option Expr
  factoryValue : Option Expr
  simpleDefault : Option Expr
  defaultArg : Option Expr
  otherArgs : List (Option String × Expr)
deriving DecidableEq

/-- One iteration of the loop in `_parse_field_args`.  `type` arguments
are skipped; a `default` argument is split into factory function/value
when it is `Factory`-shaped (the factory value is only assigned when the
factory call has arguments), otherwise recorded as a simple default; all
other arguments are appended to `other_args` in order. -/
def parseStep (acc : Parsed) (kw : Option String) (v : Expr) : Parsed :=
  if kw = some "type" then acc
  else if kw = some "default" then
    if factoryShaped v then
      { acc with
        defaultArg := some v
        factoryFunc := callFuncOpt v
        factoryValue :=
          match firstArgVal v with
          | some x => some x
          | none => acc.factoryValue }
    else { acc with defaultArg := some v, simpleDefault := some v }
  else { acc with otherArgs := acc.otherArgs ++ [(kw, v)] }

/-- `_parse_field_args` over a (keyword, value) list. -/
def parseFieldArgs (args : List (Option String × Expr)) : Parsed :=
  args.foldl (fun a pr => parseStep a pr.1 pr.2) ⟨none, none, none, none, []⟩

/-- `_extract_attr_args`: the last `type` keyword argument's value (if
any) and the remaining arguments in order. -/
def extractTypeArg : List (Option String × Expr) → Option Expr × List (Option String × Expr)
  | [] => (none, [])
  | (kw, v) :: tl =>
      let r := extractTypeArg tl
      if kw = some "type" then
        (match r.1 with
         | some t => some t
         | none => some v, r.2)
      else (r.1, (kw, v) :: r.2)

/-- The keyword arguments of the generated `field(...)` call:
`factory=<value>` when a factory (function and value) is present, else
`default=<default>` when a default existed and no factory function, then
the other arguments verbatim. -/
def buildCallArgs (p : Parsed) : List (Option String × Expr) :=
  (match p.factoryFunc, p.factoryValue with
   | some _, some fv => [(some "factory", fv)]
   | _, _ => []) ++
  (match p.factoryFunc, p.defaultArg with
   | none, some d => [(some "default", d)]
   | _, _ => []) ++
  p.otherArgs

/-- The rebuilt factory shortcut `Factory(<value>)` (a bare-name call with
one positional argument, as constructed by `_build_field_value`). -/
def factoryCallOf (fv : Expr) : Expr :=
  .call (.name "Factory") (.argCons none fv .argNil)

/-- The generic builder call `field(...)`. -/
def fieldCallOf (p : Parsed) : Expr :=
  .call (.name "field") (argsOfList (buildCallArgs p))

/-- Assign-shaped tail of `_build_field_value` after the simple-default
shortcut has been ruled out. -/
def buildNoAnnRest (tgt : Expr) (p : Parsed) (force : Bool) : Stmt :=
  match p.factoryFunc, p.factoryValue with
  | some _, some fv =>
      if p.otherArgs.isEmpty && !force then .assign tgt [] (factoryCallOf fv)
      else .assign tgt [] (fieldCallOf p)
  | _, _ =>
      if !p.otherArgs.isEmpty || force then .assign tgt [] (fieldCallOf p)
      else .assign tgt [] tgt

/-- `_build_field_value`: the decision ladder synthesising the replacement
field declaration. -/
def buildFieldValue (tgt : Expr) (ann : Option Expr) (p : Parsed) (force : Bool) : Stmt :=
  match ann with
  | some a =>
      if p.simpleDefault.isSome && p.otherArgs.isEmpty && p.factoryFunc.isNone && !force then
        .annAssign tgt a p.simpleDefault
      else
        match p.factoryFunc, p.factoryValue with
        | some _, some fv =>
            if p.otherArgs.isEmpty && !force then .annAssign tgt a (some (factoryCallOf fv))
            else .annAssign tgt a (some (fieldCallOf p))
        | _, _ =>
            if !p.otherArgs.isEmpty || force then .annAssign tgt a (some (fieldCallOf p))
            else .annAssign tgt a none
  | none =>
      match p.simpleDefault with
      | some d =>
          if p.otherArgs.isEmpty && p.factoryFunc.isNone && !force then .assign tgt [] d
          else buildNoAnnRest tgt p force
      | none => buildNoAnnRest tgt p force

/-- `field_name in self._decorated_fields`: a non-`Name` target yields
`None`, which is never in the (string) set. -/
def forcedName (decorated : List String) : Expr → Bool
  | .name n => decorated.contains n
  | _ => false

/-- Core of `leave_AnnAssign` once the value is known to be a legacy
builder call: parse the call's arguments and rebuild, keeping the
pre-existing annotation. -/
def rewriteAnnAssign (decorated : List String) (tgt a v : Expr) : Stmt :=
  buildFieldValue tgt (some a) (parseFieldArgs (argsToList (callArgs v)))
    (forcedName decorated tgt)

/-- Core of `leave_Assign` once the value is known to be a legacy builder
call: extract the `type` argument, parse the rest and rebuild (extra
assignment targets are dropped, as in the source). -/
def rewriteAssignStmt (decorated : List String) (tgt v : Expr) : Stmt :=
  let pr := extractTypeArg (argsToList (callArgs v))
  buildFieldValue tgt pr.1 (parseFieldArgs pr.2) (forcedName decorated tgt)

/-- The `auto_attribs` filter of `leave_Decorator`: drop arguments whose
keyword is `auto_attribs` and whose value is the name `True`. -/
def filterAutoAttribs : Expr → Expr
  | .argCons kw v tl =>
      if kw = some "auto_attribs" ∧ v = Expr.name "True" then filterAutoAttribs tl
      else .argCons kw v (filterAutoAttribs tl)
  | e => e

/-- `leave_Decorator` on a decorator inside a safe class: legacy markers
become `define` (with filtered arguments, or bare when none survive);
anything else is unchanged. -/
def rewriteDecorator (res : Resolver) (d : Expr) : Expr :=
  if isAttrsDecoratorB res d then
    match d with
    | .call _ args =>
        if filterAutoAttribs args = .argNil then .name "define"
        else .call (.name "define") (filterAutoAttribs args)
    | _ => .name "define"
  else d

/-- Field names collected from one method's decorator list by
`FieldDecoratorCollector`: receivers of `<name>.validator` or
`<name>.default`. -/
def decFieldNames : List Expr → List String
  | [] => []
  | .attr (.name f) a :: tl =>
      if a = "validator" ∨ a = "default" then f :: decFieldNames tl
      else decFieldNames tl
  | _ :: tl => decFieldNames tl

/-- `FieldDecoratorCollector` over a class body: the forced-builder set. -/
def collectDecoratedFields : List Stmt → List String
  | [] => []
  | .funcDef _ decs _ :: tl => decFieldNames decs ++ collectDecoratedFields tl
  | _ :: tl => collectDecoratedFields tl

/-- Keyword `type` present among a call's arguments (the `has_type` check
of `visit_Call`). -/
def hasTypeKw : Expr → Bool
  | .argCons kw _ tl => kw == some "type" || hasTypeKw tl
  | _ => false

/-- Scan for a legacy builder call without a `type` keyword anywhere in an
expression (what `visit_Call` detects while walking a class, outside
annotated assignments). -/
def exprHasUntypedIb (res : Resolver) : Expr → Bool
  | .call f args =>
      (isIbCallB res (.call f args) && !hasTypeKw args)
        || exprHasUntypedIb res f || exprHasUntypedIb res args
  | .attr b _ => exprHasUntypedIb res b
  | .argCons _ v tl => exprHasUntypedIb res v || exprHasUntypedIb res tl
  | .tup2 a b => exprHasUntypedIb res a || exprHasUntypedIb res b
  | _ => false

/-- Scan of one class-body statement.  Annotated assignments are excluded:
`visit_AnnAssign` sets `in_annotated_assign`, which suppresses the
untyped-marking in `visit_Call` for the whole subtree. -/
def stmtHasUntypedIb (res : Resolver) : Stmt → Bool
  | .annAssign _ _ _ => false
  | .assign tgt extras v =>
      exprHasUntypedIb res tgt || extras.any (exprHasUntypedIb res)
        || exprHasUntypedIb res v
  | .funcDef _ decs body =>
      decs.any (exprHasUntypedIb res) || body.any (exprHasUntypedIb res)
  | .exprStmt e => exprHasUntypedIb res e

/-- Whether a class makes `current_class_has_untyped_attr` true by the
time `leave_ClassDef` runs (some untyped legacy builder call in its
decorators or body, outside annotated assignments). -/
def classUntyped (res : Resolver) (decs : List Expr) (body : List Stmt) : Bool :=
  decs.any (exprHasUntypedIb res) || body.any (stmtHasUntypedIb res)

/-- Statements whose processing sets `did_transform` in `leave_AnnAssign`
or `leave_Assign` (value is a legacy builder call). -/
def stmtIsIbRewrite (res : Resolver) : Stmt → Bool
  | .annAssign _ _ (some v) => isIbCallB res v
  | .assign _ _ v => isIbCallB res v
  | _ => false

/-- Marker decorators on methods (they also pass through
`leave_Decorator` inside the class). -/
def stmtMarkerDecs (res : Resolver) : Stmt → Bool
  | .funcDef _ decs _ => decs.any (isAttrsDecoratorB res)
  | _ => false

/-- Whether processing a safe class sets `did_transform`: some marker
decorator (on the class or a method) or some builder-call field. -/
def classDidRewrite (res : Resolver) (decs : List Expr) (body : List Stmt) : Bool :=
  decs.any (isAttrsDecoratorB res) || body.any (stmtMarkerDecs res)
    || body.any (stmtIsIbRewrite res)

/-- Rewrite of one statement of a safe class (the untyped flag stays false
for the whole class, so every handler proceeds). -/
def rewriteStmt (res : Resolver) (decorated : List String) (s : Stmt) : Stmt :=
  match s with
  | .annAssign tgt a (some v) =>
      if isIbCallB res v then rewriteAnnAssign decorated tgt a v else s
  | .assign tgt _ v =>
      if isIbCallB res v then rewriteAssignStmt decorated tgt v else s
  | .funcDef nm decs body => .funcDef nm (decs.map (rewriteDecorator res)) body
  | s' => s'

/-- Walker state threaded through the module: the per-class untyped flag,
the collected forced-builder set (both reset only on entering a class, so
they go stale across module-level statements), the `did_transform` flag
and the advisory warnings printed so far. -/
structure WalkSt where
  flag : Bool
  decorated : List String
  did : Bool
  warnings : List String
deriving DecidableEq

/-- The advisory printed by `leave_ClassDef` for an unsafe class. -/
def warnMsg (nm : String) : String :=
  "Warning: Skipping class " ++ nm
    ++ " because it contains attr.ib() or attrib() without type hints"

/-- Initial walker state (`__init__`). -/
def initSt : WalkSt := ⟨false, [], false, []⟩

/-- Processing of one module-level item.

For a class: `visit_ClassDef` resets the flag and recollects the forced
set; if any untyped legacy call occurs in the class, `leave_ClassDef`
returns the original subtree, records one advisory and resets
`did_transform` (partial rewrites performed before the flag was set are
discarded with the subtree); otherwise decorators and statements are
rewritten.  For a module-level annotated assignment, `leave_AnnAssign`
(which is not restricted to classes) fires using the stale flag and
forced set.  Plain module-level assignments and imports are untouched
(`leave_Assign` and `visit_Call` are restricted to classes). -/
def processTop (res : Resolver) (st : WalkSt) : TopStmt → TopStmt × WalkSt
  | .classDef nm decs body =>
      let dec' := collectDecoratedFields body
      if classUntyped res decs body then
        (.classDef nm decs body,
          ⟨true, dec', false, st.warnings ++ [warnMsg nm]⟩)
      else
        (.classDef nm (decs.map (rewriteDecorator res)) (body.map (rewriteStmt res dec')),
          ⟨false, dec', st.did || classDidRewrite res decs body, st.warnings⟩)
  | .stmt (.annAssign tgt a (some v)) =>
      if !st.flag && isIbCallB res v then
        (.stmt (rewriteAnnAssign st.decorated tgt a v),
          ⟨st.flag, st.decorated, true, st.warnings⟩)
      else (.stmt (.annAssign tgt a (some v)), st)
  | t => (t, st)

/-- The walk over all module items, in order. -/
def walkItems (res : Resolver) (st : WalkSt) : List TopStmt → List TopStmt × WalkSt
  | [] => ([], st)
  | t :: ts =>
      let r := processTop res st t
      let rs := walkItems res r.2 ts
      (r.1 :: rs.1, rs.2)

/-! ### Rendering and the textual scans of `leave_Module`

`leave_Module` decides which imports to add by checking the substrings
`"Factory("` and `"field("` in `updated_node.code`, the module's rendered
source.  The rendering below is the model's canonical printing; import
statements render without parentheses and items are separated by
newlines, as in real Python source. -/

/-- Rendering of an argument keyword (`kw=`). -/
def renderKw : Option String → List Char
  | none => []
  | some k => k.toList ++ ['=']

/-- Canonical rendering of an expression to characters (an argument-list
node renders as its comma-separated arguments). -/
def renderExpr : Expr → List Char
  | .name s => s.toList
  | .attr b f => renderExpr b ++ '.' :: f.toList
  | .call f args => renderExpr f ++ '(' :: renderExpr args ++ [')']
  | .argNil => []
  | .argCons kw v tl =>
      renderKw kw ++ renderExpr v
        ++ (match tl with
            | .argCons _ _ _ => ',' :: ' ' :: renderExpr tl
            | _ => renderExpr tl)
  | .tup2 a b => '(' :: renderExpr a ++ ',' :: ' ' :: renderExpr b ++ [')']
  | .lit s => s.toList

/-- Rendering of an optional trailing ` = value`. -/
def renderVal : Option Expr → List Char
  | none => []
  | some v => ' ' :: '=' :: ' ' :: renderExpr v

/-- Canonical rendering of a statement. -/
def renderStmt : Stmt → List Char
  | .annAssign t a v => renderExpr t ++ ':' :: ' ' :: renderExpr a ++ renderVal v
  | .assign t extras v =>
      renderExpr t
        ++ extras.foldr (fun e acc => ' ' :: '=' :: ' ' :: renderExpr e ++ acc) []
        ++ ' ' :: '=' :: ' ' :: renderExpr v
  | .funcDef nm decs body =>
      decs.foldr (fun d acc => '@' :: renderExpr d ++ '\n' :: acc) []
        ++ "def ".toList ++ nm.toList ++ "():".toList
        ++ body.foldr (fun e acc => '\n' :: renderExpr e ++ acc) []
  | .exprStmt e => renderExpr e

/-- Rendering of an import name list. -/
def renderNames : List String → List Char
  | [] => []
  | [n] => n.toList
  | n :: tl => n.toList ++ ',' :: ' ' :: renderNames tl

/-- Canonical rendering of a module item.  Import statements contain no
parenthesis. -/
def renderTop : TopStmt → List Char
  | .classDef nm decs body =>
      decs.foldr (fun d acc => '@' :: renderExpr d ++ '\n' :: acc) []
        ++ "class ".toList ++ nm.toList ++ [':']
        ++ body.foldr (fun s acc => '\n' :: ' ' :: ' ' :: ' ' :: ' ' :: renderStmt s ++ acc) []
  | .importMod mn => "import ".toList ++ mn.toList
  | .importFrom mn ns => "from ".toList ++ mn.toList ++ " import ".toList ++ renderNames ns
  | .stmt s => renderStmt s

/-- Canonical rendering of a module (`Module.code`): items joined by
newlines. -/
def renderModule : List TopStmt → List Char
  | [] => []
  | [t] => renderTop t
  | t :: ts => renderTop t ++ '\n' :: renderModule ts

/-- Boolean prefix test on character lists. -/
def prefixMatch : List Char → List Char → Bool
  | [], _ => true
  | _ :: _, [] => false
  | p :: ps, c :: cs => p == c && prefixMatch ps cs

/-- Boolean substring test (`pat in code`). -/
def hasSub (pat : List Char) : List Char → Bool
  | [] => prefixMatch pat []
  | c :: cs => prefixMatch pat (c :: cs) || hasSub pat cs

/-- The pattern `"field("`. -/
def fieldPat : List Char := "field(".toList

/-- The pattern `"Factory("`. -/
def factoryPat : List Char := "Factory(".toList

/-! ### Import reconciliation (`leave_Module`)

`leave_Module` schedules `RemoveImportsVisitor.remove_unused_import` for
the legacy import forms and the three target symbols, and
`AddImportsVisitor.add_needed_import` for `attrs.Factory` (when
`"Factory("` occurs in the code and `Factory` is not already imported
from `attr`), unconditionally for `attrs.define`, and for `attrs.field`
(when `"field("` occurs).  The codemod framework then applies the add
visitor first and the remove visitor second; removal only drops a
scheduled import whose symbol is unreferenced in the tree. -/

/-- Import items (the only items the reconciliation may change). -/
def isImportItem : TopStmt → Bool
  | .importMod _ => true
  | .importFrom _ _ => true
  | _ => false

/-- Does a name occur (as a base name reference) in an expression? -/
def exprUsesName (n : String) : Expr → Bool
  | .name s => s == n
  | .attr b _ => exprUsesName n b
  | .call f args => exprUsesName n f || exprUsesName n args
  | .argCons _ v tl => exprUsesName n v || exprUsesName n tl
  | .tup2 a b => exprUsesName n a || exprUsesName n b
  | _ => false

/-- Name references in one statement. -/
def stmtUsesName (n : String) : Stmt → Bool
  | .annAssign t a v =>
      exprUsesName n t || exprUsesName n a
        || (match v with | some x => exprUsesName n x | none => false)
  | .assign t extras v =>
      exprUsesName n t || extras.any (exprUsesName n) || exprUsesName n v
  | .funcDef _ decs body =>
      decs.any (exprUsesName n) || body.any (exprUsesName n)
  | .exprStmt e => exprUsesName n e

/-- Name references in one module item; import statements never count as
references. -/
def topUsesName (n : String) : TopStmt → Bool
  | .classDef _ decs body =>
      decs.any (exprUsesName n) || body.any (stmtUsesName n)
  | .stmt s => stmtUsesName n s
  | _ => false

/-- Name references anywhere in the module outside import statements. -/
def moduleUses (items : List TopStmt) (n : String) : Bool :=
  items.any (topUsesName n)

/-- The names imported from `attrs` by `from attrs import …` statements. -/
def attrsImportNames : List TopStmt → List String
  | [] => []
  | .importFrom mn ns :: tl =>
      if mn = "attrs" then ns ++ attrsImportNames tl else attrsImportNames tl
  | _ :: tl => attrsImportNames tl

/-- Is there any `from attrs import …` statement? -/
def hasAttrsFromImport : List TopStmt → Bool
  | [] => false
  | .importFrom mn _ :: tl =>
      if mn = "attrs" then true else hasAttrsFromImport tl
  | _ :: tl => hasAttrsFromImport tl

/-- `from attr import Factory` present (the `GatherImportsVisitor` check
guarding the `attrs.Factory` addition). -/
def hasFromImport (items : List TopStmt) (mn obj : String) : Bool :=
  items.any (fun t =>
    match t with
    | .importFrom m ns => m == mn && ns.contains obj
    | _ => false)

/-- Append the missing names to the first `from attrs import …`
statement. -/
def mergeIntoFirst (missing : List String) : List TopStmt → List TopStmt
  | [] => []
  | .importFrom mn ns :: tl =>
      if mn = "attrs" then .importFrom mn (ns ++ missing) :: tl
      else .importFrom mn ns :: mergeIntoFirst missing tl
  | t :: tl => t :: mergeIntoFirst missing tl

/-- Insert a new import statement after the leading import block. -/
def insertAfterImports (newItem : TopStmt) : List TopStmt → List TopStmt
  | [] => [newItem]
  | t :: tl =>
      if isImportItem t then t :: insertAfterImports newItem tl
      else newItem :: t :: tl

/-- `AddImportsVisitor`: ensure `from attrs import …` covers the scheduled
names, merging into an existing `attrs` import or inserting a new one
after the leading imports. -/
def applyAdds (adds : List String) (items : List TopStmt) : List TopStmt :=
  let missing := adds.filter (fun s => !(attrsImportNames items).contains s)
  if missing.isEmpty then items
  else if hasAttrsFromImport items then mergeIntoFirst missing items
  else insertAfterImports (.importFrom "attrs" missing) items

/-- Objects whose removal from `from <mn> import …` was scheduled by
`leave_Module`. -/
def removalObjs (mn : String) : List String :=
  if mn = "attr" then ["attrs", "attrib", "ib", "Factory"]
  else if mn = "attrs" then ["define", "Factory", "field"]
  else []

/-- Removal decision for one item: a scheduled module import is dropped
when unused; a `from` import has its scheduled-and-unused names filtered
out and is dropped entirely when nothing survives; anything else is
kept. -/
def removeItem (used : String → Bool) : TopStmt → Option TopStmt
  | .importMod mn =>
      if (mn == "attr" || mn == "attrs") && !used mn then none
      else some (.importMod mn)
  | .importFrom mn ns =>
      let ns2 := ns.filter (fun o => !((removalObjs mn).contains o && !used o))
      if ns2.isEmpty then none else some (.importFrom mn ns2)
  | t => some t

/-- The removal pass relative to a usage predicate. -/
def removeWith (used : String → Bool) (items : List TopStmt) : List TopStmt :=
  items.filterMap (removeItem used)

/-- `RemoveImportsVisitor`: the usage predicate is reference in the tree
the remover runs on (the post-addition tree). -/
def applyRemovals (items : List TopStmt) : List TopStmt :=
  removeWith (fun n => moduleUses items n) items

/-- The result of one whole transformation: the rewritten module, the
final `did_transform` flag and the advisories printed. -/
structure Transformed where
  items : List TopStmt
  did : Bool
  warnings : List String
deriving DecidableEq

/-- The walked (pre-import-reconciliation) tree of a module. -/
def walkedOf (res : Resolver) (items : List TopStmt) : List TopStmt :=
  (walkItems res initSt items).1

/-- The import names scheduled for addition, in the source's order
(`Factory`, `define`, `field`). -/
def addsOf (res : Resolver) (items : List TopStmt) : List String :=
  let walked := walkedOf res items
  let code := renderModule walked
  (if hasSub factoryPat code && !hasFromImport walked "attr" "Factory"
   then ["Factory"] else [])
    ++ ["define"]
    ++ (if hasSub fieldPat code then ["field"] else [])

/-- The whole transformation of one module: the visitor walk, then the
textual scans of `leave_Module`, then import addition and removal. -/
def transformModule (res : Resolver) (items : List TopStmt) : Transformed :=
  let r := walkItems res initSt items
  ⟨applyRemovals (applyAdds (addsOf res items) r.1), r.2.did, r.2.warnings⟩

end ModernizeAttrs

namespace ModernizeAttrs

/-! ### Generic lemmas about the walk -/

/-- Names of the classes the walk skips as unsafe, in order. -/
def unsafeClassNames (res : Resolver) : List TopStmt → List String
  | [] => []
  | .classDef nm decs body :: tl =>
      if classUntyped res decs body then nm :: unsafeClassNames res tl
      else unsafeClassNames res tl
  | _ :: tl => unsafeClassNames res tl

/-- Processing any item leaves previously recorded warnings in place and
appends exactly the advisories of the unsafe classes among the remaining
items. -/
theorem walkItems_warnings (res : Resolver) (st : WalkSt) (ts : List TopStmt) :
    (walkItems res st ts).2.warnings
      = st.warnings ++ (unsafeClassNames res ts).map warnMsg := by
  induction ts generalizing st with
  | nil => simp [walkItems, unsafeClassNames]
  | cons t ts ih =>
    cases t with
    | classDef nm decs body =>
      by_cases h : classUntyped res decs body
      · simp [walkItems, processTop, h, unsafeClassNames, ih]
      · simp [walkItems, processTop, h, unsafeClassNames, ih]
    | importMod mn => simp [walkItems, processTop, unsafeClassNames, ih]
    | importFrom mn ns => simp [walkItems, processTop, unsafeClassNames, ih]
    | stmt s =>
      cases s with
      | annAssign tgt a v =>
        cases v with
        | none => simp [walkItems, processTop, unsafeClassNames, ih]
        | some x =>
          by_cases h : !st.flag && isIbCallB res x
          · simp [walkItems, processTop, h, unsafeClassNames, ih]
          · simp [walkItems, processTop, h, unsafeClassNames, ih]
      | assign tgt extras v => simp [walkItems, processTop, unsafeClassNames, ih]
      | funcDef nm decs body => simp [walkItems, processTop, unsafeClassNames, ih]
      | exprStmt e => simp [walkItems, processTop, unsafeClassNames, ih]

/-- What the walk does to a class item, positionally: an unsafe class is
returned verbatim, a safe one has decorators and statements rewritten. -/
theorem walkItems_get_class (res : Resolver) (st : WalkSt) (ts : List TopStmt)
    (i : Nat) (nm : String) (decs : List Expr) (body : List Stmt)
    (h : ts.get? i = some (.classDef nm decs body)) :
    ((walkItems res st ts).1).get? i = some
      (if classUntyped res decs body then TopStmt.classDef nm decs body
       else .classDef nm (decs.map (rewriteDecorator res))
         (body.map (rewriteStmt res (collectDecoratedFields body)))) := by
  induction ts generalizing st i with
  | nil => simp at h
  | cons t ts ih =>
    cases i with
    | zero =>
      simp only [List.get?] at h
      cases h
      by_cases hc : classUntyped res decs body
      · simp [walkItems, processTop, hc]
      · simp [walkItems, processTop, hc]
    | succ n =>
      simp only [List.get?] at h
      simpa [walkItems] using ih (processTop res st t).2 n h

end ModernizeAttrs

namespace ModernizeAttrs

/-- Merging names into the first `attrs` import keeps every item that is
not an `attrs` from-import. -/
theorem mem_mergeIntoFirst (missing : List String) (items : List TopStmt)
    (t : TopStmt) (ht : isImportItem t = false) (h : t ∈ items) :
    t ∈ mergeIntoFirst missing items := by
  induction items with
  | nil => simp at h
  | cons x xs ih =>
    rcases List.mem_cons.mp h with rfl | hmem
    · cases t with
      | classDef nm decs body => simp [mergeIntoFirst]
      | importMod mn => simp [isImportItem] at ht
      | importFrom mn ns => simp [isImportItem] at ht
      | stmt s => simp [mergeIntoFirst]
    · cases x with
      | classDef nm decs body =>
        simp only [mergeIntoFirst]
        exact List.mem_cons_of_mem _ (ih hmem)
      | importMod mn =>
        simp only [mergeIntoFirst]
        exact List.mem_cons_of_mem _ (ih hmem)
      | importFrom mn ns =>
        simp only [mergeIntoFirst]
        by_cases hm : mn = "attrs"
        · simp only [hm, if_pos rfl]
          exact List.mem_cons_of_mem _ hmem
        · simp only [if_neg hm]
          exact List.mem_cons_of_mem _ (ih hmem)
      | stmt s =>
        simp only [mergeIntoFirst]
        exact List.mem_cons_of_mem _ (ih hmem)

/-- Inserting an import keeps every item. -/
theorem mem_insertAfterImports (newItem : TopStmt) (items : List TopStmt)
    (t : TopStmt) (h : t ∈ items) : t ∈ insertAfterImports newItem items := by
  induction items with
  | nil => simp at h
  | cons x xs ih =>
    rcases List.mem_cons.mp h with rfl | hmem
    · simp only [insertAfterImports]
      split
      · exact List.mem_cons_self _ _
      · exact List.mem_cons_of_mem _ (List.mem_cons_self _ _)
    · simp only [insertAfterImports]
      split
      · exact List.mem_cons_of_mem _ (ih hmem)
      · exact List.mem_cons_of_mem _ (List.mem_cons_of_mem _ hmem)

/-- Adding imports keeps every non-import item. -/
theorem mem_applyAdds (adds : List String) (items : List TopStmt)
    (t : TopStmt) (ht : isImportItem t = false) (h : t ∈ items) :
    t ∈ applyAdds adds items := by
  unfold applyAdds
  by_cases h1 : (adds.filter (fun s => !(attrsImportNames items).contains s)).isEmpty = true
  · simp only [h1, if_true]
    exact h
  · simp only [h1, if_false, Bool.false_eq_true]
    by_cases h2 : hasAttrsFromImport items = true
    · simp only [h2, if_true]
      exact mem_mergeIntoFirst _ _ _ ht h
    · simp only [h2, if_false, Bool.false_eq_true]
      exact mem_insertAfterImports _ _ _ h

/-- Removing imports keeps every non-import item. -/
theorem mem_applyRemovals (items : List TopStmt)
    (t : TopStmt) (ht : isImportItem t = false) (h : t ∈ items) :
    t ∈ applyRemovals items := by
  apply List.mem_filterMap.mpr
  refine ⟨t, h, ?_⟩
  cases t with
  | classDef nm decs body => rfl
  | importMod mn => simp [isImportItem] at ht
  | importFrom mn ns => simp [isImportItem] at ht
  | stmt s => rfl

end ModernizeAttrs

namespace ModernizeAttrs

/-- A class found unsafe at some position contributes its name to the
unsafe-class list. -/
theorem mem_unsafeClassNames (res : Resolver) (items : List TopStmt)
    (i : Nat) (nm : String) (decs : List Expr) (body : List Stmt)
    (hit : items.get? i = some (.classDef nm decs body))
    (hun : classUntyped res decs body = true) :
    nm ∈ unsafeClassNames res items := by
  induction items generalizing i with
  | nil => simp at hit
  | cons x xs ih =>
    cases i with
    | zero =>
      simp only [List.get?] at hit
      cases hit
      simp [unsafeClassNames, hun]
    | succ n =>
      simp only [List.get?] at hit
      have hmem := ih n hit
      cases x with
      | classDef nm2 decs2 body2 =>
        by_cases h : classUntyped res decs2 body2
        · simp [unsafeClassNames, h, hmem]
        · simpa [unsafeClassNames, h] using hmem
      | importMod mn => simpa [unsafeClassNames] using hmem
      | importFrom mn ns => simpa [unsafeClassNames] using hmem
      | stmt s => simpa [unsafeClassNames] using hmem

/-- C2: a class containing an untyped legacy field (a legacy builder call
with no `type` keyword, outside any annotated assignment) is emitted
verbatim — positionally unchanged by the walk and present verbatim in the
final output — and the run's advisories are exactly one warning naming
each unsafe class, in order (so exactly one for this class occurrence). -/
theorem c2_unsafe_class_preserved (res : Resolver) (items : List TopStmt)
    (i : Nat) (nm : String) (decs : List Expr) (body : List Stmt)
    (hit : items.get? i = some (.classDef nm decs body))
    (hun : classUntyped res decs body = true) :
    (walkedOf res items).get? i = some (.classDef nm decs body)
      ∧ TopStmt.classDef nm decs body ∈ (transformModule res items).items
      ∧ (transformModule res items).warnings
          = (unsafeClassNames res items).map warnMsg
      ∧ nm ∈ unsafeClassNames res items := by
  have hw := walkItems_get_class res initSt items i nm decs body hit
  rw [if_pos hun] at hw
  refine ⟨hw, ?_, ?_, mem_unsafeClassNames res items i nm decs body hit hun⟩
  · have hmem : TopStmt.classDef nm decs body ∈ walkedOf res items :=
      List.get?_mem hw
    exact mem_applyRemovals _ _ rfl (mem_applyAdds _ _ _ rfl hmem)
  · have hwn := walkItems_warnings res initSt items
    simpa [transformModule, initSt] using hwn

/-- Concrete module for the C2 witness: `import attr` and one class with
an untyped `attr.ib()` field. -/
def c2mod : List TopStmt :=
  [ .importMod "attr",
    .classDef "W2" [.attr (.name "attr") "s"]
      [ .assign (.name "y") [] (.call (.attr (.name "attr") "ib") .argNil) ] ]

/-- Witness for C2 at a concrete unsafe class. -/
theorem c2_unsafe_class_preserved_witness :
    (c2mod.get? 1 = some (.classDef "W2" [.attr (.name "attr") "s"]
        [ .assign (.name "y") [] (.call (.attr (.name "attr") "ib") .argNil) ])
      ∧ classUntyped stdResolver [.attr (.name "attr") "s"]
          [ .assign (.name "y") [] (.call (.attr (.name "attr") "ib") .argNil) ] = true)
      ∧ ((walkedOf stdResolver c2mod).get? 1 = some (.classDef "W2" [.attr (.name "attr") "s"]
            [ .assign (.name "y") [] (.call (.attr (.name "attr") "ib") .argNil) ])
        ∧ TopStmt.classDef "W2" [.attr (.name "attr") "s"]
            [ .assign (.name "y") [] (.call (.attr (.name "attr") "ib") .argNil) ]
              ∈ (transformModule stdResolver c2mod).items
        ∧ (transformModule stdResolver c2mod).warnings
            = (unsafeClassNames stdResolver c2mod).map warnMsg
        ∧ "W2" ∈ unsafeClassNames stdResolver c2mod) :=
  ⟨⟨by decide, by decide⟩,
    c2_unsafe_class_preserved stdResolver c2mod 1 "W2" [.attr (.name "attr") "s"]
      [ .assign (.name "y") [] (.call (.attr (.name "attr") "ib") .argNil) ]
      (by decide) (by decide)⟩

end ModernizeAttrs

namespace ModernizeAttrs

/-- Whatever the parsed arguments, `_build_field_value` keeps the
annotation it was given (for annotated fields that is always the
pre-existing annotation, `leave_AnnAssign` never replaces it). -/
theorem buildFieldValue_ann (tgt a : Expr) (p : Parsed) (force : Bool) :
    ∃ val, buildFieldValue tgt (some a) p force = .annAssign tgt a val := by
  simp only [buildFieldValue]
  split
  · exact ⟨_, rfl⟩
  · split
    · split
      · exact ⟨_, rfl⟩
      · exact ⟨_, rfl⟩
    · split
      · exact ⟨_, rfl⟩
      · exact ⟨_, rfl⟩

/-- C1 (amended): for an annotated field of a safe class whose value is a
legacy builder call — whether or not a `type` argument is present — the
rewritten declaration keeps the pre-existing annotation and the original
target; the `type` argument never replaces the annotation. -/
theorem c1_amended (res : Resolver) (items : List TopStmt)
    (i : Nat) (nm : String) (decs : List Expr) (body : List Stmt)
    (j : Nat) (tgt a v : Expr)
    (hit : items.get? i = some (.classDef nm decs body))
    (hsafe : classUntyped res decs body = false)
    (hj : body.get? j = some (.annAssign tgt a (some v)))
    (hib : isIbCallB res v = true) :
    ∃ val, (walkedOf res items).get? i = some
        (.classDef nm (decs.map (rewriteDecorator res))
          (body.map (rewriteStmt res (collectDecoratedFields body))))
      ∧ (body.map (rewriteStmt res (collectDecoratedFields body))).get? j
          = some (.annAssign tgt a val) := by
  have hw := walkItems_get_class res initSt items i nm decs body hit
  simp only [hsafe, if_false, Bool.false_eq_true] at hw
  obtain ⟨val, hval⟩ := buildFieldValue_ann tgt a
    (parseFieldArgs (argsToList (callArgs v))) (forcedName (collectDecoratedFields body) tgt)
  refine ⟨val, hw, ?_⟩
  rw [List.get?_map, hj]
  simp [rewriteStmt, hib, rewriteAnnAssign, hval]

/-- Concrete module for C1: a field with annotation `int` and an explicit
`type=str` argument. -/
def c1mod : List TopStmt :=
  [ .importMod "attr",
    .classDef "A" [.attr (.name "attr") "s"]
      [ .annAssign (.name "x") (.name "int")
          (some (.call (.attr (.name "attr") "ib")
            (.argCons (some "type") (.name "str") .argNil))) ] ]

/-- Counterexample to C1 as stated: with annotation `int` and `type=str`,
the rewritten declaration's annotation is the original `int`, not the
`type` argument's expression `str` (the `type` argument is discarded). -/
theorem c1_counterexample :
    (transformModule stdResolver c1mod).items
      = [ .importFrom "attrs" ["define"],
          .classDef "A" [.name "define"]
            [ .annAssign (.name "x") (.name "int") none ] ]
      ∧ Expr.name "int" ≠ Expr.name "str" := by decide

/-- Witness for the amended C1 at the concrete module `c1mod`. -/
theorem c1_amended_witness :
    (c1mod.get? 1 = some (.classDef "A" [.attr (.name "attr") "s"]
        [ .annAssign (.name "x") (.name "int")
            (some (.call (.attr (.name "attr") "ib")
              (.argCons (some "type") (.name "str") .argNil))) ])
      ∧ classUntyped stdResolver [.attr (.name "attr") "s"]
          [ .annAssign (.name "x") (.name "int")
              (some (.call (.attr (.name "attr") "ib")
                (.argCons (some "type") (.name "str") .argNil))) ] = false)
      ∧ ∃ val, (walkedOf stdResolver c1mod).get? 1 = some
          (.classDef "A" ([Expr.attr (.name "attr") "s"].map (rewriteDecorator stdResolver))
            ([Stmt.annAssign (.name "x") (.name "int")
                (some (.call (.attr (.name "attr") "ib")
                  (.argCons (some "type") (.name "str") .argNil)))].map
              (rewriteStmt stdResolver (collectDecoratedFields
                [Stmt.annAssign (.name "x") (.name "int")
                  (some (.call (.attr (.name "attr") "ib")
                    (.argCons (some "type") (.name "str") .argNil)))]))))
        ∧ ([Stmt.annAssign (.name "x") (.name "int")
              (some (.call (.attr (.name "attr") "ib")
                (.argCons (some "type") (.name "str") .argNil)))].map
            (rewriteStmt stdResolver (collectDecoratedFields
              [Stmt.annAssign (.name "x") (.name "int")
                (some (.call (.attr (.name "attr") "ib")
                  (.argCons (some "type") (.name "str") .argNil)))]))).get? 0
            = some (.annAssign (.name "x") (.name "int") val) :=
  ⟨⟨by decide, by decide⟩,
    c1_amended stdResolver c1mod 1 "A" [.attr (.name "attr") "s"]
      [ .annAssign (.name "x") (.name "int")
          (some (.call (.attr (.name "attr") "ib")
            (.argCons (some "type") (.name "str") .argNil))) ]
      0 (.name "x") (.name "int")
      (.call (.attr (.name "attr") "ib") (.argCons (some "type") (.name "str") .argNil))
      (by decide) (by decide) (by decide) (by decide)⟩

end ModernizeAttrs

namespace ModernizeAttrs

/-- A `<fn>.validator` / `<fn>.default` decorator puts `fn` into the
collected names of a decorator list. -/
theorem mem_decFieldNames (mdecs : List Expr) (fn a : String)
    (hd : Expr.attr (.name fn) a ∈ mdecs)
    (ha : a = "validator" ∨ a = "default") :
    fn ∈ decFieldNames mdecs := by
  induction mdecs with
  | nil => simp at hd
  | cons d tl ih =>
    rcases List.mem_cons.mp hd with rfl | hmem
    · simp [decFieldNames, ha]
    · cases d with
      | name s => simpa [decFieldNames] using ih hmem
      | attr b fld =>
        cases b with
        | name s =>
          by_cases h : fld = "validator" ∨ fld = "default"
          · simp [decFieldNames, h, ih hmem]
          · simpa [decFieldNames, h] using ih hmem
        | attr b2 f2 => simpa [decFieldNames] using ih hmem
        | call f args => simpa [decFieldNames] using ih hmem
        | argNil => simpa [decFieldNames] using ih hmem
        | argCons kw v tl2 => simpa [decFieldNames] using ih hmem
        | tup2 x y => simpa [decFieldNames] using ih hmem
        | lit s => simpa [decFieldNames] using ih hmem
      | call f args => simpa [decFieldNames] using ih hmem
      | argNil => simpa [decFieldNames] using ih hmem
      | argCons kw v tl2 => simpa [decFieldNames] using ih hmem
      | tup2 x y => simpa [decFieldNames] using ih hmem
      | lit s => simpa [decFieldNames] using ih hmem

/-- A field named as the receiver of a companion `validator` / `default`
method decorator is in the forced-builder set collected from the class
body. -/
theorem forced_of_companion (body : List Stmt) (j : Nat)
    (mnm : String) (mdecs : List Expr) (mbody : List Expr) (fn a : String)
    (hm : body.get? j = some (.funcDef mnm mdecs mbody))
    (hd : Expr.attr (.name fn) a ∈ mdecs)
    (ha : a = "validator" ∨ a = "default") :
    forcedName (collectDecoratedFields body) (.name fn) = true := by
  have hfn : fn ∈ decFieldNames mdecs := mem_decFieldNames mdecs fn a hd ha
  have hmem : Stmt.funcDef mnm mdecs mbody ∈ body := List.get?_mem hm
  have hsub : fn ∈ collectDecoratedFields body := by
    clear hm
    induction body with
    | nil => simp at hmem
    | cons s tl ih =>
      rcases List.mem_cons.mp hmem with rfl | hmem2
      · simp only [collectDecoratedFields, List.mem_append]
        exact Or.inl hfn
      · cases s with
        | funcDef n2 d2 b2 =>
          simp only [collectDecoratedFields, List.mem_append]
          exact Or.inr (ih hmem2)
        | annAssign t a2 v => simpa [collectDecoratedFields] using ih hmem2
        | assign t e v => simpa [collectDecoratedFields] using ih hmem2
        | exprStmt e => simpa [collectDecoratedFields] using ih hmem2
  simp only [forcedName]
  exact List.elem_iff.mpr hsub

/-- A forced annotated field always becomes the generic builder call. -/
theorem buildFieldValue_forced (tgt a : Expr) (p : Parsed) :
    buildFieldValue tgt (some a) p true = .annAssign tgt a (some (fieldCallOf p)) := by
  simp only [buildFieldValue, Bool.not_true, Bool.and_false, Bool.if_false_left]
  cases hf : p.factoryFunc <;> cases hv : p.factoryValue <;> simp

/-- In a class with no untyped legacy field, a plain-assignment field
whose value is a legacy builder call carries a `type` keyword. -/
theorem safe_assign_hasType (res : Resolver) (decs : List Expr) (body : List Stmt)
    (k : Nat) (tgt : Expr) (extras : List Expr) (v : Expr)
    (hsafe : classUntyped res decs body = false)
    (hk : body.get? k = some (.assign tgt extras v))
    (hib : isIbCallB res v = true) :
    hasTypeKw (callArgs v) = true := by
  have hmem : Stmt.assign tgt extras v ∈ body := List.get?_mem hk
  have hb : body.any (stmtHasUntypedIb res) = false := by
    have := hsafe
    simp only [classUntyped, Bool.or_eq_false_iff] at this
    exact this.2
  have hst : stmtHasUntypedIb res (.assign tgt extras v) = false := by
    have h := List.any_eq_false.mp hb _ hmem
    simpa using h
  cases v with
  | call f args =>
    simp only [stmtHasUntypedIb, Bool.or_eq_false_iff] at hst
    have hA : (isIbCallB res (.call f args) && !hasTypeKw args) = false := by
      have hv := hst.2
      simp only [exprHasUntypedIb, Bool.or_eq_false_iff] at hv
      exact hv.1.1
    rw [hib] at hA
    simp only [callArgs]
    simpa using hA
  | name s => simp [isIbCallB] at hib
  | attr b f => simp [isIbCallB] at hib
  | argNil => simp [isIbCallB] at hib
  | argCons kw x tl => simp [isIbCallB] at hib
  | tup2 x y => simp [isIbCallB] at hib
  | lit s => simp [isIbCallB] at hib

end ModernizeAttrs

namespace ModernizeAttrs

/-- If a `type` keyword is present, `_extract_attr_args` extracts a type
expression. -/
theorem extractTypeArg_isSome (args : Expr) (h : hasTypeKw args = true) :
    (extractTypeArg (argsToList args)).1.isSome = true := by
  induction args with
  | argCons kw v tl ihv ihtl =>
    simp only [hasTypeKw, Bool.or_eq_true] at h
    simp only [argsToList, extractTypeArg]
    by_cases hkw : kw = some "type"
    · simp only [hkw, if_pos rfl]
      cases (extractTypeArg (argsToList tl)).1 <;> simp
    · have h2 : hasTypeKw tl = true := by
        rcases h with h | h
        · exact absurd (by simpa using h) hkw
        · exact h
      simp only [if_neg hkw]
      exact ihtl h2
  | name s => simp [hasTypeKw] at h
  | attr b f ih => simp [hasTypeKw] at h
  | call f as ih1 ih2 => simp [hasTypeKw] at h
  | argNil => simp [hasTypeKw] at h
  | tup2 x y ih1 ih2 => simp [hasTypeKw] at h
  | lit s => simp [hasTypeKw] at h

/-- C3: in a safe class, a field named as the receiver of a companion
`validator` / `default` method decorator is always emitted in the generic
builder-call form `…​ = field(...)` (never as a bare literal or bare
factory shortcut), whether declared as an annotated assignment or as a
plain assignment. -/
theorem c3_forced_builder (res : Resolver) (items : List TopStmt)
    (i : Nat) (nm : String) (decs : List Expr) (body : List Stmt)
    (j k : Nat) (mnm : String) (mdecs : List Expr) (mbody : List Expr)
    (fn a : String) (ann v : Expr) (extras : List Expr)
    (hit : items.get? i = some (.classDef nm decs body))
    (hsafe : classUntyped res decs body = false)
    (hm : body.get? j = some (.funcDef mnm mdecs mbody))
    (hd : Expr.attr (.name fn) a ∈ mdecs)
    (ha : a = "validator" ∨ a = "default")
    (hk : body.get? k = some (.annAssign (.name fn) ann (some v))
        ∨ body.get? k = some (.assign (.name fn) extras v))
    (hib : isIbCallB res v = true) :
    ∃ a2 args,
      (walkedOf res items).get? i = some
        (.classDef nm (decs.map (rewriteDecorator res))
          (body.map (rewriteStmt res (collectDecoratedFields body))))
      ∧ (body.map (rewriteStmt res (collectDecoratedFields body))).get? k
          = some (.annAssign (.name fn) a2 (some (.call (.name "field") args))) := by
  have hw := walkItems_get_class res initSt items i nm decs body hit
  simp only [hsafe, if_false, Bool.false_eq_true] at hw
  have hforce := forced_of_companion body j mnm mdecs mbody fn a hm hd ha
  rcases hk with hk | hk
  · refine ⟨ann, argsOfList (buildCallArgs (parseFieldArgs (argsToList (callArgs v)))),
      hw, ?_⟩
    rw [List.get?_map, hk]
    simp [rewriteStmt, hib, rewriteAnnAssign, hforce, buildFieldValue_forced, fieldCallOf]
  · have hty := safe_assign_hasType res decs body k (.name fn) extras v hsafe hk hib
    have hsome := extractTypeArg_isSome (callArgs v) hty
    obtain ⟨t, ht⟩ := Option.isSome_iff_exists.mp hsome
    refine ⟨t,
      argsOfList (buildCallArgs (parseFieldArgs (extractTypeArg (argsToList (callArgs v))).2)),
      hw, ?_⟩
    rw [List.get?_map, hk]
    simp [rewriteStmt, hib, rewriteAssignStmt, ht, hforce, buildFieldValue_forced, fieldCallOf]

/-- Concrete module for C3: the validator-decorator scenario. -/
def c3mod : List TopStmt :=
  [ .importMod "attr",
    .classDef "C3" [.attr (.name "attr") "s"]
      [ .assign (.name "a") []
          (.call (.attr (.name "attr") "ib")
            (.argCons (some "type") (.name "int") .argNil)),
        .funcDef "validate_a" [.attr (.name "a") "validator"] [] ] ]

/-- Witness for C3 at the concrete validator-decorator module. -/
theorem c3_forced_builder_witness :
    (c3mod.get? 1 = some (.classDef "C3" [.attr (.name "attr") "s"]
        [ .assign (.name "a") []
            (.call (.attr (.name "attr") "ib")
              (.argCons (some "type") (.name "int") .argNil)),
          .funcDef "validate_a" [.attr (.name "a") "validator"] [] ])
      ∧ classUntyped stdResolver [.attr (.name "attr") "s"]
          [ .assign (.name "a") []
              (.call (.attr (.name "attr") "ib")
                (.argCons (some "type") (.name "int") .argNil)),
            .funcDef "validate_a" [.attr (.name "a") "validator"] [] ] = false)
      ∧ ∃ a2 args,
        (walkedOf stdResolver c3mod).get? 1 = some
          (.classDef "C3" ([Expr.attr (.name "attr") "s"].map (rewriteDecorator stdResolver))
            ([ Stmt.assign (.name "a") []
                (.call (.attr (.name "attr") "ib")
                  (.argCons (some "type") (.name "int") .argNil)),
               Stmt.funcDef "validate_a" [.attr (.name "a") "validator"] [] ].map
              (rewriteStmt stdResolver (collectDecoratedFields
                [ Stmt.assign (.name "a") []
                    (.call (.attr (.name "attr") "ib")
                      (.argCons (some "type") (.name "int") .argNil)),
                  Stmt.funcDef "validate_a" [.attr (.name "a") "validator"] [] ]))))
        ∧ ([ Stmt.assign (.name "a") []
              (.call (.attr (.name "attr") "ib")
                (.argCons (some "type") (.name "int") .argNil)),
             Stmt.funcDef "validate_a" [.attr (.name "a") "validator"] [] ].map
            (rewriteStmt stdResolver (collectDecoratedFields
              [ Stmt.assign (.name "a") []
                  (.call (.attr (.name "attr") "ib")
                    (.argCons (some "type") (.name "int") .argNil)),
                Stmt.funcDef "validate_a" [.attr (.name "a") "validator"] [] ]))).get? 0
          = some (.annAssign (.name "a") a2 (some (.call (.name "field") args))) :=
  ⟨⟨by decide, by decide⟩,
    c3_forced_builder stdResolver c3mod 1 "C3" [.attr (.name "attr") "s"]
      [ .assign (.name "a") []
          (.call (.attr (.name "attr") "ib")
            (.argCons (some "type") (.name "int") .argNil)),
        .funcDef "validate_a" [.attr (.name "a") "validator"] [] ]
      1 0 "validate_a" [.attr (.name "a") "validator"] [] "a" "validator"
      (.name "int")
      (.call (.attr (.name "attr") "ib") (.argCons (some "type") (.name "int") .argNil))
      []
      (by decide) (by decide) (by decide) (by decide) (Or.inl rfl)
      (Or.inr (by decide)) (by decide)⟩

end ModernizeAttrs

namespace ModernizeAttrs

/-- A non-`Name` assignment target yields `field_name = None`, which is
never in the forced-builder set. -/
theorem forcedName_of_not_name (decorated : List String) (tgt : Expr)
    (hnn : ∀ s, tgt ≠ Expr.name s) :
    forcedName decorated tgt = false := by
  cases tgt with
  | name s => exact absurd rfl (hnn s)
  | attr b f => rfl
  | call f args => rfl
  | argNil => rfl
  | argCons kw v tl => rfl
  | tup2 a b => rfl
  | lit s => rfl

/-- Concrete module for C6: a tuple-target field with a typed builder
call in an otherwise safe class. -/
def c6mod : List TopStmt :=
  [ .importMod "attr",
    .classDef "C6" [.attr (.name "attr") "s"]
      [ .assign (.tup2 (.name "p") (.name "q")) []
          (.call (.attr (.name "attr") "ib")
            (.argCons (some "type") (.name "int") .argNil)) ] ]

/-- Counterexample to C6 as stated: the transformer does not refuse to
rewrite a field whose assignment target is not a simple name — the
tuple-target declaration is rewritten (to an annotated declaration), not
left unchanged. -/
theorem c6_counterexample :
    (walkedOf stdResolver c6mod).get? 1
      = some (.classDef "C6" [.name "define"]
          [ .annAssign (.tup2 (.name "p") (.name "q")) (.name "int") none ])
      ∧ (Stmt.annAssign (.tup2 (.name "p") (.name "q")) (.name "int") none
          ≠ .assign (.tup2 (.name "p") (.name "q")) []
              (.call (.attr (.name "attr") "ib")
                (.argCons (some "type") (.name "int") .argNil))) := by decide

/-- C6 (amended): a field whose assignment target is not a simple name is
not refused: in a safe class it is rewritten through the normal
`leave_Assign` path, with the full target expression kept and the
forced-builder lookup evaluating to false; the rest of the class is
still processed normally. -/
theorem c6_amended (res : Resolver) (items : List TopStmt)
    (i : Nat) (nm : String) (decs : List Expr) (body : List Stmt)
    (k : Nat) (tgt : Expr) (extras : List Expr) (v : Expr)
    (hit : items.get? i = some (.classDef nm decs body))
    (hsafe : classUntyped res decs body = false)
    (hk : body.get? k = some (.assign tgt extras v))
    (hib : isIbCallB res v = true)
    (hnn : ∀ s, tgt ≠ Expr.name s) :
    (walkedOf res items).get? i = some
        (.classDef nm (decs.map (rewriteDecorator res))
          (body.map (rewriteStmt res (collectDecoratedFields body))))
      ∧ (body.map (rewriteStmt res (collectDecoratedFields body))).get? k
          = some (rewriteAssignStmt (collectDecoratedFields body) tgt v)
      ∧ forcedName (collectDecoratedFields body) tgt = false := by
  have hw := walkItems_get_class res initSt items i nm decs body hit
  simp only [hsafe, if_false, Bool.false_eq_true] at hw
  refine ⟨hw, ?_, forcedName_of_not_name _ _ hnn⟩
  rw [List.get?_map, hk]
  simp [rewriteStmt, hib]

/-- Witness for the amended C6 at the tuple-target module. -/
theorem c6_amended_witness :
    (c6mod.get? 1 = some (.classDef "C6" [.attr (.name "attr") "s"]
        [ .assign (.tup2 (.name "p") (.name "q")) []
            (.call (.attr (.name "attr") "ib")
              (.argCons (some "type") (.name "int") .argNil)) ])
      ∧ classUntyped stdResolver [.attr (.name "attr") "s"]
          [ .assign (.tup2 (.name "p") (.name "q")) []
              (.call (.attr (.name "attr") "ib")
                (.argCons (some "type") (.name "int") .argNil)) ] = false)
      ∧ ((walkedOf stdResolver c6mod).get? 1 = some
          (.classDef "C6" ([Expr.attr (.name "attr") "s"].map (rewriteDecorator stdResolver))
            ([ Stmt.assign (.tup2 (.name "p") (.name "q")) []
                (.call (.attr (.name "attr") "ib")
                  (.argCons (some "type") (.name "int") .argNil)) ].map
              (rewriteStmt stdResolver (collectDecoratedFields
                [ Stmt.assign (.tup2 (.name "p") (.name "q")) []
                    (.call (.attr (.name "attr") "ib")
                      (.argCons (some "type") (.name "int") .argNil)) ]))))
        ∧ ([ Stmt.assign (.tup2 (.name "p") (.name "q")) []
              (.call (.attr (.name "attr") "ib")
                (.argCons (some "type") (.name "int") .argNil)) ].map
            (rewriteStmt stdResolver (collectDecoratedFields
              [ Stmt.assign (.tup2 (.name "p") (.name "q")) []
                  (.call (.attr (.name "attr") "ib")
                    (.argCons (some "type") (.name "int") .argNil)) ]))).get? 0
            = some (rewriteAssignStmt (collectDecoratedFields
                [ Stmt.assign (.tup2 (.name "p") (.name "q")) []
                    (.call (.attr (.name "attr") "ib")
                      (.argCons (some "type") (.name "int") .argNil)) ])
                (.tup2 (.name "p") (.name "q"))
                (.call (.attr (.name "attr") "ib")
                  (.argCons (some "type") (.name "int") .argNil)))
        ∧ forcedName (collectDecoratedFields
              [ Stmt.assign (.tup2 (.name "p") (.name "q")) []
                  (.call (.attr (.name "attr") "ib")
                    (.argCons (some "type") (.name "int") .argNil)) ])
            (.tup2 (.name "p") (.name "q")) = false) :=
  ⟨⟨by decide, by decide⟩,
    c6_amended stdResolver c6mod 1 "C6" [.attr (.name "attr") "s"]
      [ .assign (.tup2 (.name "p") (.name "q")) []
          (.call (.attr (.name "attr") "ib")
            (.argCons (some "type") (.name "int") .argNil)) ]
      0 (.tup2 (.name "p") (.name "q")) []
      (.call (.attr (.name "attr") "ib") (.argCons (some "type") (.name "int") .argNil))
      (by decide) (by decide) (by decide) (by decide)
      (fun s h => Expr.noConfusion h)⟩

end ModernizeAttrs

namespace ModernizeAttrs

/-- Parsing a single `default=<factory-shaped>` argument. -/
theorem parse_single_default_factory (d : Expr) (hfac : factoryShaped d = true) :
    parseFieldArgs [(some "default", d)]
      = ⟨callFuncOpt d, firstArgVal d, none, some d, []⟩ := by
  simp only [parseFieldArgs, List.foldl, parseStep, hfac]
  cases h : firstArgVal d <;> simp [h]

/-- Concrete module for C7: a factory default written with a dotted
receiver, `attr.Factory(list)`. -/
def c7mod : List TopStmt :=
  [ .importMod "attr",
    .classDef "C7" [.attr (.name "attr") "s"]
      [ .annAssign (.name "x") (.name "list")
          (some (.call (.attr (.name "attr") "ib")
            (.argCons (some "default")
              (.call (.attr (.name "attr") "Factory")
                (.argCons none (.name "list") .argNil)) .argNil))) ] ]

/-- Counterexample to C7 as stated: the emitted value is not the original
FactoryWrapper call — `attr.Factory(list)` is rebuilt as the bare-name
call `Factory(list)`, a different expression. -/
theorem c7_counterexample :
    (walkedOf stdResolver c7mod).get? 1
      = some (.classDef "C7" [.name "define"]
          [ .annAssign (.name "x") (.name "list")
              (some (.call (.name "Factory")
                (.argCons none (.name "list") .argNil))) ])
      ∧ (Expr.call (.name "Factory") (.argCons none (.name "list") .argNil)
          ≠ .call (.attr (.name "attr") "Factory")
              (.argCons none (.name "list") .argNil)) := by decide

/-- C7 (amended): for an annotated field of a safe class whose builder
call has exactly a factory-shaped `default` with at least one argument,
and which is not forced, the emitted value is the factory call rebuilt as
the bare name `Factory` applied positionally to the extracted factory
value — equal to the original call only when that call was already of
this exact shape; no generic builder call is emitted for the field. -/
theorem c7_amended (res : Resolver) (items : List TopStmt)
    (i : Nat) (nm : String) (decs : List Expr) (body : List Stmt)
    (k : Nat) (tgt a v d fv : Expr)
    (hit : items.get? i = some (.classDef nm decs body))
    (hsafe : classUntyped res decs body = false)
    (hk : body.get? k = some (.annAssign tgt a (some v)))
    (hib : isIbCallB res v = true)
    (hargs : callArgs v = .argCons (some "default") d .argNil)
    (hfac : factoryShaped d = true)
    (hfv : firstArgVal d = some fv)
    (hnf : forcedName (collectDecoratedFields body) tgt = false) :
    (walkedOf res items).get? i = some
        (.classDef nm (decs.map (rewriteDecorator res))
          (body.map (rewriteStmt res (collectDecoratedFields body))))
      ∧ (body.map (rewriteStmt res (collectDecoratedFields body))).get? k
          = some (.annAssign tgt a (some (factoryCallOf fv))) := by
  have hw := walkItems_get_class res initSt items i nm decs body hit
  simp only [hsafe, if_false, Bool.false_eq_true] at hw
  refine ⟨hw, ?_⟩
  rw [List.get?_map, hk]
  have hp := parse_single_default_factory d hfac
  cases d with
  | call f as =>
    simp [rewriteStmt, hib, rewriteAnnAssign, hargs, argsToList, hp, hfv,
      buildFieldValue, hnf, callFuncOpt]
  | name s => simp [factoryShaped] at hfac
  | attr b fld => simp [factoryShaped] at hfac
  | argNil => simp [factoryShaped] at hfac
  | argCons kw x tl => simp [factoryShaped] at hfac
  | tup2 x y => simp [factoryShaped] at hfac
  | lit s => simp [factoryShaped] at hfac

/-- Witness for the amended C7 at a bare-`Factory` module. -/
def c7wmod : List TopStmt :=
  [ .importMod "attr",
    .classDef "C7w" [.attr (.name "attr") "s"]
      [ .annAssign (.name "x") (.name "list")
          (some (.call (.attr (.name "attr") "ib")
            (.argCons (some "default")
              (.call (.name "Factory")
                (.argCons none (.name "list") .argNil)) .argNil))) ] ]

/-- Witness for the amended C7. -/
theorem c7_amended_witness :
    (c7wmod.get? 1 = some (.classDef "C7w" [.attr (.name "attr") "s"]
        [ .annAssign (.name "x") (.name "list")
            (some (.call (.attr (.name "attr") "ib")
              (.argCons (some "default")
                (.call (.name "Factory")
                  (.argCons none (.name "list") .argNil)) .argNil))) ])
      ∧ factoryShaped (.call (.name "Factory")
          (.argCons none (.name "list") .argNil)) = true)
      ∧ ((walkedOf stdResolver c7wmod).get? 1 = some
          (.classDef "C7w" ([Expr.attr (.name "attr") "s"].map (rewriteDecorator stdResolver))
            ([ Stmt.annAssign (.name "x") (.name "list")
                (some (.call (.attr (.name "attr") "ib")
                  (.argCons (some "default")
                    (.call (.name "Factory")
                      (.argCons none (.name "list") .argNil)) .argNil))) ].map
              (rewriteStmt stdResolver (collectDecoratedFields
                [ Stmt.annAssign (.name "x") (.name "list")
                    (some (.call (.attr (.name "attr") "ib")
                      (.argCons (some "default")
                        (.call (.name "Factory")
                          (.argCons none (.name "list") .argNil)) .argNil))) ]))))
        ∧ ([ Stmt.annAssign (.name "x") (.name "list")
              (some (.call (.attr (.name "attr") "ib")
                (.argCons (some "default")
                  (.call (.name "Factory")
                    (.argCons none (.name "list") .argNil)) .argNil))) ].map
            (rewriteStmt stdResolver (collectDecoratedFields
              [ Stmt.annAssign (.name "x") (.name "list")
                  (some (.call (.attr (.name "attr") "ib")
                    (.argCons (some "default")
                      (.call (.name "Factory")
                        (.argCons none (.name "list") .argNil)) .argNil))) ]))).get? 0
            = some (.annAssign (.name "x") (.name "list")
                (some (factoryCallOf (.name "list"))))) :=
  ⟨⟨by decide, by decide⟩,
    c7_amended stdResolver c7wmod 1 "C7w" [.attr (.name "attr") "s"]
      [ .annAssign (.name "x") (.name "list")
          (some (.call (.attr (.name "attr") "ib")
            (.argCons (some "default")
              (.call (.name "Factory")
                (.argCons none (.name "list") .argNil)) .argNil))) ]
      0 (.name "x") (.name "list")
      (.call (.attr (.name "attr") "ib")
        (.argCons (some "default")
          (.call (.name "Factory")
            (.argCons none (.name "list") .argNil)) .argNil))
      (.call (.name "Factory") (.argCons none (.name "list") .argNil))
      (.name "list")
      (by decide) (by decide) (by decide) (by decide) (by decide) (by decide)
      (by decide) (by decide)⟩

/-- C10: for an annotated field of a safe class whose builder call has
exactly a factory-shaped `default` with zero arguments (e.g.
`default=Factory()`), and which is not forced, the rewrite emits a bare
annotated declaration with no initializer — the default is silently
dropped. -/
theorem c10_zero_arg_factory (res : Resolver) (items : List TopStmt)
    (i : Nat) (nm : String) (decs : List Expr) (body : List Stmt)
    (k : Nat) (tgt a v d : Expr)
    (hit : items.get? i = some (.classDef nm decs body))
    (hsafe : classUntyped res decs body = false)
    (hk : body.get? k = some (.annAssign tgt a (some v)))
    (hib : isIbCallB res v = true)
    (hargs : callArgs v = .argCons (some "default") d .argNil)
    (hfac : factoryShaped d = true)
    (hfv : firstArgVal d = none)
    (hnf : forcedName (collectDecoratedFields body) tgt = false) :
    (walkedOf res items).get? i = some
        (.classDef nm (decs.map (rewriteDecorator res))
          (body.map (rewriteStmt res (collectDecoratedFields body))))
      ∧ (body.map (rewriteStmt res (collectDecoratedFields body))).get? k
          = some (.annAssign tgt a none) := by
  have hw := walkItems_get_class res initSt items i nm decs body hit
  simp only [hsafe, if_false, Bool.false_eq_true] at hw
  refine ⟨hw, ?_⟩
  rw [List.get?_map, hk]
  have hp := parse_single_default_factory d hfac
  cases d with
  | call f as =>
    simp [rewriteStmt, hib, rewriteAnnAssign, hargs, argsToList, hp, hfv,
      buildFieldValue, hnf, callFuncOpt]
  | name s => simp [factoryShaped] at hfac
  | attr b fld => simp [factoryShaped] at hfac
  | argNil => simp [factoryShaped] at hfac
  | argCons kw x tl => simp [factoryShaped] at hfac
  | tup2 x y => simp [factoryShaped] at hfac
  | lit s => simp [factoryShaped] at hfac

/-- Concrete module for the C10 witness: `default=Factory()`. -/
def c10mod : List TopStmt :=
  [ .importMod "attr",
    .classDef "C10" [.attr (.name "attr") "s"]
      [ .annAssign (.name "x") (.name "list")
          (some (.call (.attr (.name "attr") "ib")
            (.argCons (some "default")
              (.call (.name "Factory") .argNil) .argNil))) ] ]

/-- Witness for C10. -/
theorem c10_zero_arg_factory_witness :
    (c10mod.get? 1 = some (.classDef "C10" [.attr (.name "attr") "s"]
        [ .annAssign (.name "x") (.name "list")
            (some (.call (.attr (.name "attr") "ib")
              (.argCons (some "default")
                (.call (.name "Factory") .argNil) .argNil))) ])
      ∧ firstArgVal (.call (.name "Factory") .argNil) = none)
      ∧ ((walkedOf stdResolver c10mod).get? 1 = some
          (.classDef "C10" ([Expr.attr (.name "attr") "s"].map (rewriteDecorator stdResolver))
            ([ Stmt.annAssign (.name "x") (.name "list")
                (some (.call (.attr (.name "attr") "ib")
                  (.argCons (some "default")
                    (.call (.name "Factory") .argNil) .argNil))) ].map
              (rewriteStmt stdResolver (collectDecoratedFields
                [ Stmt.annAssign (.name "x") (.name "list")
                    (some (.call (.attr (.name "attr") "ib")
                      (.argCons (some "default")
                        (.call (.name "Factory") .argNil) .argNil))) ]))))
        ∧ ([ Stmt.annAssign (.name "x") (.name "list")
              (some (.call (.attr (.name "attr") "ib")
                (.argCons (some "default")
                  (.call (.name "Factory") .argNil) .argNil))) ].map
            (rewriteStmt stdResolver (collectDecoratedFields
              [ Stmt.annAssign (.name "x") (.name "list")
                  (some (.call (.attr (.name "attr") "ib")
                    (.argCons (some "default")
                      (.call (.name "Factory") .argNil) .argNil))) ]))).get? 0
            = some (.annAssign (.name "x") (.name "list") none)) :=
  ⟨⟨by decide, by decide⟩,
    c10_zero_arg_factory stdResolver c10mod 1 "C10" [.attr (.name "attr") "s"]
      [ .annAssign (.name "x") (.name "list")
          (some (.call (.attr (.name "attr") "ib")
            (.argCons (some "default")
              (.call (.name "Factory") .argNil) .argNil))) ]
      0 (.name "x") (.name "list")
      (.call (.attr (.name "attr") "ib")
        (.argCons (some "default")
          (.call (.name "Factory") .argNil) .argNil))
      (.call (.name "Factory") .argNil)
      (by decide) (by decide) (by decide) (by decide) (by decide) (by decide)
      (by decide) (by decide)⟩

end ModernizeAttrs

namespace ModernizeAttrs

/-- Well-formed (nil-terminated) argument lists, as produced by the
parser for every real call node. -/
def isArgList : Expr → Bool
  | .argNil => true
  | .argCons _ _ tl => isArgList tl
  | _ => false

/-- The predicate characterising the decorator arguments the filter
keeps: everything except `auto_attribs=True`. -/
def keepDecArg (pr : Option String × Expr) : Bool :=
  !(pr.1 == some "auto_attribs" && pr.2 == Expr.name "True")

/-- On a well-formed argument list, the `auto_attribs` filter is the list
filter by `keepDecArg`. -/
theorem filterAutoAttribs_eq (args : Expr) (hwf : isArgList args = true) :
    filterAutoAttribs args = argsOfList ((argsToList args).filter keepDecArg) := by
  induction args with
  | argNil => simp [filterAutoAttribs, argsToList, argsOfList]
  | argCons kw v tl ihv ihtl =>
    have htl : isArgList tl = true := by simpa [isArgList] using hwf
    by_cases h : kw = some "auto_attribs" ∧ v = Expr.name "True"
    · obtain ⟨h1, h2⟩ := h
      subst h1; subst h2
      simp [filterAutoAttribs, argsToList, List.filter, keepDecArg, ihtl htl]
    · have hk : keepDecArg (kw, v) = true := by
        by_cases h1 : kw = some "auto_attribs"
        · have h2 : v ≠ Expr.name "True" := fun hv => h ⟨h1, hv⟩
          simp [keepDecArg, h1, h2]
        · simp [keepDecArg, h1]
      simp [filterAutoAttribs, h, argsToList, List.filter, hk, argsOfList, ihtl htl]
  | name s => simp [isArgList] at hwf
  | attr b f ih => simp [isArgList] at hwf
  | call f as ih1 ih2 => simp [isArgList] at hwf
  | tup2 a b ih1 ih2 => simp [isArgList] at hwf
  | lit s => simp [isArgList] at hwf

/-- C8: a legacy marker decorator with arguments on a safe class is
rewritten to `define` applied to the original arguments with every
`auto_attribs=True` argument dropped (everything else kept in order,
including `auto_attribs=False`); when nothing survives the filter the
bare marker `define` is emitted instead of a call. -/
theorem c8_decorator_args (res : Resolver) (items : List TopStmt)
    (i : Nat) (nm : String) (decs : List Expr) (body : List Stmt)
    (j : Nat) (f args : Expr)
    (hit : items.get? i = some (.classDef nm decs body))
    (hsafe : classUntyped res decs body = false)
    (hj : decs.get? j = some (.call f args))
    (hwf : isArgList args = true)
    (hmark : isAttrsDecoratorB res (.call f args) = true) :
    (walkedOf res items).get? i = some
        (.classDef nm (decs.map (rewriteDecorator res))
          (body.map (rewriteStmt res (collectDecoratedFields body))))
      ∧ (decs.map (rewriteDecorator res)).get? j = some
          (if (argsToList args).filter keepDecArg = [] then Expr.name "define"
           else .call (.name "define")
             (argsOfList ((argsToList args).filter keepDecArg))) := by
  have hw := walkItems_get_class res initSt items i nm decs body hit
  simp only [hsafe, if_false, Bool.false_eq_true] at hw
  refine ⟨hw, ?_⟩
  rw [List.get?_map, hj]
  simp only [Option.map_some']
  congr 1
  rw [rewriteDecorator, if_pos hmark]
  rw [filterAutoAttribs_eq args hwf]
  cases hfa : (argsToList args).filter keepDecArg with
  | nil => simp [argsOfList]
  | cons x xs =>
    obtain ⟨kw, v⟩ := x
    simp [argsOfList]

/-- Concrete module for the C8 witness: `@attr.s(auto_attribs=True,
frozen=True)`. -/
def c8mod : List TopStmt :=
  [ .importMod "attr",
    .classDef "C8"
      [ .call (.attr (.name "attr") "s")
          (.argCons (some "auto_attribs") (.name "True")
            (.argCons (some "frozen") (.name "True") .argNil)) ]
      [ .annAssign (.name "a") (.name "int") none ] ]

/-- Witness for C8: `auto_attribs=True` is dropped and `frozen=True`
survives. -/
theorem c8_decorator_args_witness :
    (c8mod.get? 1 = some (.classDef "C8"
        [ .call (.attr (.name "attr") "s")
            (.argCons (some "auto_attribs") (.name "True")
              (.argCons (some "frozen") (.name "True") .argNil)) ]
        [ .annAssign (.name "a") (.name "int") none ])
      ∧ isAttrsDecoratorB stdResolver
          (.call (.attr (.name "attr") "s")
            (.argCons (some "auto_attribs") (.name "True")
              (.argCons (some "frozen") (.name "True") .argNil))) = true)
      ∧ ((walkedOf stdResolver c8mod).get? 1 = some
          (.classDef "C8"
            ([ Expr.call (.attr (.name "attr") "s")
                (.argCons (some "auto_attribs") (.name "True")
                  (.argCons (some "frozen") (.name "True") .argNil)) ].map
              (rewriteDecorator stdResolver))
            ([ Stmt.annAssign (.name "a") (.name "int") none ].map
              (rewriteStmt stdResolver (collectDecoratedFields
                [ Stmt.annAssign (.name "a") (.name "int") none ]))))
        ∧ ([ Expr.call (.attr (.name "attr") "s")
              (.argCons (some "auto_attribs") (.name "True")
                (.argCons (some "frozen") (.name "True") .argNil)) ].map
            (rewriteDecorator stdResolver)).get? 0 = some
            (if (argsToList (.argCons (some "auto_attribs") (.name "True")
                  (.argCons (some "frozen") (.name "True") .argNil))).filter keepDecArg = []
             then Expr.name "define"
             else .call (.name "define")
               (argsOfList ((argsToList (.argCons (some "auto_attribs") (.name "True")
                  (.argCons (some "frozen") (.name "True") .argNil))).filter keepDecArg)))) :=
  ⟨⟨by decide, by decide⟩,
    c8_decorator_args stdResolver c8mod 1 "C8"
      [ .call (.attr (.name "attr") "s")
          (.argCons (some "auto_attribs") (.name "True")
            (.argCons (some "frozen") (.name "True") .argNil)) ]
      [ .annAssign (.name "a") (.name "int") none ]
      0 (.attr (.name "attr") "s")
      (.argCons (some "auto_attribs") (.name "True")
        (.argCons (some "frozen") (.name "True") .argNil))
      (by decide) (by decide) (by decide) (by decide) (by decide)⟩

end ModernizeAttrs

namespace ModernizeAttrs

/-- One step of the untyped-flag evolution across a module item (the flag
is reset on entering a class, to that class's verdict, and otherwise
left alone). -/
def flagStep (res : Resolver) (flag0 : Bool) : TopStmt → Bool
  | .classDef _ decs body => classUntyped res decs body
  | _ => flag0

/-- Does processing this item set `did_transform` to true (given the
stale flag value before it)?  A safe class with a marker decorator or a
builder-call field does; so does a module-level annotated assignment with
a builder-call value while the stale flag is down. -/
def setsStep (res : Resolver) (flag0 : Bool) : TopStmt → Bool
  | .classDef _ decs body =>
      !classUntyped res decs body && classDidRewrite res decs body
  | .stmt (.annAssign _ _ (some v)) => !flag0 && isIbCallB res v
  | _ => false

/-- Does processing this item reset `did_transform` to false (an unsafe
class)? -/
def resetStep (res : Resolver) : TopStmt → Bool
  | .classDef _ decs body => classUntyped res decs body
  | _ => false

/-- Indexed `did_transform`-setting events relative to an initial flag. -/
def setsTrueRel (res : Resolver) (flag0 : Bool) : List TopStmt → Nat → Bool
  | [], _ => false
  | t :: _, 0 => setsStep res flag0 t
  | t :: tl, i + 1 => setsTrueRel res (flagStep res flag0 t) tl i

/-- Indexed `did_transform`-resetting events. -/
def resetsRel (res : Resolver) : List TopStmt → Nat → Bool
  | [], _ => false
  | t :: _, 0 => resetStep res t
  | _ :: tl, i + 1 => resetsRel res tl i

/-- The setting events of a whole module run (initial flag false). -/
def setsTrueAt (res : Resolver) (items : List TopStmt) (i : Nat) : Bool :=
  setsTrueRel res false items i

/-- The resetting events of a whole module run. -/
def resetsAt (res : Resolver) (items : List TopStmt) (i : Nat) : Bool :=
  resetsRel res items i

/-- The flag after one item. -/
theorem procTop_flag (res : Resolver) (st : WalkSt) (t : TopStmt) :
    (processTop res st t).2.flag = flagStep res st.flag t := by
  cases t with
  | classDef nm decs body =>
    by_cases h : classUntyped res decs body
    · simp [processTop, h, flagStep]
    · simp [processTop, h, flagStep]
  | importMod mn => rfl
  | importFrom mn ns => rfl
  | stmt s =>
    cases s with
    | annAssign tgt a v =>
      cases v with
      | none => rfl
      | some x =>
        by_cases h : !st.flag && isIbCallB res x
        · simp [processTop, h, flagStep]
        · simp [processTop, h, flagStep]
    | assign tgt e v => rfl
    | funcDef nm decs body => rfl
    | exprStmt e => rfl

/-- The `did_transform` flag after one item. -/
theorem procTop_did (res : Resolver) (st : WalkSt) (t : TopStmt) :
    (processTop res st t).2.did
      = (setsStep res st.flag t || (st.did && !resetStep res t)) := by
  cases t with
  | classDef nm decs body =>
    by_cases h : classUntyped res decs body
    · simp [processTop, h, setsStep, resetStep]
    · simp [processTop, h, setsStep, resetStep, Bool.or_comm]
  | importMod mn => simp [processTop, setsStep, resetStep]
  | importFrom mn ns => simp [processTop, setsStep, resetStep]
  | stmt s =>
    cases s with
    | annAssign tgt a v =>
      cases v with
      | none => simp [processTop, setsStep, resetStep]
      | some x =>
        by_cases h : !st.flag && isIbCallB res x
        · simp [processTop, h, setsStep, resetStep]
        · simp [processTop, h, setsStep, resetStep]
    | assign tgt e v => simp [processTop, setsStep, resetStep]
    | funcDef nm decs body => simp [processTop, setsStep, resetStep]
    | exprStmt e => simp [processTop, setsStep, resetStep]

/-- No reset anywhere in `t :: ts` splits into the head and the tail. -/
theorem allReset_cons_iff (res : Resolver) (t : TopStmt) (ts : List TopStmt) :
    (∀ j, resetsRel res (t :: ts) j = false)
      ↔ (resetStep res t = false ∧ ∀ j, resetsRel res ts j = false) := by
  constructor
  · intro h
    exact ⟨h 0, fun j => h (j + 1)⟩
  · intro h j
    cases j with
    | zero => exact h.1
    | succ n => exact h.2 n

/-- No reset after position zero in `t :: ts` is no reset anywhere in
`ts`. -/
theorem noReset_zero_iff (res : Resolver) (t : TopStmt) (ts : List TopStmt) :
    (∀ j, 0 < j → resetsRel res (t :: ts) j = false)
      ↔ (∀ j, resetsRel res ts j = false) := by
  constructor
  · intro h j
    exact h (j + 1) (Nat.succ_pos j)
  · intro h j hj
    cases j with
    | zero => exact absurd hj (lt_irrefl 0)
    | succ n => exact h n

/-- No reset after `i + 1` in `t :: ts` is no reset after `i` in `ts`. -/
theorem noReset_succ_iff (res : Resolver) (t : TopStmt) (ts : List TopStmt) (i : Nat) :
    (∀ j, i + 1 < j → resetsRel res (t :: ts) j = false)
      ↔ (∀ j, i < j → resetsRel res ts j = false) := by
  constructor
  · intro h j hj
    exact h (j + 1) (Nat.succ_lt_succ hj)
  · intro h j hj
    cases j with
    | zero => exact absurd hj (Nat.not_lt_zero _)
    | succ n => exact h n (Nat.lt_of_succ_lt_succ hj)

/-- Characterisation of the final `did_transform` value: it is true
exactly when some item set it and no later item reset it. -/
theorem walk_did_char (res : Resolver) (ts : List TopStmt) : ∀ st : WalkSt,
    ((walkItems res st ts).2.did = true ↔
      (∃ i, setsTrueRel res st.flag ts i = true
          ∧ ∀ j, i < j → resetsRel res ts j = false)
        ∨ (st.did = true ∧ ∀ j, resetsRel res ts j = false)) := by
  induction ts with
  | nil =>
    intro st
    constructor
    · intro h
      exact Or.inr ⟨h, fun j => rfl⟩
    · rintro (⟨i, hi, _⟩ | ⟨h, _⟩)
      · cases i <;> cases hi
      · exact h
  | cons t ts ih =>
    intro st
    have hw : (walkItems res st (t :: ts)).2 = (walkItems res (processTop res st t).2 ts).2 := by
      simp [walkItems]
    rw [hw, ih ((processTop res st t).2)]
    rw [procTop_did res st t, procTop_flag res st t]
    constructor
    · rintro (⟨i, hi, hafter⟩ | ⟨hdid, hall⟩)
      · exact Or.inl ⟨i + 1, hi, (noReset_succ_iff res t ts i).mpr hafter⟩
      · rcases Bool.or_eq_true_iff.mp hdid with hset | hkeep
        · exact Or.inl ⟨0, hset, (noReset_zero_iff res t ts).mpr hall⟩
        · rcases Bool.and_eq_true_iff.mp hkeep with ⟨h1, h2⟩
          refine Or.inr ⟨h1, (allReset_cons_iff res t ts).mpr ⟨?_, hall⟩⟩
          cases hres : resetStep res t
          · rfl
          · rw [hres] at h2; cases h2
    · rintro (⟨i, hi, hafter⟩ | ⟨hdid, hall⟩)
      · cases i with
        | zero =>
          refine Or.inr ⟨?_, (noReset_zero_iff res t ts).mp hafter⟩
          rw [show setsTrueRel res st.flag (t :: ts) 0 = setsStep res st.flag t from rfl] at hi
          simp [hi]
        | succ n =>
          exact Or.inl ⟨n, hi, (noReset_succ_iff res t ts n).mp hafter⟩
      · have hsplit := (allReset_cons_iff res t ts).mp hall
        refine Or.inr ⟨?_, hsplit.2⟩
        simp [hdid, hsplit.1]
  
end ModernizeAttrs

namespace ModernizeAttrs

/-- C9 (amended): the final "did any class change" flag is true if and
only if some item (a safe class with a rewrite, or a module-level
annotated assignment with a builder-call value under a stale-down flag)
set it and no later class was skipped as unsafe — an unsafe class resets
the flag to false, discarding the record of earlier rewrites. -/
theorem c9_amended (res : Resolver) (items : List TopStmt) :
    (transformModule res items).did = true ↔
      ∃ i, setsTrueAt res items i = true
          ∧ ∀ j, i < j → resetsAt res items j = false := by
  have h := walk_did_char res items initSt
  have hd : (transformModule res items).did = (walkItems res initSt items).2.did := rfl
  rw [hd, h]
  constructor
  · rintro (⟨i, hi, hafter⟩ | ⟨hdid, _⟩)
    · exact ⟨i, hi, hafter⟩
    · cases hdid
  · rintro ⟨i, hi, hafter⟩
    exact Or.inl ⟨i, hi, hafter⟩

/-- Concrete module for the C9 counterexample: a safe rewritten class
followed by an unsafe one. -/
def c9mod : List TopStmt :=
  [ .importMod "attr",
    .classDef "C9a" [.attr (.name "attr") "s"]
      [ .assign (.name "x") []
          (.call (.attr (.name "attr") "ib")
            (.argCons (some "type") (.name "int") .argNil)) ],
    .classDef "C9b" [.attr (.name "attr") "s"]
      [ .assign (.name "y") [] (.call (.attr (.name "attr") "ib") .argNil) ] ]

/-- Counterexample to C9 as stated: the first class is rewritten (its
walked subtree differs from the input), yet the final flag is false,
because the later unsafe class reset it. -/
theorem c9_counterexample :
    (transformModule stdResolver c9mod).did = false
      ∧ (walkedOf stdResolver c9mod).get? 1 ≠ c9mod.get? 1 := by decide

end ModernizeAttrs

namespace ModernizeAttrs

/-- The walk never changes import statements, so the `attrs` import names
of the walked tree are those of the input. -/
theorem attrsImportNames_walk (res : Resolver) (st : WalkSt) (ts : List TopStmt) :
    attrsImportNames (walkItems res st ts).1 = attrsImportNames ts := by
  induction ts generalizing st with
  | nil => rfl
  | cons t ts ih =>
    cases t with
    | classDef nm decs body =>
      by_cases h : classUntyped res decs body
      · simp [walkItems, processTop, h, attrsImportNames, ih]
      · simp [walkItems, processTop, h, attrsImportNames, ih]
    | importMod mn => simp [walkItems, processTop, attrsImportNames, ih]
    | importFrom mn ns =>
      by_cases h : mn = "attrs"
      · simp [walkItems, processTop, attrsImportNames, h, ih]
      · simp [walkItems, processTop, attrsImportNames, h, ih]
    | stmt s =>
      cases s with
      | annAssign tgt a v =>
        cases v with
        | none => simp [walkItems, processTop, attrsImportNames, ih]
        | some x =>
          by_cases h : !st.flag && isIbCallB res x
          · simp [walkItems, processTop, h, attrsImportNames, ih]
          · simp [walkItems, processTop, h, attrsImportNames, ih]
      | assign tgt e v => simp [walkItems, processTop, attrsImportNames, ih]
      | funcDef nm decs body => simp [walkItems, processTop, attrsImportNames, ih]
      | exprStmt e => simp [walkItems, processTop, attrsImportNames, ih]

/-- A hypothesis of non-membership gives a false `contains`. -/
theorem contains_eq_false_of_not_mem (l : List String) (s : String)
    (h : ¬ s ∈ l) : l.contains s = false := by
  cases hc : l.contains s
  · rfl
  · exact absurd (by simpa [List.contains] using hc) h

/-- Merging import names never changes which names are referenced. -/
theorem moduleUses_mergeIntoFirst (missing : List String) (items : List TopStmt)
    (n : String) :
    moduleUses (mergeIntoFirst missing items) n = moduleUses items n := by
  unfold moduleUses
  induction items with
  | nil => rfl
  | cons x xs ih =>
    cases x with
    | classDef nm decs body => simp [mergeIntoFirst, List.any_cons, ih]
    | importMod mn => simp [mergeIntoFirst, List.any_cons, ih]
    | importFrom mn ns =>
      by_cases h : mn = "attrs"
      · simp [mergeIntoFirst, h, List.any_cons, topUsesName]
      · simp [mergeIntoFirst, h, List.any_cons, topUsesName, ih]
    | stmt s => simp [mergeIntoFirst, List.any_cons, ih]

/-- Inserting an import statement never changes which names are
referenced. -/
theorem moduleUses_insertAfterImports (mn : String) (ns : List String)
    (items : List TopStmt) (n : String) :
    moduleUses (insertAfterImports (.importFrom mn ns) items) n
      = moduleUses items n := by
  unfold moduleUses
  induction items with
  | nil => simp [insertAfterImports, topUsesName]
  | cons x xs ih =>
    simp only [insertAfterImports]
    split
    · simp [List.any_cons, ih]
    · simp [List.any_cons, topUsesName]

/-- The add pass never changes which names are referenced (it only adds
new import statements). -/
theorem moduleUses_applyAdds (adds : List String) (items : List TopStmt)
    (n : String) :
    moduleUses (applyAdds adds items) n = moduleUses items n := by
  unfold applyAdds
  by_cases h1 : (adds.filter (fun s => !(attrsImportNames items).contains s)).isEmpty = true
  · simp only [h1, if_true]
  · simp only [h1, if_false, Bool.false_eq_true]
    by_cases h2 : hasAttrsFromImport items = true
    · simp only [h2, if_true]
      exact moduleUses_mergeIntoFirst _ _ _
    · simp only [h2, if_false, Bool.false_eq_true]
      exact moduleUses_insertAfterImports _ _ _ _

/-- Membership in the `attrs` names after merging. -/
theorem mem_attrsNames_mergeIntoFirst (missing : List String)
    (items : List TopStmt) (s : String) :
    s ∈ attrsImportNames (mergeIntoFirst missing items)
      ↔ (s ∈ attrsImportNames items
          ∨ (s ∈ missing ∧ hasAttrsFromImport items = true)) := by
  induction items with
  | nil => simp [mergeIntoFirst, attrsImportNames, hasAttrsFromImport]
  | cons x xs ih =>
    cases x with
    | classDef nm decs body =>
      simp only [mergeIntoFirst, attrsImportNames, hasAttrsFromImport]
      exact ih
    | importMod mn =>
      simp only [mergeIntoFirst, attrsImportNames, hasAttrsFromImport]
      exact ih
    | importFrom mn ns =>
      by_cases h : mn = "attrs"
      · simp only [mergeIntoFirst, h, if_pos rfl, attrsImportNames, hasAttrsFromImport]
        simp [List.mem_append]
        tauto
      · simp only [mergeIntoFirst, h, if_neg h, attrsImportNames, hasAttrsFromImport,
          if_false]
        simpa [h] using ih
    | stmt s2 =>
      simp only [mergeIntoFirst, attrsImportNames, hasAttrsFromImport]
      exact ih

/-- Membership in the `attrs` names after inserting a fresh
`from attrs import …` statement. -/
theorem mem_attrsNames_insertAfterImports (missing : List String)
    (items : List TopStmt) (s : String) :
    s ∈ attrsImportNames (insertAfterImports (.importFrom "attrs" missing) items)
      ↔ (s ∈ attrsImportNames items ∨ s ∈ missing) := by
  induction items with
  | nil => simp [insertAfterImports, attrsImportNames]
  | cons x xs ih =>
    simp only [insertAfterImports]
    split
    · next hximp =>
      cases x with
      | classDef nm decs body => simpa [attrsImportNames] using ih
      | importMod mn => simpa [attrsImportNames] using ih
      | importFrom mn ns =>
        by_cases h : mn = "attrs"
        · simp only [attrsImportNames, h, if_pos rfl]
          simp [List.mem_append]
          rw [ih]
          tauto
        · simpa [attrsImportNames, h] using ih
      | stmt s2 => simpa [attrsImportNames] using ih
    · cases x with
      | classDef nm decs body => simp [attrsImportNames]; tauto
      | importMod mn => simp [attrsImportNames]; tauto
      | importFrom mn ns =>
        by_cases h : mn = "attrs"
        · simp [attrsImportNames, h]; tauto
        · simp [attrsImportNames, h]; tauto
      | stmt s2 => simp [attrsImportNames]; tauto

/-- Membership in the `attrs` names after the add pass. -/
theorem mem_attrsNames_applyAdds (adds : List String) (items : List TopStmt)
    (s : String) :
    s ∈ attrsImportNames (applyAdds adds items)
      ↔ (s ∈ attrsImportNames items ∨ s ∈ adds) := by
  unfold applyAdds
  by_cases h1 : (adds.filter (fun a => !(attrsImportNames items).contains a)).isEmpty = true
  · simp only [h1, if_true]
    constructor
    · exact Or.inl
    · rintro (h | h)
      · exact h
      · have hall := List.filter_eq_nil.mp (List.isEmpty_iff.mp h1)
        have := hall s h
        simp only [Bool.not_eq_true, Bool.not_eq_false] at this
        simpa [List.contains] using this
  · simp only [h1, if_false, Bool.false_eq_true]
    by_cases h2 : hasAttrsFromImport items = true
    · simp only [h2, if_true]
      rw [mem_attrsNames_mergeIntoFirst]
      constructor
      · rintro (h | ⟨hm, _⟩)
        · exact Or.inl h
        · exact Or.inr (List.mem_filter.mp hm).1
      · rintro (h | h)
        · exact Or.inl h
        · by_cases hin : s ∈ attrsImportNames items
          · exact Or.inl hin
          · refine Or.inr ⟨List.mem_filter.mpr ⟨h, ?_⟩, h2⟩
            simpa using hin
    · simp only [h2, if_false, Bool.false_eq_true]
      rw [mem_attrsNames_insertAfterImports]
      constructor
      · rintro (h | hm)
        · exact Or.inl h
        · exact Or.inr (List.mem_filter.mp hm).1
      · rintro (h | h)
        · exact Or.inl h
        · by_cases hin : s ∈ attrsImportNames items
          · exact Or.inl hin
          · refine Or.inr (List.mem_filter.mpr ⟨h, ?_⟩)
            simpa using hin

end ModernizeAttrs

namespace ModernizeAttrs

/-- For a name scheduled for removal from `attrs`, its survival in a
filtered name list is exactly prior presence together with usage. -/
theorem mem_filter_keep_attrs (used : String → Bool) (ns : List String)
    (s : String) (hs : (removalObjs "attrs").contains s = true) :
    s ∈ ns.filter (fun o => !((removalObjs "attrs").contains o && !used o))
      ↔ (s ∈ ns ∧ used s = true) := by
  rw [List.mem_filter]
  constructor
  · rintro ⟨h1, h2⟩
    rw [hs] at h2
    exact ⟨h1, by simpa using h2⟩
  · rintro ⟨h1, h2⟩
    exact ⟨h1, by simp [hs, h2]⟩

/-- Equation: `attrs` import names of a cons with a from-import head. -/
theorem attrsNames_cons_from (mn : String) (ns : List String) (xs : List TopStmt) :
    attrsImportNames (TopStmt.importFrom mn ns :: xs)
      = if mn = "attrs" then ns ++ attrsImportNames xs else attrsImportNames xs := rfl

/-- Membership in the `attrs` import names after the removal pass, for a
name scheduled for removal. -/
theorem mem_attrsNames_removeWith (used : String → Bool) (items : List TopStmt)
    (s : String) (hs : (removalObjs "attrs").contains s = true) :
    s ∈ attrsImportNames (removeWith used items)
      ↔ (s ∈ attrsImportNames items ∧ used s = true) := by
  induction items with
  | nil => simp [removeWith, attrsImportNames]
  | cons x xs ih =>
    have hrec : List.filterMap (removeItem used) xs = removeWith used xs := rfl
    cases x with
    | importFrom mn ns =>
      cases hns : ns.filter (fun o => !((removalObjs mn).contains o && !used o)) with
      | nil =>
        have hdrop : removeItem used (.importFrom mn ns) = none := by
          simp only [removeItem]
          rw [hns]
          rfl
        rw [removeWith, List.filterMap_cons, hdrop, hrec, ih, attrsNames_cons_from]
        by_cases hmn : mn = "attrs"
        · subst hmn
          have hrhs : ¬ (s ∈ ns ∧ used s = true) := by
            intro hcon
            have hm := (mem_filter_keep_attrs used ns s hs).mpr hcon
            rw [hns] at hm
            simp at hm
          rw [if_pos rfl]
          simp only [List.mem_append]
          tauto
        · rw [if_neg hmn]
      | cons a as =>
        have hkeep : removeItem used (.importFrom mn ns)
            = some (.importFrom mn (a :: as)) := by
          simp only [removeItem]
          rw [hns]
          rfl
        rw [removeWith, List.filterMap_cons, hkeep]
        rw [attrsNames_cons_from, attrsNames_cons_from, hrec]
        by_cases hmn : mn = "attrs"
        · subst hmn
          have hf := mem_filter_keep_attrs used ns s hs
          rw [hns] at hf
          rw [if_pos rfl, if_pos rfl]
          simp only [List.mem_append, ih]
          rw [hf]
          tauto
        · rw [if_neg hmn, if_neg hmn]
          exact ih
    | importMod mn =>
      by_cases hd : ((mn == "attr" || mn == "attrs") && !used mn) = true
      · have hdrop : removeItem used (.importMod mn) = none := by
          simp only [removeItem]
          rw [if_pos hd]
        rw [removeWith, List.filterMap_cons, hdrop, hrec, ih]
        simp [attrsImportNames]
      · have hkeep : removeItem used (.importMod mn) = some (.importMod mn) := by
          simp only [removeItem]
          rw [if_neg hd]
        rw [removeWith, List.filterMap_cons, hkeep]
        simp only [attrsImportNames, hrec]
        exact ih
    | classDef nm decs body =>
      rw [removeWith, List.filterMap_cons]
      simp only [removeItem, attrsImportNames, hrec]
      exact ih
    | stmt s2 =>
      rw [removeWith, List.filterMap_cons]
      simp only [removeItem, attrsImportNames, hrec]
      exact ih

/-- `field` is scheduled for addition exactly when the rendered code
contains the text `field(`. -/
theorem mem_addsOf_field (res : Resolver) (items : List TopStmt) :
    ("field" ∈ addsOf res items)
      ↔ hasSub fieldPat (renderModule (walkedOf res items)) = true := by
  unfold addsOf
  by_cases h1 : (hasSub factoryPat (renderModule (walkedOf res items))
      && !hasFromImport (walkedOf res items) "attr" "Factory") = true
  · by_cases h2 : hasSub fieldPat (renderModule (walkedOf res items)) = true
    · simp [walkedOf, h1, h2]
    · simp [walkedOf, h1, h2]
  · by_cases h2 : hasSub fieldPat (renderModule (walkedOf res items)) = true
    · simp [walkedOf, h1, h2]
    · simp [walkedOf, h1, h2]

/-- `Factory` is scheduled for addition exactly when the rendered code
contains the text `Factory(` and `Factory` is not already imported from
`attr`. -/
theorem mem_addsOf_factory (res : Resolver) (items : List TopStmt) :
    ("Factory" ∈ addsOf res items)
      ↔ (hasSub factoryPat (renderModule (walkedOf res items))
          && !hasFromImport (walkedOf res items) "attr" "Factory") = true := by
  unfold addsOf
  by_cases h1 : (hasSub factoryPat (renderModule (walkedOf res items))
      && !hasFromImport (walkedOf res items) "attr" "Factory") = true
  · by_cases h2 : hasSub fieldPat (renderModule (walkedOf res items)) = true
    · simp [walkedOf, h1, h2]
    · simp [walkedOf, h1, h2]
  · by_cases h2 : hasSub fieldPat (renderModule (walkedOf res items)) = true
    · simp [walkedOf, h1, h2]
    · simp [walkedOf, h1, h2]

/-- C4 (amended): after reconciliation the builder-symbol import is
present iff the pre-reconciliation rendered code contains the text
`field(` (or the import pre-existed) and the bare name `field` is
referenced in the walked tree; the factory-symbol import is present iff
the rendered code contains `Factory(` with `Factory` not already
imported from `attr` (or the import pre-existed) and the bare name
`Factory` is referenced. -/
theorem c4_amended (res : Resolver) (items : List TopStmt) :
    (("field" ∈ attrsImportNames (transformModule res items).items)
      ↔ ((hasSub fieldPat (renderModule (walkedOf res items)) = true
            ∨ "field" ∈ attrsImportNames items)
          ∧ moduleUses (walkedOf res items) "field" = true))
    ∧ (("Factory" ∈ attrsImportNames (transformModule res items).items)
      ↔ (((hasSub factoryPat (renderModule (walkedOf res items))
              && !hasFromImport (walkedOf res items) "attr" "Factory") = true
            ∨ "Factory" ∈ attrsImportNames items)
          ∧ moduleUses (walkedOf res items) "Factory" = true)) := by
  have hw : attrsImportNames (walkedOf res items) = attrsImportNames items :=
    attrsImportNames_walk res initSt items
  have htm : (transformModule res items).items
      = removeWith
          (fun n => moduleUses (applyAdds (addsOf res items) (walkedOf res items)) n)
          (applyAdds (addsOf res items) (walkedOf res items)) := rfl
  constructor
  · rw [htm, mem_attrsNames_removeWith _ _ _ (by decide), mem_attrsNames_applyAdds,
      hw, moduleUses_applyAdds, mem_addsOf_field]
    tauto
  · rw [htm, mem_attrsNames_removeWith _ _ _ (by decide), mem_attrsNames_applyAdds,
      hw, moduleUses_applyAdds, mem_addsOf_factory]
    tauto

/-- Concrete module for the C4 counterexample: a single unrelated call
`x = field(1)` at module level, with no class and no rewrite. -/
def c4mod : List TopStmt :=
  [ .stmt (.assign (.name "x") []
      (.call (.name "field") (.argCons none (.lit "1") .argNil))) ]

/-- Counterexample to C4 as stated: the builder-symbol import is added to
the output although the walk changed nothing (no field declaration was
emitted at all, the walked tree is the input and the change flag is
false). -/
theorem c4_counterexample :
    (transformModule stdResolver c4mod).items
      = [ .importFrom "attrs" ["field"],
          .stmt (.assign (.name "x") []
            (.call (.name "field") (.argCons none (.lit "1") .argNil))) ]
      ∧ walkedOf stdResolver c4mod = c4mod
      ∧ (transformModule stdResolver c4mod).did = false := by decide

end ModernizeAttrs

namespace ModernizeAttrs

/-- Concrete module for the C5 counterexample: a field whose `default=`
value is itself a legacy builder call. -/
def c5mod : List TopStmt :=
  [ .importMod "attr",
    .classDef "C5" [.attr (.name "attr") "s"]
      [ .annAssign (.name "x") (.name "int")
          (some (.call (.attr (.name "attr") "ib")
            (.argCons (some "default")
              (.call (.attr (.name "attr") "ib")
                (.argCons (some "type") (.name "str") .argNil)) .argNil))) ] ]

/-- Counterexample to C5 as stated: applying the transformation twice
does not equal applying it once.  The first pass emits
`x: int = attr.ib(type=str)` (the nested builder call becomes the simple
default); the second pass recognises that emitted value as a legacy call
and rewrites it again (also removing the now-unused legacy import). -/
theorem c5_counterexample :
    (transformModule stdResolver (transformModule stdResolver c5mod).items).items
      ≠ (transformModule stdResolver c5mod).items := by decide

end ModernizeAttrs

namespace ModernizeAttrs

/-- Clean defaults for one legacy builder call: none of its top-level
`default=` argument values is itself a legacy builder call. -/
def callDefaultsClean (res : Resolver) (v : Expr) : Bool :=
  (argsToList (callArgs v)).all
    (fun pr => if pr.1 = some "default" then !isIbCallB res pr.2 else true)

/-- Clean defaults for one statement: if the declaration's value is a
legacy builder call (a legacy field declaration), its `default=`
arguments are clean; other statements are unconstrained. -/
def stmtFieldDefaultsClean (res : Resolver) : Stmt → Bool
  | .annAssign _ _ (some v) =>
      if isIbCallB res v then callDefaultsClean res v else true
  | .assign _ _ v =>
      if isIbCallB res v then callDefaultsClean res v else true
  | _ => true

/-- Clean defaults for one module item. -/
def topFieldDefaultsClean (res : Resolver) : TopStmt → Bool
  | .classDef _ _ body => body.all (stmtFieldDefaultsClean res)
  | .stmt s => stmtFieldDefaultsClean res s
  | _ => true

/-- Clean defaults for a whole module: no legacy field declaration has a
`default=` argument value that is itself a legacy builder call. -/
def moduleFieldDefaultsClean (res : Resolver) (items : List TopStmt) : Bool :=
  items.all (topFieldDefaultsClean res)

/-- A simple default produced by the parser loop originates as a
`default=` argument of the list (or was already in the accumulator). -/
theorem parse_simpleDefault_src (l : List (Option String × Expr)) :
    ∀ (acc : Parsed) (d : Expr),
      (l.foldl (fun a pr => parseStep a pr.1 pr.2) acc).simpleDefault = some d →
      (some "default", d) ∈ l ∨ acc.simpleDefault = some d := by
  induction l with
  | nil => intro acc d h; exact Or.inr h
  | cons pr tl ih =>
    intro acc d h
    obtain ⟨kw, v⟩ := pr
    rcases ih (parseStep acc kw v) d h with hm | hacc
    · exact Or.inl (List.mem_cons_of_mem _ hm)
    · by_cases h1 : kw = some "type"
      · rw [parseStep, if_pos h1] at hacc
        exact Or.inr hacc
      · by_cases h2 : kw = some "default"
        · by_cases h3 : factoryShaped v = true
          · rw [parseStep, if_neg h1, if_pos h2, if_pos h3] at hacc
            exact Or.inr hacc
          · rw [parseStep, if_neg h1, if_pos h2, if_neg h3] at hacc
            simp only at hacc
            cases hacc
            subst h2
            exact Or.inl (List.mem_cons_self _ _)
        · rw [parseStep, if_neg h1, if_neg h2] at hacc
          exact Or.inr hacc

/-- The non-`type` arguments extracted by `_extract_attr_args` are among
the original arguments. -/
theorem mem_extractTypeArg_snd (l : List (Option String × Expr))
    (pr : Option String × Expr) (h : pr ∈ (extractTypeArg l).2) : pr ∈ l := by
  induction l with
  | nil => simp [extractTypeArg] at h
  | cons x tl ih =>
    obtain ⟨kw, v⟩ := x
    simp only [extractTypeArg] at h
    by_cases h1 : kw = some "type"
    · rw [if_pos h1] at h
      exact List.mem_cons_of_mem _ (ih h)
    · rw [if_neg h1] at h
      rcases List.mem_cons.mp h with rfl | hm
      · exact List.mem_cons_self _ _
      · exact List.mem_cons_of_mem _ (ih hm)

/-- The scan guarantees the `default=` values among a clean
declaration's arguments are not legacy builder calls. -/
theorem defaultsClean_default_mem (res : Resolver) (v : Expr) (d : Expr)
    (h : callDefaultsClean res v = true)
    (hm : (some "default", d) ∈ argsToList (callArgs v)) :
    isIbCallB res d = false := by
  rw [callDefaultsClean, List.all_eq_true] at h
  have h2 := h (some "default", d) hm
  simpa using h2

/-- A call with function name `Factory` is never a legacy builder call
under the standard resolver. -/
theorem isIb_factory_call (x : Expr) :
    isIbCallB stdResolver (.call (.name "Factory") x) = false := rfl

/-- A call with function name `field` is never a legacy builder call
under the standard resolver. -/
theorem isIb_field_call (x : Expr) :
    isIbCallB stdResolver (.call (.name "field") x) = false := rfl

/-- The bare name `define` never resolves to a legacy marker. -/
theorem isMarker_name_define :
    isAttrsDecoratorB stdResolver (.name "define") = false := rfl

/-- A `define(...)` call never resolves to a legacy marker. -/
theorem isMarker_call_define (x : Expr) :
    isAttrsDecoratorB stdResolver (.call (.name "define") x) = false := rfl

/-- The possible values of an emitted annotated declaration. -/
theorem buildFieldValue_ann_value_cases (tgt a : Expr) (p : Parsed) (force : Bool)
    (w : Expr) (h : buildFieldValue tgt (some a) p force = .annAssign tgt a (some w)) :
    p.simpleDefault = some w ∨ (∃ fv, w = factoryCallOf fv) ∨ w = fieldCallOf p := by
  simp only [buildFieldValue] at h
  split at h
  · injection h with h1 h2 h3
    exact Or.inl h3
  · split at h
    · split at h
      · injection h with h1 h2 h3
        injection h3 with h4
        exact Or.inr (Or.inl ⟨_, h4.symm⟩)
      · injection h with h1 h2 h3
        injection h3 with h4
        exact Or.inr (Or.inr h4.symm)
    · split at h
      · injection h with h1 h2 h3
        injection h3 with h4
        exact Or.inr (Or.inr h4.symm)
      · injection h with h1 h2 h3
        cases h3

end ModernizeAttrs

namespace ModernizeAttrs

/-- Under the clean-defaults scan, the value of an emitted annotated
declaration built from the full argument list is never a legacy builder
call. -/
theorem parsedFull_value_not_ib (v a tgt w : Expr) (force : Bool)
    (hnd : callDefaultsClean stdResolver v = true)
    (h : buildFieldValue tgt (some a)
          (parseFieldArgs (argsToList (callArgs v))) force
        = .annAssign tgt a (some w)) :
    isIbCallB stdResolver w = false := by
  rcases buildFieldValue_ann_value_cases tgt a _ force w h with hs | ⟨fv, rfl⟩ | rfl
  · rcases parse_simpleDefault_src (argsToList (callArgs v)) ⟨none, none, none, none, []⟩ w hs
      with hm | hacc
    · exact defaultsClean_default_mem stdResolver v w hnd hm
    · simp at hacc
  · exact isIb_factory_call fv
  · exact isIb_field_call _

/-- The same for a declaration built from the arguments remaining after
`type` extraction. -/
theorem parsedExtract_value_not_ib (v t2 tgt w : Expr) (force : Bool)
    (hnd : callDefaultsClean stdResolver v = true)
    (h : buildFieldValue tgt (some t2)
          (parseFieldArgs (extractTypeArg (argsToList (callArgs v))).2) force
        = .annAssign tgt t2 (some w)) :
    isIbCallB stdResolver w = false := by
  rcases buildFieldValue_ann_value_cases tgt t2 _ force w h with hs | ⟨fv, rfl⟩ | rfl
  · rcases parse_simpleDefault_src (extractTypeArg (argsToList (callArgs v))).2
      ⟨none, none, none, none, []⟩ w hs with hm | hacc
    · exact defaultsClean_default_mem stdResolver v w hnd
        (mem_extractTypeArg_snd _ _ hm)
    · simp at hacc
  · exact isIb_factory_call fv
  · exact isIb_field_call _

/-- Shape of a rewritten legacy marker: a bare `define` or a `define`
call on the filtered arguments. -/
theorem rewriteDecorator_marker_shape (d : Expr)
    (h : isAttrsDecoratorB stdResolver d = true) :
    rewriteDecorator stdResolver d = Expr.name "define"
      ∨ ∃ f args, d = .call f args
          ∧ rewriteDecorator stdResolver d
              = .call (.name "define") (filterAutoAttribs args) := by
  cases d with
  | call f args =>
    by_cases hfa : filterAutoAttribs args = Expr.argNil
    · refine Or.inl ?_
      rw [rewriteDecorator, if_pos h]
      rw [if_pos hfa]
    · refine Or.inr ⟨f, args, rfl, ?_⟩
      rw [rewriteDecorator, if_pos h]
      rw [if_neg hfa]
  | name s =>
    refine Or.inl ?_
    rw [rewriteDecorator, if_pos h]
    exact fun f args hcon => Expr.noConfusion hcon
  | attr b fld =>
    refine Or.inl ?_
    rw [rewriteDecorator, if_pos h]
    exact fun f args hcon => Expr.noConfusion hcon
  | argNil =>
    refine Or.inl ?_
    rw [rewriteDecorator, if_pos h]
    exact fun f args hcon => Expr.noConfusion hcon
  | argCons kw v tl =>
    refine Or.inl ?_
    rw [rewriteDecorator, if_pos h]
    exact fun f args hcon => Expr.noConfusion hcon
  | tup2 x y =>
    refine Or.inl ?_
    rw [rewriteDecorator, if_pos h]
    exact fun f args hcon => Expr.noConfusion hcon
  | lit s =>
    refine Or.inl ?_
    rw [rewriteDecorator, if_pos h]
    exact fun f args hcon => Expr.noConfusion hcon

/-- A decorator that does not resolve to a legacy marker is unchanged. -/
theorem rewriteDecorator_not_marker (res : Resolver) (d : Expr)
    (h : ¬ isAttrsDecoratorB res d = true) :
    rewriteDecorator res d = d := by
  cases d with
  | call f args => rw [rewriteDecorator, if_neg h]
  | name s =>
    rw [rewriteDecorator, if_neg h]
    exact fun f args hcon => Expr.noConfusion hcon
  | attr b fld =>
    rw [rewriteDecorator, if_neg h]
    exact fun f args hcon => Expr.noConfusion hcon
  | argNil =>
    rw [rewriteDecorator, if_neg h]
    exact fun f args hcon => Expr.noConfusion hcon
  | argCons kw v tl =>
    rw [rewriteDecorator, if_neg h]
    exact fun f args hcon => Expr.noConfusion hcon
  | tup2 x y =>
    rw [rewriteDecorator, if_neg h]
    exact fun f args hcon => Expr.noConfusion hcon
  | lit s =>
    rw [rewriteDecorator, if_neg h]
    exact fun f args hcon => Expr.noConfusion hcon

/-- A bare `define` is a fixed point of the decorator rewrite. -/
theorem rewriteDecorator_define_fixed :
    rewriteDecorator stdResolver (Expr.name "define") = Expr.name "define" :=
  rewriteDecorator_not_marker stdResolver _
    (by rw [isMarker_name_define]; exact Bool.false_ne_true)

/-- A `define(...)` call is a fixed point of the decorator rewrite. -/
theorem rewriteDecorator_define_call_fixed (x : Expr) :
    rewriteDecorator stdResolver (.call (.name "define") x)
      = .call (.name "define") x :=
  rewriteDecorator_not_marker stdResolver _
    (by rw [isMarker_call_define]; exact Bool.false_ne_true)

/-- Rewriting a decorator twice is the same as rewriting it once. -/
theorem rewriteDecorator_idem (d : Expr) :
    rewriteDecorator stdResolver (rewriteDecorator stdResolver d)
      = rewriteDecorator stdResolver d := by
  by_cases h : isAttrsDecoratorB stdResolver d = true
  · rcases rewriteDecorator_marker_shape d h with hr | ⟨f, args, _, hr⟩
    · rw [hr, rewriteDecorator_define_fixed]
    · rw [hr, rewriteDecorator_define_call_fixed]
  · have hfix : rewriteDecorator stdResolver d = d :=
      rewriteDecorator_not_marker stdResolver d h
    rw [hfix, hfix]

/-- The `auto_attribs` filter cannot introduce an untyped builder call. -/
theorem filterAutoAttribs_scan (res : Resolver) (args : Expr)
    (h : exprHasUntypedIb res args = false) :
    exprHasUntypedIb res (filterAutoAttribs args) = false := by
  induction args with
  | argCons kw v tl ihv ihtl =>
    simp only [exprHasUntypedIb, Bool.or_eq_false_iff] at h
    by_cases hc : kw = some "auto_attribs" ∧ v = Expr.name "True"
    · simp only [filterAutoAttribs, if_pos hc]
      exact ihtl h.2
    · simp only [filterAutoAttribs, if_neg hc]
      simp only [exprHasUntypedIb, Bool.or_eq_false_iff]
      exact ⟨h.1, ihtl h.2⟩
  | name s => simpa [filterAutoAttribs] using h
  | attr b f ih => simpa [filterAutoAttribs] using h
  | call f as ih1 ih2 => simpa [filterAutoAttribs] using h
  | argNil => simpa [filterAutoAttribs] using h
  | tup2 a b ih1 ih2 => simpa [filterAutoAttribs] using h
  | lit s => simpa [filterAutoAttribs] using h

/-- A rewritten decorator carries no untyped builder call if the original
did not. -/
theorem rewriteDecorator_scan (d : Expr)
    (h : exprHasUntypedIb stdResolver d = false) :
    exprHasUntypedIb stdResolver (rewriteDecorator stdResolver d) = false := by
  by_cases hm : isAttrsDecoratorB stdResolver d = true
  · rcases rewriteDecorator_marker_shape d hm with hr | ⟨f, args, hd, hr⟩
    · rw [hr]
      rfl
    · subst hd
      rw [hr]
      have hargs : exprHasUntypedIb stdResolver args = false := by
        simp only [exprHasUntypedIb, Bool.or_eq_false_iff] at h
        exact h.2
      simp [exprHasUntypedIb, filterAutoAttribs_scan stdResolver args hargs,
        show isIbCallB stdResolver (.call (.name "define") (filterAutoAttribs args)) = false
          from rfl]
  · have hfix : rewriteDecorator stdResolver d = d :=
      rewriteDecorator_not_marker stdResolver d hm
    rwa [hfix]

end ModernizeAttrs

namespace ModernizeAttrs

/-- A legacy builder call that escaped the untyped scan carries a `type`
keyword. -/
theorem hasType_of_not_untyped (res : Resolver) (f args : Expr)
    (hscan : exprHasUntypedIb res (.call f args) = false)
    (hib : isIbCallB res (.call f args) = true) :
    hasTypeKw args = true := by
  simp only [exprHasUntypedIb, Bool.or_eq_false_iff] at hscan
  have h := hscan.1.1
  rw [hib] at h
  simpa using h

/-- Rewriting a statement of a clean, scanned-safe class twice (with any
forced sets) is the same as rewriting it once. -/
theorem rewriteStmt_idem (dec1 dec2 : List String) (s : Stmt)
    (hscan : stmtHasUntypedIb stdResolver s = false)
    (hnd : stmtFieldDefaultsClean stdResolver s = true) :
    rewriteStmt stdResolver dec2 (rewriteStmt stdResolver dec1 s)
      = rewriteStmt stdResolver dec1 s := by
  cases s with
  | annAssign tgt a v =>
    cases v with
    | none => rfl
    | some v =>
      by_cases hib : isIbCallB stdResolver v = true
      · have h1 : rewriteStmt stdResolver dec1 (.annAssign tgt a (some v))
            = rewriteAnnAssign dec1 tgt a v := by
          simp [rewriteStmt, hib]
        obtain ⟨val, hval⟩ := buildFieldValue_ann tgt a
          (parseFieldArgs (argsToList (callArgs v))) (forcedName dec1 tgt)
        have h2 : rewriteAnnAssign dec1 tgt a v = .annAssign tgt a val := hval
        rw [h1, h2]
        cases val with
        | none => rfl
        | some w =>
          have hv : callDefaultsClean stdResolver v = true := by
            have h0 : stmtFieldDefaultsClean stdResolver (.annAssign tgt a (some v))
                = callDefaultsClean stdResolver v := by
              simp [stmtFieldDefaultsClean, hib]
            rw [h0] at hnd
            exact hnd
          have hw := parsedFull_value_not_ib v a tgt w (forcedName dec1 tgt) hv h2
          simp [rewriteStmt, hw]
      · have h1 : rewriteStmt stdResolver dec1 (.annAssign tgt a (some v))
            = .annAssign tgt a (some v) := by simp [rewriteStmt, hib]
        rw [h1]
        simp [rewriteStmt, hib]
  | assign tgt extras v =>
    by_cases hib : isIbCallB stdResolver v = true
    · cases v with
      | call f args =>
        have hvscan : exprHasUntypedIb stdResolver (.call f args) = false := by
          simp only [stmtHasUntypedIb, Bool.or_eq_false_iff] at hscan
          exact hscan.2
        have hty : hasTypeKw args = true :=
          hasType_of_not_untyped stdResolver f args hvscan hib
        have hsome := extractTypeArg_isSome args hty
        obtain ⟨t2, ht2⟩ := Option.isSome_iff_exists.mp hsome
        have h1 : rewriteStmt stdResolver dec1 (.assign tgt extras (.call f args))
            = rewriteAssignStmt dec1 tgt (.call f args) := by
          simp [rewriteStmt, hib]
        have h2 : rewriteAssignStmt dec1 tgt (.call f args)
            = buildFieldValue tgt (some t2)
                (parseFieldArgs (extractTypeArg (argsToList args)).2)
                (forcedName dec1 tgt) := by
          simp only [rewriteAssignStmt, callArgs]
          rw [ht2]
        obtain ⟨val, hval⟩ := buildFieldValue_ann tgt t2
          (parseFieldArgs (extractTypeArg (argsToList args)).2) (forcedName dec1 tgt)
        rw [h1, h2, hval]
        cases val with
        | none => rfl
        | some w =>
          have hv : callDefaultsClean stdResolver (.call f args) = true := by
            have h0 : stmtFieldDefaultsClean stdResolver
                  (.assign tgt extras (.call f args))
                = callDefaultsClean stdResolver (.call f args) := by
              simp [stmtFieldDefaultsClean, hib]
            rw [h0] at hnd
            exact hnd
          have hw := parsedExtract_value_not_ib (.call f args) t2 tgt w
            (forcedName dec1 tgt) hv (by simpa [callArgs] using hval)
          simp [rewriteStmt, hw]
      | name s2 => simp [isIbCallB] at hib
      | attr b fld => simp [isIbCallB] at hib
      | argNil => simp [isIbCallB] at hib
      | argCons kw x tl => simp [isIbCallB] at hib
      | tup2 x y => simp [isIbCallB] at hib
      | lit s2 => simp [isIbCallB] at hib
    · have h1 : rewriteStmt stdResolver dec1 (.assign tgt extras v)
          = .assign tgt extras v := by simp [rewriteStmt, hib]
      rw [h1]
      simp [rewriteStmt, hib]
  | funcDef nm decs body =>
    simp only [rewriteStmt, List.map_map]
    congr 1
    apply List.map_congr_left
    intro d _
    exact rewriteDecorator_idem d
  | exprStmt e => rfl

end ModernizeAttrs

namespace ModernizeAttrs

/-- A rewritten statement of a scanned-safe class carries no untyped
builder call. -/
theorem rewriteStmt_scan (dec1 : List String) (s : Stmt)
    (hscan : stmtHasUntypedIb stdResolver s = false) :
    stmtHasUntypedIb stdResolver (rewriteStmt stdResolver dec1 s) = false := by
  cases s with
  | annAssign tgt a v =>
    cases v with
    | none => rfl
    | some v =>
      by_cases hib : isIbCallB stdResolver v = true
      · obtain ⟨val, hval⟩ := buildFieldValue_ann tgt a
          (parseFieldArgs (argsToList (callArgs v))) (forcedName dec1 tgt)
        have h1 : rewriteStmt stdResolver dec1 (.annAssign tgt a (some v))
            = .annAssign tgt a val := by
          simp [rewriteStmt, hib]
          exact hval
        rw [h1]
        rfl
      · have h1 : rewriteStmt stdResolver dec1 (.annAssign tgt a (some v))
            = .annAssign tgt a (some v) := by simp [rewriteStmt, hib]
        rw [h1]
        rfl
  | assign tgt extras v =>
    by_cases hib : isIbCallB stdResolver v = true
    · cases v with
      | call f args =>
        have hvscan : exprHasUntypedIb stdResolver (.call f args) = false := by
          simp only [stmtHasUntypedIb, Bool.or_eq_false_iff] at hscan
          exact hscan.2
        have hty : hasTypeKw args = true :=
          hasType_of_not_untyped stdResolver f args hvscan hib
        obtain ⟨t2, ht2⟩ := Option.isSome_iff_exists.mp (extractTypeArg_isSome args hty)
        obtain ⟨val, hval⟩ := buildFieldValue_ann tgt t2
          (parseFieldArgs (extractTypeArg (argsToList args)).2) (forcedName dec1 tgt)
        have h1 : rewriteStmt stdResolver dec1 (.assign tgt extras (.call f args))
            = .annAssign tgt t2 val := by
          simp only [rewriteStmt, hib, if_pos]
          simp only [rewriteAssignStmt, callArgs]
          rw [ht2]
          exact hval
        rw [h1]
        rfl
      | name s2 => simp [isIbCallB] at hib
      | attr b fld => simp [isIbCallB] at hib
      | argNil => simp [isIbCallB] at hib
      | argCons kw x tl => simp [isIbCallB] at hib
      | tup2 x y => simp [isIbCallB] at hib
      | lit s2 => simp [isIbCallB] at hib
    · have h1 : rewriteStmt stdResolver dec1 (.assign tgt extras v)
          = .assign tgt extras v := by simp [rewriteStmt, hib]
      rw [h1]
      exact hscan
  | funcDef nm decs body =>
    simp only [rewriteStmt, stmtHasUntypedIb, Bool.or_eq_false_iff] at hscan ⊢
    refine ⟨?_, hscan.2⟩
    rw [List.any_map]
    rw [List.any_eq_false] at hscan ⊢
    intro d hd
    exact Bool.eq_false_iff.mp
      (rewriteDecorator_scan d (Bool.eq_false_iff.mpr (hscan.1 d hd)))
  | exprStmt e => exact hscan

/-- A rewritten safe class is still scanned safe. -/
theorem classUntyped_rewrite (decs : List Expr) (body : List Stmt)
    (dec1 : List String)
    (h : classUntyped stdResolver decs body = false) :
    classUntyped stdResolver (decs.map (rewriteDecorator stdResolver))
      (body.map (rewriteStmt stdResolver dec1)) = false := by
  simp only [classUntyped, Bool.or_eq_false_iff] at h ⊢
  constructor
  · rw [List.any_map, List.any_eq_false]
    intro d hd
    exact Bool.eq_false_iff.mp
      (rewriteDecorator_scan d (Bool.eq_false_iff.mpr (List.any_eq_false.mp h.1 d hd)))
  · rw [List.any_map, List.any_eq_false]
    intro s hsm
    exact Bool.eq_false_iff.mp
      (rewriteStmt_scan dec1 s (Bool.eq_false_iff.mpr (List.any_eq_false.mp h.2 s hsm)))

end ModernizeAttrs

namespace ModernizeAttrs

/-! ### String lemmas for the textual scans across edited modules -/

/-- A prefix match survives extending the scanned text on the right. -/
theorem prefixMatch_append (pat a ext : List Char)
    (h : prefixMatch pat a = true) : prefixMatch pat (a ++ ext) = true := by
  induction pat generalizing a with
  | nil => rfl
  | cons p ps ih =>
    cases a with
    | nil => exact absurd h (by simp [prefixMatch])
    | cons x xs =>
      simp only [prefixMatch, Bool.and_eq_true] at h ⊢
      exact ⟨h.1, ih xs h.2⟩

/-- Every character of a matched prefix occurs in the text. -/
theorem mem_of_prefixMatch (pat s : List Char)
    (h : prefixMatch pat s = true) : ∀ c ∈ pat, c ∈ s := by
  induction pat generalizing s with
  | nil => intro c hc; exact absurd hc (List.not_mem_nil c)
  | cons p ps ih =>
    cases s with
    | nil => exact absurd h (by simp [prefixMatch])
    | cons x xs =>
      simp only [prefixMatch, Bool.and_eq_true, beq_iff_eq] at h
      intro c hc
      rcases List.mem_cons.mp hc with rfl | hc
      · exact h.1 ▸ List.mem_cons_self _ _
      · exact List.mem_cons_of_mem _ (ih xs h.2 c hc)

/-- Every character of a found pattern occurs in the text. -/
theorem mem_of_hasSub (pat s : List Char)
    (h : hasSub pat s = true) : ∀ c ∈ pat, c ∈ s := by
  induction s with
  | nil =>
    intro c hc
    cases pat with
    | nil => exact absurd hc (List.not_mem_nil c)
    | cons p ps => exact absurd h (by simp [hasSub, prefixMatch])
  | cons x xs ih =>
    simp only [hasSub, Bool.or_eq_true] at h
    intro c hc
    rcases h with h | h
    · exact mem_of_prefixMatch pat _ h c hc
    · exact List.mem_cons_of_mem _ (ih h c hc)

/-- A pattern with a character the text lacks is not found. -/
theorem hasSub_eq_false_of_not_mem (pat s : List Char) (c : Char)
    (hc : c ∈ pat) (hs : ¬ c ∈ s) : hasSub pat s = false := by
  cases h : hasSub pat s
  · rfl
  · exact absurd (mem_of_hasSub pat s h c hc) hs

/-- A find in the left half extends to the whole text. -/
theorem hasSub_append_left (pat a y : List Char)
    (h : hasSub pat a = true) : hasSub pat (a ++ y) = true := by
  induction a with
  | nil =>
    cases pat with
    | nil => cases y with
      | nil => rfl
      | cons c cs => simp [hasSub, prefixMatch]
    | cons p ps => exact absurd h (by simp [hasSub, prefixMatch])
  | cons x xs ih =>
    simp only [hasSub, Bool.or_eq_true] at h
    simp only [List.cons_append, hasSub, Bool.or_eq_true]
    rcases h with h | h
    · exact Or.inl (prefixMatch_append pat _ y h)
    · exact Or.inr (ih h)

/-- A find in the right half extends to the whole text. -/
theorem hasSub_append_right (pat x y : List Char)
    (h : hasSub pat y = true) : hasSub pat (x ++ y) = true := by
  induction x with
  | nil => exact h
  | cons c cs ih =>
    simp only [List.cons_append, hasSub, Bool.or_eq_true]
    exact Or.inr ih

/-- A newline-free pattern matched at a position spanning a newline is
matched before the newline. -/
theorem prefixMatch_before_newline (pat : List Char) (hn : ¬ '\n' ∈ pat) :
    ∀ a b : List Char, prefixMatch pat (a ++ '\n' :: b) = true →
      prefixMatch pat a = true := by
  induction pat with
  | nil => intro a b _; rfl
  | cons p ps ih =>
    intro a b h
    cases a with
    | nil =>
      simp only [List.nil_append, prefixMatch, Bool.and_eq_true, beq_iff_eq] at h
      exact absurd (h.1 ▸ List.mem_cons_self _ _) hn
    | cons x xs =>
      simp only [List.cons_append, prefixMatch, Bool.and_eq_true] at h ⊢
      exact ⟨h.1, ih (fun hm => hn (List.mem_cons_of_mem _ hm)) xs b h.2⟩

/-- Finding a nonempty newline-free pattern across a newline join is
finding it on one of the sides. -/
theorem hasSub_append_newline (pat : List Char) (hne : pat ≠ [])
    (hn : ¬ '\n' ∈ pat) (a b : List Char) :
    hasSub pat (a ++ '\n' :: b) = (hasSub pat a || hasSub pat b) := by
  induction a with
  | nil =>
    simp only [List.nil_append, hasSub]
    have hpm : prefixMatch pat ('\n' :: b) = false := by
      cases pat with
      | nil => exact absurd rfl hne
      | cons p ps =>
        have hp : ¬ p = '\n' := fun hp => hn (hp ▸ List.mem_cons_self _ _)
        simp [prefixMatch, hp]
    rw [hpm]
    have h0 : prefixMatch pat [] = false := by
      cases pat with
      | nil => exact absurd rfl hne
      | cons p ps => rfl
    rw [h0]
  | cons x xs ih =>
    have hL : hasSub pat ((x :: xs) ++ '\n' :: b)
        = (prefixMatch pat (x :: (xs ++ '\n' :: b))
            || hasSub pat (xs ++ '\n' :: b)) := rfl
    have hR : hasSub pat (x :: xs)
        = (prefixMatch pat (x :: xs) || hasSub pat xs) := rfl
    rw [hL, hR, ih, Bool.or_assoc]
    cases hpm : prefixMatch pat (x :: (xs ++ '\n' :: b)) with
    | true =>
      have h2 : prefixMatch pat (x :: xs) = true :=
        prefixMatch_before_newline pat hn (x :: xs) b (by simpa using hpm)
      rw [h2]
    | false =>
      cases hpm2 : prefixMatch pat (x :: xs) with
      | true =>
        have h3 := prefixMatch_append pat (x :: xs) ('\n' :: b) hpm2
        rw [show (x :: xs) ++ '\n' :: b = x :: (xs ++ '\n' :: b) from rfl] at h3
        rw [h3] at hpm
        cases hpm
      | false => simp

/-- The module-level scan is the disjunction of the per-item scans. -/
theorem hasSub_renderModule (pat : List Char) (hne : pat ≠ [])
    (hn : ¬ '\n' ∈ pat) (l : List TopStmt) :
    hasSub pat (renderModule l)
      = l.any (fun t => hasSub pat (renderTop t)) := by
  induction l with
  | nil =>
    cases pat with
    | nil => exact absurd rfl hne
    | cons p ps => simp [renderModule, hasSub, prefixMatch]
  | cons t ts ih =>
    cases ts with
    | nil => simp [renderModule]
    | cons t2 ts2 =>
      have : renderModule (t :: t2 :: ts2)
          = renderTop t ++ '\n' :: renderModule (t2 :: ts2) := rfl
      rw [this, hasSub_append_newline pat hne hn, ih]
      simp

/-! ### Clean import names -/

/-- A string free of the `(` character (a well-formed import name). -/
def cleanStr (s : String) : Bool := !(s.toList.contains '(')

/-- Import items carry only clean names; other items are unconstrained. -/
def topClean : TopStmt → Bool
  | .importMod mn => cleanStr mn
  | .importFrom mn ns => cleanStr mn && ns.all cleanStr
  | _ => true

/-- All import statements of the module carry only clean names. -/
def importsCleanB (l : List TopStmt) : Bool := l.all topClean

/-- A clean string has no `(`. -/
theorem not_paren_mem_of_cleanStr (s : String) (h : cleanStr s = true) :
    ¬ '(' ∈ s.toList := by
  intro hm
  have hc : s.toList.contains '(' = true := by simpa [List.contains] using hm
  rw [cleanStr, hc] at h
  simp at h

/-- Rendered name lists of clean names have no `(`. -/
theorem not_paren_renderNames (ns : List String) (h : ns.all cleanStr = true) :
    ¬ '(' ∈ renderNames ns := by
  induction ns with
  | nil => simp [renderNames]
  | cons n tl ih =>
    rw [List.all_cons, Bool.and_eq_true] at h
    cases tl with
    | nil =>
      simpa [renderNames] using not_paren_mem_of_cleanStr n h.1
    | cons m tl2 =>
      intro hm
      have : renderNames (n :: m :: tl2)
          = n.toList ++ ',' :: ' ' :: renderNames (m :: tl2) := rfl
      rw [this] at hm
      rcases List.mem_append.mp hm with hm | hm
      · exact not_paren_mem_of_cleanStr n h.1 hm
      · rcases List.mem_cons.mp hm with hc | hm
        · cases hc
        · rcases List.mem_cons.mp hm with hc | hm
          · cases hc
          · exact ih h.2 hm

/-- A clean import statement renders without `(`. -/
theorem not_paren_renderTop_import (t : TopStmt)
    (hc : topClean t = true) (hi : isImportItem t = true) :
    ¬ '(' ∈ renderTop t := by
  cases t with
  | importMod mn =>
    intro hm
    rw [show renderTop (.importMod mn) = "import ".toList ++ mn.toList from rfl]
      at hm
    rcases List.mem_append.mp hm with hm | hm
    · revert hm; decide
    · exact not_paren_mem_of_cleanStr mn (by simpa [topClean] using hc) hm
  | importFrom mn ns =>
    intro hm
    rw [show renderTop (.importFrom mn ns)
        = "from ".toList ++ mn.toList ++ " import ".toList ++ renderNames ns
      from rfl] at hm
    rw [topClean, Bool.and_eq_true] at hc
    rcases List.mem_append.mp hm with hm | hm
    · rcases List.mem_append.mp hm with hm | hm
      · rcases List.mem_append.mp hm with hm | hm
        · revert hm; decide
        · exact not_paren_mem_of_cleanStr mn hc.1 hm
      · revert hm; decide
    · exact not_paren_renderNames ns hc.2 hm
  | classDef nm decs body => simp [isImportItem] at hi
  | stmt s => simp [isImportItem] at hi

/-- A pattern containing `(` is never found in a clean import's render. -/
theorem scan_clean_import (pat : List Char) (hp : '(' ∈ pat) (t : TopStmt)
    (hc : topClean t = true) (hi : isImportItem t = true) :
    hasSub pat (renderTop t) = false :=
  hasSub_eq_false_of_not_mem pat _ '(' hp (not_paren_renderTop_import t hc hi)

end ModernizeAttrs

namespace ModernizeAttrs

/-! ### The walk on already-walked modules -/

/-- Equation: first component of a walk step. -/
theorem walkItems_cons_fst (res : Resolver) (st : WalkSt) (t : TopStmt)
    (ts : List TopStmt) :
    (walkItems res st (t :: ts)).1
      = (processTop res st t).1
          :: (walkItems res (processTop res st t).2 ts).1 := rfl

/-- Equation: second component of a walk step. -/
theorem walkItems_cons_snd (res : Resolver) (st : WalkSt) (t : TopStmt)
    (ts : List TopStmt) :
    (walkItems res st (t :: ts)).2
      = (walkItems res (processTop res st t).2 ts).2 := rfl

/-- Import statements pass through the walk untouched, with the state
unchanged. -/
theorem procTop_import (res : Resolver) (st : WalkSt) (t : TopStmt)
    (h : isImportItem t = true) : processTop res st t = (t, st) := by
  cases t with
  | importMod mn => rfl
  | importFrom mn ns => rfl
  | classDef nm decs body => simp [isImportItem] at h
  | stmt s => simp [isImportItem] at h

/-- The walk preserves whether an item is an import statement. -/
theorem procTop_import_status (res : Resolver) (st : WalkSt) (t : TopStmt) :
    isImportItem (processTop res st t).1 = isImportItem t := by
  cases t with
  | importMod mn => rfl
  | importFrom mn ns => rfl
  | classDef nm decs body =>
    by_cases h : classUntyped res decs body = true
    · simp [processTop, h, isImportItem]
    · simp [processTop, h, isImportItem]
  | stmt s =>
    cases s with
    | annAssign tgt a v =>
      cases v with
      | none => rfl
      | some x =>
        by_cases h : (!st.flag && isIbCallB res x) = true
        · simp [processTop, h, isImportItem]
        · simp [processTop, h, isImportItem]
    | assign tgt e v => rfl
    | funcDef nm decs body => rfl
    | exprStmt e => rfl

/-- Processing an already-processed item (under the clean-defaults scan,
with matching incoming flags) changes nothing, and the outgoing flags
again match. -/
theorem procTop_fixed (st1 st2 : WalkSt) (t : TopStmt)
    (hnd : topFieldDefaultsClean stdResolver t = true)
    (hf : st2.flag = st1.flag) :
    (processTop stdResolver st2 (processTop stdResolver st1 t).1).1
        = (processTop stdResolver st1 t).1
      ∧ (processTop stdResolver st2 (processTop stdResolver st1 t).1).2.flag
        = (processTop stdResolver st1 t).2.flag := by
  cases t with
  | importMod mn => exact ⟨rfl, hf⟩
  | importFrom mn ns => exact ⟨rfl, hf⟩
  | classDef nm decs body =>
    by_cases hu : classUntyped stdResolver decs body = true
    · have h1 : processTop stdResolver st1 (.classDef nm decs body)
          = (.classDef nm decs body,
             ⟨true, collectDecoratedFields body, false,
               st1.warnings ++ [warnMsg nm]⟩) := by
        simp [processTop, hu]
      rw [h1]
      constructor
      · simp [processTop, hu]
      · simp [processTop, hu]
    · have hu' : classUntyped stdResolver decs body = false :=
        Bool.eq_false_iff.mpr hu
      have h1 : processTop stdResolver st1 (.classDef nm decs body)
          = (.classDef nm (decs.map (rewriteDecorator stdResolver))
               (body.map (rewriteStmt stdResolver (collectDecoratedFields body))),
             ⟨false, collectDecoratedFields body,
               st1.did || classDidRewrite stdResolver decs body, st1.warnings⟩) := by
        simp [processTop, hu]
      have hu2 : ¬ classUntyped stdResolver
          (decs.map (rewriteDecorator stdResolver))
          (body.map (rewriteStmt stdResolver (collectDecoratedFields body))) = true := by
        rw [classUntyped_rewrite decs body (collectDecoratedFields body) hu']
        exact Bool.false_ne_true
      have hdecs : (decs.map (rewriteDecorator stdResolver)).map
            (rewriteDecorator stdResolver)
          = decs.map (rewriteDecorator stdResolver) := by
        rw [List.map_map]
        apply List.map_congr_left
        intro d _
        exact rewriteDecorator_idem d
      have hbody : ∀ dec2 : List String,
          (body.map (rewriteStmt stdResolver (collectDecoratedFields body))).map
              (rewriteStmt stdResolver dec2)
            = body.map (rewriteStmt stdResolver (collectDecoratedFields body)) := by
        intro dec2
        rw [List.map_map]
        apply List.map_congr_left
        intro s hs
        have hscan : stmtHasUntypedIb stdResolver s = false := by
          have h2 := hu'
          simp only [classUntyped, Bool.or_eq_false_iff] at h2
          exact Bool.eq_false_iff.mpr (List.any_eq_false.mp h2.2 s hs)
        have hnds : stmtFieldDefaultsClean stdResolver s = true := by
          simp only [topFieldDefaultsClean, List.all_eq_true] at hnd
          exact hnd s hs
        exact rewriteStmt_idem (collectDecoratedFields body) dec2 s hscan hnds
      rw [h1]
      constructor
      · have h2 : (processTop stdResolver st2
            (.classDef nm (decs.map (rewriteDecorator stdResolver))
              (body.map (rewriteStmt stdResolver (collectDecoratedFields body))))).1
            = .classDef nm
                ((decs.map (rewriteDecorator stdResolver)).map
                  (rewriteDecorator stdResolver))
                ((body.map (rewriteStmt stdResolver (collectDecoratedFields body))).map
                  (rewriteStmt stdResolver
                    (collectDecoratedFields
                      (body.map (rewriteStmt stdResolver
                        (collectDecoratedFields body)))))) := by
          simp [processTop, hu2]
        rw [h2, hdecs, hbody]
      · simp [processTop, hu2]
  | stmt s =>
    cases s with
    | annAssign tgt a v =>
      cases v with
      | none => exact ⟨rfl, hf⟩
      | some v =>
        by_cases h1 : (!st1.flag && isIbCallB stdResolver v) = true
        · have hP1 : processTop stdResolver st1 (.stmt (.annAssign tgt a (some v)))
              = (.stmt (rewriteAnnAssign st1.decorated tgt a v),
                 ⟨st1.flag, st1.decorated, true, st1.warnings⟩) := by
            simp [processTop, h1]
          obtain ⟨val, hval⟩ := buildFieldValue_ann tgt a
            (parseFieldArgs (argsToList (callArgs v))) (forcedName st1.decorated tgt)
          have hra : rewriteAnnAssign st1.decorated tgt a v = .annAssign tgt a val :=
            hval
          rw [hP1, hra]
          cases val with
          | none => exact ⟨rfl, hf⟩
          | some w =>
            have hvclean : callDefaultsClean stdResolver v = true := by
              have hib2 : isIbCallB stdResolver v = true := by
                rw [Bool.and_eq_true] at h1
                exact h1.2
              have h0 : topFieldDefaultsClean stdResolver
                    (.stmt (.annAssign tgt a (some v)))
                  = callDefaultsClean stdResolver v := by
                simp [topFieldDefaultsClean, stmtFieldDefaultsClean, hib2]
              rw [h0] at hnd
              exact hnd
            have hw : isIbCallB stdResolver w = false :=
              parsedFull_value_not_ib v a tgt w (forcedName st1.decorated tgt)
                hvclean hra
            have h2 : (!st2.flag && isIbCallB stdResolver w) = false := by
              rw [hw]
              simp
            constructor
            · simp [processTop, h2]
            · simp [processTop, h2, hf, hw]
        · have hP1 : processTop stdResolver st1 (.stmt (.annAssign tgt a (some v)))
              = (.stmt (.annAssign tgt a (some v)), st1) := by
            simp [processTop, h1]
          rw [hP1]
          have h2 : ¬ (!st2.flag && isIbCallB stdResolver v) = true := by
            rw [hf]
            exact h1
          constructor
          · simp [processTop, h2]
          · simp [processTop, h1, h2, hf]
    | assign tgt e v => exact ⟨rfl, hf⟩
    | funcDef nm decs body => exact ⟨rfl, hf⟩
    | exprStmt e => exact ⟨rfl, hf⟩

/-- Walking an already-walked module (under the clean-defaults scan)
reproduces it, with matching final flags. -/
theorem walk_walk : ∀ (items : List TopStmt),
    moduleFieldDefaultsClean stdResolver items = true →
    ∀ st1 st2 : WalkSt, st2.flag = st1.flag →
      (walkItems stdResolver st2 (walkItems stdResolver st1 items).1).1
          = (walkItems stdResolver st1 items).1
        ∧ (walkItems stdResolver st2 (walkItems stdResolver st1 items).1).2.flag
          = (walkItems stdResolver st1 items).2.flag := by
  intro items
  induction items with
  | nil => intro _ st1 st2 hf; exact ⟨rfl, hf⟩
  | cons t ts ih =>
    intro hnd st1 st2 hf
    have hnd2 : moduleFieldDefaultsClean stdResolver ts = true := by
      rw [moduleFieldDefaultsClean, List.all_cons, Bool.and_eq_true] at hnd
      exact hnd.2
    have hndt : topFieldDefaultsClean stdResolver t = true := by
      rw [moduleFieldDefaultsClean, List.all_cons, Bool.and_eq_true] at hnd
      exact hnd.1
    obtain ⟨hfix, hflag⟩ := procTop_fixed st1 st2 t hndt hf
    have htail := ih hnd2 (processTop stdResolver st1 t).2
      (processTop stdResolver st2 (processTop stdResolver st1 t).1).2 hflag
    constructor
    · rw [walkItems_cons_fst stdResolver st1 t ts, walkItems_cons_fst, hfix,
        htail.1]
    · rw [walkItems_cons_fst stdResolver st1 t ts, walkItems_cons_snd,
        walkItems_cons_snd, htail.2]

end ModernizeAttrs

namespace ModernizeAttrs

/-! ### Walk fixed points survive the import edits -/

/-- A non-import item always survives the removal pass. -/
theorem removeItem_not_import (used : String → Bool) (t : TopStmt)
    (h : isImportItem t = false) : removeItem used t = some t := by
  cases t with
  | importMod mn => simp [isImportItem] at h
  | importFrom mn ns => simp [isImportItem] at h
  | classDef nm decs body => rfl
  | stmt s => rfl

/-- What the removal pass keeps of an import item is an import item. -/
theorem removeItem_import (used : String → Bool) (t t' : TopStmt)
    (hi : isImportItem t = true) (h : removeItem used t = some t') :
    isImportItem t' = true := by
  cases t with
  | importMod mn =>
    simp only [removeItem] at h
    split at h
    · cases h
    · injection h with h
      subst h
      rfl
  | importFrom mn ns =>
    simp only [removeItem] at h
    split at h
    · cases h
    · injection h with h
      subst h
      rfl
  | classDef nm decs body => simp [isImportItem] at hi
  | stmt s => simp [isImportItem] at hi

/-- A walk fixed point stays a fixed point after merging names into the
first `attrs` import. -/
theorem walk_fixed_merge (res : Resolver) (m : List String) :
    ∀ (l : List TopStmt) (st st' : WalkSt),
      (walkItems res st l).1 = l → (walkItems res st l).2 = st' →
      (walkItems res st (mergeIntoFirst m l)).1 = mergeIntoFirst m l
        ∧ (walkItems res st (mergeIntoFirst m l)).2 = st' := by
  intro l
  induction l with
  | nil =>
    intro st st' h1 h2
    exact ⟨rfl, h2⟩
  | cons t tl ih =>
    intro st st' h1 h2
    rw [walkItems_cons_fst] at h1
    rw [walkItems_cons_snd] at h2
    injection h1 with hp ht
    cases t with
    | importFrom mn ns =>
      have hst : (processTop res st (TopStmt.importFrom mn ns)).2 = st := rfl
      rw [hst] at ht h2
      by_cases hmn : mn = "attrs"
      · have hme : mergeIntoFirst m (TopStmt.importFrom mn ns :: tl)
            = .importFrom mn (ns ++ m) :: tl := by
          simp only [mergeIntoFirst, if_pos hmn]
        have hh1 : (processTop res st (TopStmt.importFrom mn (ns ++ m))).1
            = .importFrom mn (ns ++ m) := rfl
        have hh2 : (processTop res st (TopStmt.importFrom mn (ns ++ m))).2
            = st := rfl
        rw [hme]
        constructor
        · rw [walkItems_cons_fst, hh1, hh2, ht]
        · rw [walkItems_cons_snd, hh2, h2]
      · have hme : mergeIntoFirst m (TopStmt.importFrom mn ns :: tl)
            = .importFrom mn ns :: mergeIntoFirst m tl := by
          simp only [mergeIntoFirst, if_neg hmn]
        rw [hme]
        constructor
        · rw [walkItems_cons_fst, hst,
            show (processTop res st (TopStmt.importFrom mn ns)).1
              = .importFrom mn ns from rfl,
            (ih st st' ht h2).1]
        · rw [walkItems_cons_snd, hst, (ih st st' ht h2).2]
    | importMod mn =>
      have hst : (processTop res st (TopStmt.importMod mn)).2 = st := rfl
      rw [hst] at ht h2
      have hme : mergeIntoFirst m (TopStmt.importMod mn :: tl)
          = .importMod mn :: mergeIntoFirst m tl := rfl
      rw [hme]
      constructor
      · rw [walkItems_cons_fst, hst,
          show (processTop res st (TopStmt.importMod mn)).1
            = .importMod mn from rfl,
          (ih st st' ht h2).1]
      · rw [walkItems_cons_snd, hst, (ih st st' ht h2).2]
    | classDef nm decs body =>
      have hme : mergeIntoFirst m (TopStmt.classDef nm decs body :: tl)
          = .classDef nm decs body :: mergeIntoFirst m tl := rfl
      rw [hme]
      constructor
      · rw [walkItems_cons_fst, hp,
          (ih (processTop res st (TopStmt.classDef nm decs body)).2 st' ht h2).1]
      · rw [walkItems_cons_snd,
          (ih (processTop res st (TopStmt.classDef nm decs body)).2 st' ht h2).2]
    | stmt s =>
      have hme : mergeIntoFirst m (TopStmt.stmt s :: tl)
          = .stmt s :: mergeIntoFirst m tl := rfl
      rw [hme]
      constructor
      · rw [walkItems_cons_fst, hp,
          (ih (processTop res st (TopStmt.stmt s)).2 st' ht h2).1]
      · rw [walkItems_cons_snd,
          (ih (processTop res st (TopStmt.stmt s)).2 st' ht h2).2]

/-- A walk fixed point stays a fixed point after inserting an import
statement after the leading import block. -/
theorem walk_fixed_insert (res : Resolver) (x : TopStmt)
    (hx : isImportItem x = true) :
    ∀ (l : List TopStmt) (st st' : WalkSt),
      (walkItems res st l).1 = l → (walkItems res st l).2 = st' →
      (walkItems res st (insertAfterImports x l)).1 = insertAfterImports x l
        ∧ (walkItems res st (insertAfterImports x l)).2 = st' := by
  intro l
  induction l with
  | nil =>
    intro st st' h1 h2
    have hx1 : (processTop res st x).1 = x := by
      rw [procTop_import res st x hx]
    have hx2 : (processTop res st x).2 = st := by
      rw [procTop_import res st x hx]
    constructor
    · rw [show insertAfterImports x [] = [x] from rfl, walkItems_cons_fst, hx1]
      rfl
    · rw [show insertAfterImports x [] = [x] from rfl, walkItems_cons_snd, hx2]
      exact h2
  | cons t tl ih =>
    intro st st' h1 h2
    rw [walkItems_cons_fst] at h1
    rw [walkItems_cons_snd] at h2
    injection h1 with hp ht
    by_cases hit : isImportItem t = true
    · have hst : (processTop res st t).2 = st := by
        rw [procTop_import res st t hit]
      have hst1 : (processTop res st t).1 = t := by
        rw [procTop_import res st t hit]
      rw [hst] at ht h2
      have hieq : insertAfterImports x (t :: tl)
          = t :: insertAfterImports x tl := by
        simp only [insertAfterImports, if_pos hit]
      rw [hieq]
      constructor
      · rw [walkItems_cons_fst, hst1, hst, (ih st st' ht h2).1]
      · rw [walkItems_cons_snd, hst, (ih st st' ht h2).2]
    · have hieq : insertAfterImports x (t :: tl) = x :: t :: tl := by
        simp only [insertAfterImports, if_neg hit]
      have hx1 : (processTop res st x).1 = x := by
        rw [procTop_import res st x hx]
      have hx2 : (processTop res st x).2 = st := by
        rw [procTop_import res st x hx]
      rw [hieq]
      constructor
      · rw [walkItems_cons_fst, hx1, hx2, walkItems_cons_fst, hp, ht]
      · rw [walkItems_cons_snd, hx2, walkItems_cons_snd, h2]

/-- A walk fixed point stays a fixed point after the removal pass. -/
theorem walk_fixed_removeWith (res : Resolver) (used : String → Bool) :
    ∀ (l : List TopStmt) (st st' : WalkSt),
      (walkItems res st l).1 = l → (walkItems res st l).2 = st' →
      (walkItems res st (removeWith used l)).1 = removeWith used l
        ∧ (walkItems res st (removeWith used l)).2 = st' := by
  intro l
  induction l with
  | nil =>
    intro st st' h1 h2
    exact ⟨rfl, h2⟩
  | cons t tl ih =>
    intro st st' h1 h2
    rw [walkItems_cons_fst] at h1
    rw [walkItems_cons_snd] at h2
    injection h1 with hp ht
    by_cases hit : isImportItem t = true
    · have hst : (processTop res st t).2 = st := by
        rw [procTop_import res st t hit]
      rw [hst] at ht h2
      cases hr : removeItem used t with
      | none =>
        have hre : removeWith used (t :: tl) = removeWith used tl := by
          rw [removeWith, List.filterMap_cons, hr]
          rfl
        rw [hre]
        exact ih st st' ht h2
      | some t' =>
        have hit' : isImportItem t' = true := removeItem_import used t t' hit hr
        have hre : removeWith used (t :: tl) = t' :: removeWith used tl := by
          rw [removeWith, List.filterMap_cons, hr]
          rfl
        have hh1 : (processTop res st t').1 = t' := by
          rw [procTop_import res st t' hit']
        have hh2 : (processTop res st t').2 = st := by
          rw [procTop_import res st t' hit']
        rw [hre]
        constructor
        · rw [walkItems_cons_fst, hh1, hh2, (ih st st' ht h2).1]
        · rw [walkItems_cons_snd, hh2, (ih st st' ht h2).2]
    · have hif : isImportItem t = false := Bool.eq_false_iff.mpr hit
      have hre : removeWith used (t :: tl) = t :: removeWith used tl := by
        rw [removeWith, List.filterMap_cons, removeItem_not_import used t hif]
        rfl
      rw [hre]
      constructor
      · rw [walkItems_cons_fst, hp,
          (ih (processTop res st t).2 st' ht h2).1]
      · rw [walkItems_cons_snd,
          (ih (processTop res st t).2 st' ht h2).2]

/-- A walk fixed point stays a fixed point after the add pass. -/
theorem walk_fixed_applyAdds (res : Resolver) (adds : List String)
    (l : List TopStmt) (st st' : WalkSt)
    (h1 : (walkItems res st l).1 = l) (h2 : (walkItems res st l).2 = st') :
    (walkItems res st (applyAdds adds l)).1 = applyAdds adds l
      ∧ (walkItems res st (applyAdds adds l)).2 = st' := by
  unfold applyAdds
  by_cases he : (adds.filter (fun s => !(attrsImportNames l).contains s)).isEmpty = true
  · simp only [he, if_true]
    exact ⟨h1, h2⟩
  · simp only [he, if_false, Bool.false_eq_true]
    by_cases hh : hasAttrsFromImport l = true
    · simp only [hh, if_true]
      exact walk_fixed_merge res _ l st st' h1 h2
    · simp only [hh, if_false, Bool.false_eq_true]
      exact walk_fixed_insert res
        (.importFrom "attrs" (adds.filter (fun s => !(attrsImportNames l).contains s)))
        rfl l st st' h1 h2

end ModernizeAttrs

namespace ModernizeAttrs

/-! ### Clean imports are preserved by the walk and the import edits -/

/-- The walk emits items whose import names are clean whenever the input
item's were. -/
theorem procTop_clean (res : Resolver) (st : WalkSt) (t : TopStmt)
    (h : topClean t = true) : topClean (processTop res st t).1 = true := by
  cases t with
  | importMod mn => exact h
  | importFrom mn ns => exact h
  | classDef nm decs body =>
    by_cases hu : classUntyped res decs body = true
    · simp [processTop, hu, topClean]
    · simp [processTop, hu, topClean]
  | stmt s =>
    cases s with
    | annAssign tgt a v =>
      cases v with
      | none => rfl
      | some x =>
        by_cases hc : (!st.flag && isIbCallB res x) = true
        · simp [processTop, hc, topClean]
        · simp [processTop, hc, topClean]
    | assign tgt e v => rfl
    | funcDef nm decs body => rfl
    | exprStmt e => rfl

/-- The walk preserves clean imports. -/
theorem walk_clean (res : Resolver) :
    ∀ (l : List TopStmt) (st : WalkSt), importsCleanB l = true →
      importsCleanB (walkItems res st l).1 = true := by
  intro l
  induction l with
  | nil => intro st _; rfl
  | cons t tl ih =>
    intro st h
    rw [importsCleanB, List.all_cons, Bool.and_eq_true] at h
    rw [walkItems_cons_fst, importsCleanB, List.all_cons, Bool.and_eq_true]
    exact ⟨procTop_clean res st t h.1, ih (processTop res st t).2 h.2⟩

/-- Merging clean names into the first `attrs` import keeps imports
clean. -/
theorem mergeIntoFirst_clean (m : List String) (hm : ∀ n ∈ m, cleanStr n = true) :
    ∀ l : List TopStmt, importsCleanB l = true →
      importsCleanB (mergeIntoFirst m l) = true := by
  intro l
  induction l with
  | nil => intro _; rfl
  | cons t tl ih =>
    intro h
    rw [importsCleanB, List.all_cons, Bool.and_eq_true] at h
    cases t with
    | importFrom mn ns =>
      by_cases hmn : mn = "attrs"
      · rw [show mergeIntoFirst m (TopStmt.importFrom mn ns :: tl)
            = .importFrom mn (ns ++ m) :: tl from by
              simp only [mergeIntoFirst, if_pos hmn]]
        rw [importsCleanB, List.all_cons, Bool.and_eq_true]
        refine ⟨?_, h.2⟩
        have hc := h.1
        rw [topClean, Bool.and_eq_true] at hc ⊢
        refine ⟨hc.1, ?_⟩
        rw [List.all_eq_true] at hc ⊢
        intro x hx
        rcases List.mem_append.mp hx with hx | hx
        · exact hc.2 x hx
        · exact hm x hx
      · rw [show mergeIntoFirst m (TopStmt.importFrom mn ns :: tl)
            = .importFrom mn ns :: mergeIntoFirst m tl from by
              simp only [mergeIntoFirst, if_neg hmn]]
        rw [importsCleanB, List.all_cons, Bool.and_eq_true]
        exact ⟨h.1, ih h.2⟩
    | importMod mn =>
      rw [show mergeIntoFirst m (TopStmt.importMod mn :: tl)
          = .importMod mn :: mergeIntoFirst m tl from rfl]
      rw [importsCleanB, List.all_cons, Bool.and_eq_true]
      exact ⟨h.1, ih h.2⟩
    | classDef nm decs body =>
      rw [show mergeIntoFirst m (TopStmt.classDef nm decs body :: tl)
          = .classDef nm decs body :: mergeIntoFirst m tl from rfl]
      rw [importsCleanB, List.all_cons, Bool.and_eq_true]
      exact ⟨h.1, ih h.2⟩
    | stmt s =>
      rw [show mergeIntoFirst m (TopStmt.stmt s :: tl)
          = .stmt s :: mergeIntoFirst m tl from rfl]
      rw [importsCleanB, List.all_cons, Bool.and_eq_true]
      exact ⟨h.1, ih h.2⟩

/-- Inserting a clean import keeps imports clean. -/
theorem insertAfterImports_clean (x : TopStmt) (hx : topClean x = true) :
    ∀ l : List TopStmt, importsCleanB l = true →
      importsCleanB (insertAfterImports x l) = true := by
  intro l
  induction l with
  | nil =>
    intro _
    rw [show insertAfterImports x [] = [x] from rfl]
    simp [importsCleanB, hx]
  | cons t tl ih =>
    intro h
    rw [importsCleanB, List.all_cons, Bool.and_eq_true] at h
    by_cases hit : isImportItem t = true
    · rw [show insertAfterImports x (t :: tl) = t :: insertAfterImports x tl
          from by simp only [insertAfterImports, if_pos hit]]
      rw [importsCleanB, List.all_cons, Bool.and_eq_true]
      exact ⟨h.1, ih h.2⟩
    · rw [show insertAfterImports x (t :: tl) = x :: t :: tl
          from by simp only [insertAfterImports, if_neg hit]]
      rw [importsCleanB, List.all_cons, Bool.and_eq_true]
      refine ⟨hx, ?_⟩
      rw [List.all_cons, Bool.and_eq_true]
      exact ⟨h.1, h.2⟩

/-- What the removal pass keeps of a clean item is clean. -/
theorem removeItem_clean (used : String → Bool) (t t' : TopStmt)
    (hc : topClean t = true) (h : removeItem used t = some t') :
    topClean t' = true := by
  cases t with
  | importMod mn =>
    simp only [removeItem] at h
    split at h
    · cases h
    · injection h with h
      subst h
      exact hc
  | importFrom mn ns =>
    simp only [removeItem] at h
    split at h
    · cases h
    · injection h with h
      subst h
      rw [topClean, Bool.and_eq_true] at hc ⊢
      refine ⟨hc.1, ?_⟩
      have hall := hc.2
      rw [List.all_eq_true] at hall ⊢
      intro x hx
      exact hall x (List.mem_filter.mp hx).1
  | classDef nm decs body =>
    rw [removeItem_not_import used (TopStmt.classDef nm decs body) rfl] at h
    injection h with h
    subst h
    exact hc
  | stmt s =>
    rw [removeItem_not_import used (TopStmt.stmt s) rfl] at h
    injection h with h
    subst h
    exact hc

/-- The removal pass keeps imports clean. -/
theorem removeWith_clean (used : String → Bool) :
    ∀ l : List TopStmt, importsCleanB l = true →
      importsCleanB (removeWith used l) = true := by
  intro l
  induction l with
  | nil => intro _; rfl
  | cons t tl ih =>
    intro h
    rw [importsCleanB, List.all_cons, Bool.and_eq_true] at h
    cases hr : removeItem used t with
    | none =>
      rw [show removeWith used (t :: tl) = removeWith used tl from by
        rw [removeWith, List.filterMap_cons, hr]
        rfl]
      exact ih h.2
    | some t' =>
      rw [show removeWith used (t :: tl) = t' :: removeWith used tl from by
        rw [removeWith, List.filterMap_cons, hr]
        rfl]
      rw [importsCleanB, List.all_cons, Bool.and_eq_true]
      exact ⟨removeItem_clean used t t' h.1 hr, ih h.2⟩

/-- The add pass keeps imports clean when the scheduled names are clean. -/
theorem applyAdds_clean (adds : List String)
    (ha : ∀ n ∈ adds, cleanStr n = true) (l : List TopStmt)
    (h : importsCleanB l = true) :
    importsCleanB (applyAdds adds l) = true := by
  unfold applyAdds
  by_cases he : (adds.filter (fun s => !(attrsImportNames l).contains s)).isEmpty = true
  · simp only [he, if_true]
    exact h
  · simp only [he, if_false, Bool.false_eq_true]
    have hm : ∀ n ∈ adds.filter (fun s => !(attrsImportNames l).contains s),
        cleanStr n = true := fun n hn => ha n (List.mem_filter.mp hn).1
    by_cases hh : hasAttrsFromImport l = true
    · simp only [hh, if_true]
      exact mergeIntoFirst_clean _ hm l h
    · simp only [hh, if_false, Bool.false_eq_true]
      refine insertAfterImports_clean _ ?_ l h
      rw [topClean, Bool.and_eq_true]
      refine ⟨by decide, ?_⟩
      rw [List.all_eq_true]
      exact hm

end ModernizeAttrs

namespace ModernizeAttrs

/-! ### The textual scans are invariant under the import edits -/

/-- Merging clean names leaves any `(`-containing pattern scan
unchanged. -/
theorem any_scan_mergeIntoFirst (pat : List Char) (hp : '(' ∈ pat)
    (m : List String) (hm : ∀ n ∈ m, cleanStr n = true) :
    ∀ l : List TopStmt, importsCleanB l = true →
      (mergeIntoFirst m l).any (fun t => hasSub pat (renderTop t))
        = l.any (fun t => hasSub pat (renderTop t)) := by
  intro l
  induction l with
  | nil => intro _; rfl
  | cons t tl ih =>
    intro h
    rw [importsCleanB, List.all_cons, Bool.and_eq_true] at h
    cases t with
    | importFrom mn ns =>
      by_cases hmn : mn = "attrs"
      · rw [show mergeIntoFirst m (TopStmt.importFrom mn ns :: tl)
            = .importFrom mn (ns ++ m) :: tl from by
              simp only [mergeIntoFirst, if_pos hmn]]
        rw [List.any_cons, List.any_cons]
        have hc1 : topClean (TopStmt.importFrom mn (ns ++ m)) = true := by
          rw [topClean, Bool.and_eq_true]
          have hc := h.1
          rw [topClean, Bool.and_eq_true] at hc
          refine ⟨hc.1, ?_⟩
          rw [List.all_eq_true] at hc ⊢
          intro x hx
          rcases List.mem_append.mp hx with hx | hx
          · exact hc.2 x hx
          · exact hm x hx
        rw [scan_clean_import pat hp _ hc1 rfl,
          scan_clean_import pat hp _ h.1 rfl]
      · rw [show mergeIntoFirst m (TopStmt.importFrom mn ns :: tl)
            = .importFrom mn ns :: mergeIntoFirst m tl from by
              simp only [mergeIntoFirst, if_neg hmn]]
        rw [List.any_cons, List.any_cons, ih h.2]
    | importMod mn =>
      rw [show mergeIntoFirst m (TopStmt.importMod mn :: tl)
          = .importMod mn :: mergeIntoFirst m tl from rfl]
      rw [List.any_cons, List.any_cons, ih h.2]
    | classDef nm decs body =>
      rw [show mergeIntoFirst m (TopStmt.classDef nm decs body :: tl)
          = .classDef nm decs body :: mergeIntoFirst m tl from rfl]
      rw [List.any_cons, List.any_cons, ih h.2]
    | stmt s =>
      rw [show mergeIntoFirst m (TopStmt.stmt s :: tl)
          = .stmt s :: mergeIntoFirst m tl from rfl]
      rw [List.any_cons, List.any_cons, ih h.2]

/-- Inserting an import whose render misses the pattern leaves the scan
unchanged. -/
theorem any_scan_insertAfterImports (pat : List Char) (x : TopStmt)
    (hx : hasSub pat (renderTop x) = false) :
    ∀ l : List TopStmt,
      (insertAfterImports x l).any (fun t => hasSub pat (renderTop t))
        = l.any (fun t => hasSub pat (renderTop t)) := by
  intro l
  induction l with
  | nil =>
    rw [show insertAfterImports x [] = [x] from rfl]
    simp [hx]
  | cons t tl ih =>
    by_cases hit : isImportItem t = true
    · rw [show insertAfterImports x (t :: tl) = t :: insertAfterImports x tl
          from by simp only [insertAfterImports, if_pos hit]]
      rw [List.any_cons, List.any_cons, ih]
    · rw [show insertAfterImports x (t :: tl) = x :: t :: tl
          from by simp only [insertAfterImports, if_neg hit]]
      rw [List.any_cons, hx]
      simp

/-- The removal pass leaves any `(`-containing pattern scan unchanged on
a module with clean imports. -/
theorem any_scan_removeWith (pat : List Char) (hp : '(' ∈ pat)
    (used : String → Bool) :
    ∀ l : List TopStmt, importsCleanB l = true →
      (removeWith used l).any (fun t => hasSub pat (renderTop t))
        = l.any (fun t => hasSub pat (renderTop t)) := by
  intro l
  induction l with
  | nil => intro _; rfl
  | cons t tl ih =>
    intro h
    rw [importsCleanB, List.all_cons, Bool.and_eq_true] at h
    by_cases hit : isImportItem t = true
    · cases hr : removeItem used t with
      | none =>
        rw [show removeWith used (t :: tl) = removeWith used tl from by
          rw [removeWith, List.filterMap_cons, hr]
          rfl]
        rw [List.any_cons, scan_clean_import pat hp t h.1 hit, ih h.2]
        simp
      | some t' =>
        rw [show removeWith used (t :: tl) = t' :: removeWith used tl from by
          rw [removeWith, List.filterMap_cons, hr]
          rfl]
        rw [List.any_cons, List.any_cons,
          scan_clean_import pat hp t h.1 hit,
          scan_clean_import pat hp t' (removeItem_clean used t t' h.1 hr)
            (removeItem_import used t t' hit hr), ih h.2]
    · rw [show removeWith used (t :: tl) = t :: removeWith used tl from by
        rw [removeWith, List.filterMap_cons,
          removeItem_not_import used t (Bool.eq_false_iff.mpr hit)]
        rfl]
      rw [List.any_cons, List.any_cons, ih h.2]

/-- The add pass leaves any `(`-containing pattern scan unchanged on a
module with clean imports, for clean scheduled names. -/
theorem any_scan_applyAdds (pat : List Char) (hp : '(' ∈ pat)
    (adds : List String) (ha : ∀ n ∈ adds, cleanStr n = true)
    (l : List TopStmt) (h : importsCleanB l = true) :
    (applyAdds adds l).any (fun t => hasSub pat (renderTop t))
      = l.any (fun t => hasSub pat (renderTop t)) := by
  unfold applyAdds
  by_cases he : (adds.filter (fun s => !(attrsImportNames l).contains s)).isEmpty = true
  · simp only [he, if_true]
  · simp only [he, if_false, Bool.false_eq_true]
    have hm : ∀ n ∈ adds.filter (fun s => !(attrsImportNames l).contains s),
        cleanStr n = true := fun n hn => ha n (List.mem_filter.mp hn).1
    by_cases hh : hasAttrsFromImport l = true
    · simp only [hh, if_true]
      exact any_scan_mergeIntoFirst pat hp _ hm l h
    · simp only [hh, if_false, Bool.false_eq_true]
      refine any_scan_insertAfterImports pat _ ?_ l
      refine scan_clean_import pat hp _ ?_ rfl
      rw [topClean, Bool.and_eq_true]
      refine ⟨by decide, ?_⟩
      rw [List.all_eq_true]
      exact hm

end ModernizeAttrs

namespace ModernizeAttrs

/-! ### Algebra of the removal pass -/

/-- Import statements are never name references. -/
theorem topUsesName_import (n : String) (t : TopStmt)
    (h : isImportItem t = true) : topUsesName n t = false := by
  cases t with
  | importMod mn => rfl
  | importFrom mn ns => rfl
  | classDef nm decs body => simp [isImportItem] at h
  | stmt s => simp [isImportItem] at h

/-- Equation: name references of a cons. -/
theorem moduleUses_cons (t : TopStmt) (tl : List TopStmt) (n : String) :
    moduleUses (t :: tl) n = (topUsesName n t || moduleUses tl n) := rfl

/-- The removal pass never changes which names are referenced. -/
theorem moduleUses_removeWith (used : String → Bool) (n : String) :
    ∀ l : List TopStmt, moduleUses (removeWith used l) n = moduleUses l n := by
  intro l
  induction l with
  | nil => rfl
  | cons t tl ih =>
    by_cases hit : isImportItem t = true
    · cases hr : removeItem used t with
      | none =>
        rw [show removeWith used (t :: tl) = removeWith used tl from by
          rw [removeWith, List.filterMap_cons, hr]
          rfl]
        rw [ih, moduleUses_cons, topUsesName_import n t hit, Bool.false_or]
      | some t' =>
        rw [show removeWith used (t :: tl) = t' :: removeWith used tl from by
          rw [removeWith, List.filterMap_cons, hr]
          rfl]
        rw [moduleUses_cons, moduleUses_cons, ih,
          topUsesName_import n t hit,
          topUsesName_import n t' (removeItem_import used t t' hit hr)]
    · rw [show removeWith used (t :: tl) = t :: removeWith used tl from by
        rw [removeWith, List.filterMap_cons,
          removeItem_not_import used t (Bool.eq_false_iff.mpr hit)]
        rfl]
      rw [moduleUses_cons, moduleUses_cons, ih]

/-- An item the removal pass keeps is kept again by a second pass. -/
theorem removeItem_some_idem (used : String → Bool) (x y : TopStmt)
    (h : removeItem used x = some y) : removeItem used y = some y := by
  cases x with
  | importMod mn =>
    by_cases hc : ((mn == "attr" || mn == "attrs") && !used mn) = true
    · rw [show removeItem used (TopStmt.importMod mn) = none from by
        simp only [removeItem]
        rw [if_pos hc]] at h
      cases h
    · rw [show removeItem used (TopStmt.importMod mn)
          = some (.importMod mn) from by
        simp only [removeItem]
        rw [if_neg hc]] at h
      injection h with h
      subst h
      simp only [removeItem]
      rw [if_neg hc]
  | importFrom mn ns =>
    cases hns : ns.filter (fun o => !((removalObjs mn).contains o && !used o)) with
    | nil =>
      rw [show removeItem used (TopStmt.importFrom mn ns) = none from by
        simp only [removeItem]
        rw [hns]
        rfl] at h
      cases h
    | cons a as =>
      rw [show removeItem used (TopStmt.importFrom mn ns)
          = some (.importFrom mn (a :: as)) from by
        simp only [removeItem]
        rw [hns]
        rfl] at h
      injection h with h
      subst h
      have hsub : (a :: as).filter
            (fun o => !((removalObjs mn).contains o && !used o)) = a :: as := by
        apply List.filter_eq_self.mpr
        intro x hx
        have hx2 : x ∈ ns.filter
            (fun o => !((removalObjs mn).contains o && !used o)) := by
          rw [hns]
          exact hx
        exact (List.mem_filter.mp hx2).2
      simp only [removeItem]
      rw [hsub]
      rfl
  | classDef nm decs body =>
    rw [removeItem_not_import used (TopStmt.classDef nm decs body) rfl] at h
    injection h with h
    subst h
    rfl
  | stmt s =>
    rw [removeItem_not_import used (TopStmt.stmt s) rfl] at h
    injection h with h
    subst h
    rfl

/-- A filterMap that fixes every element of a list is the identity on
it. -/
theorem filterMap_fixed {α : Type} (f : α → Option α) :
    ∀ l : List α, (∀ t ∈ l, f t = some t) → l.filterMap f = l := by
  intro l
  induction l with
  | nil => intro _; rfl
  | cons x xs ih =>
    intro h
    rw [List.filterMap_cons, h x (List.mem_cons_self x xs)]
    show x :: xs.filterMap f = x :: xs
    rw [ih (fun t ht => h t (List.mem_cons_of_mem x ht))]

/-- Every item surviving a removal pass is fixed by another pass. -/
theorem removeWith_fixed_mem (used : String → Bool) (l : List TopStmt) :
    ∀ t ∈ removeWith used l, removeItem used t = some t := by
  intro t ht
  rw [removeWith] at ht
  obtain ⟨x, hx, hfx⟩ := List.mem_filterMap.mp ht
  exact removeItem_some_idem used x t hfx

/-- The removal pass is idempotent. -/
theorem removeWith_removeWith (used : String → Bool) (l : List TopStmt) :
    removeWith used (removeWith used l) = removeWith used l :=
  filterMap_fixed _ _ (removeWith_fixed_mem used l)

/-- Merged-in names that are scheduled for removal and unused are
cancelled exactly by the removal pass. -/
theorem removeWith_mergeIntoFirst_cancel (used : String → Bool)
    (m : List String)
    (hm : ∀ n ∈ m, (removalObjs "attrs").contains n = true ∧ used n = false) :
    ∀ l : List TopStmt, removeWith used (mergeIntoFirst m l) = removeWith used l := by
  intro l
  induction l with
  | nil => rfl
  | cons t tl ih =>
    cases t with
    | importFrom mn ns =>
      by_cases hmn : mn = "attrs"
      · subst hmn
        rw [show mergeIntoFirst m (TopStmt.importFrom "attrs" ns :: tl)
            = .importFrom "attrs" (ns ++ m) :: tl from by
              simp [mergeIntoFirst]]
        rw [removeWith, removeWith, List.filterMap_cons, List.filterMap_cons]
        have hfm : m.filter
            (fun o => !((removalObjs "attrs").contains o && !used o)) = [] := by
          rw [List.filter_eq_nil_iff]
          intro a ha
          have h2 := hm a ha
          have h3 : a ∈ removalObjs "attrs" := by
            simpa [List.contains] using h2.1
          simp [h3, h2.2]
        have hfilter : (ns ++ m).filter
              (fun o => !((removalObjs "attrs").contains o && !used o))
            = ns.filter (fun o => !((removalObjs "attrs").contains o && !used o)) := by
          rw [List.filter_append, hfm, List.append_nil]
        simp only [removeItem]
        rw [hfilter]
      · rw [show mergeIntoFirst m (TopStmt.importFrom mn ns :: tl)
            = .importFrom mn ns :: mergeIntoFirst m tl from by
              simp only [mergeIntoFirst, if_neg hmn]]
        rw [removeWith, removeWith, List.filterMap_cons, List.filterMap_cons]
        cases hr : removeItem used (TopStmt.importFrom mn ns) with
        | none => exact ih
        | some t' =>
          show t' :: removeWith used (mergeIntoFirst m tl)
              = t' :: removeWith used tl
          exact congrArg (fun z => t' :: z) ih
    | importMod mn =>
      rw [show mergeIntoFirst m (TopStmt.importMod mn :: tl)
          = .importMod mn :: mergeIntoFirst m tl from rfl]
      rw [removeWith, removeWith, List.filterMap_cons, List.filterMap_cons]
      cases hr : removeItem used (TopStmt.importMod mn) with
      | none => exact ih
      | some t' =>
        show t' :: removeWith used (mergeIntoFirst m tl)
            = t' :: removeWith used tl
        exact congrArg (fun z => t' :: z) ih
    | classDef nm decs body =>
      rw [show mergeIntoFirst m (TopStmt.classDef nm decs body :: tl)
          = .classDef nm decs body :: mergeIntoFirst m tl from rfl]
      rw [removeWith, removeWith, List.filterMap_cons, List.filterMap_cons]
      cases hr : removeItem used (TopStmt.classDef nm decs body) with
      | none => exact ih
      | some t' =>
        show t' :: removeWith used (mergeIntoFirst m tl)
            = t' :: removeWith used tl
        exact congrArg (fun z => t' :: z) ih
    | stmt s =>
      rw [show mergeIntoFirst m (TopStmt.stmt s :: tl)
          = .stmt s :: mergeIntoFirst m tl from rfl]
      rw [removeWith, removeWith, List.filterMap_cons, List.filterMap_cons]
      cases hr : removeItem used (TopStmt.stmt s) with
      | none => exact ih
      | some t' =>
        show t' :: removeWith used (mergeIntoFirst m tl)
            = t' :: removeWith used tl
        exact congrArg (fun z => t' :: z) ih

/-- An inserted import that the removal pass rejects is cancelled exactly
by the removal pass. -/
theorem removeWith_insertAfterImports_cancel (used : String → Bool)
    (x : TopStmt) (hx : removeItem used x = none) :
    ∀ l : List TopStmt,
      removeWith used (insertAfterImports x l) = removeWith used l := by
  intro l
  induction l with
  | nil =>
    rw [show insertAfterImports x [] = [x] from rfl]
    rw [removeWith, List.filterMap_cons, hx]
    rfl
  | cons t tl ih =>
    by_cases hit : isImportItem t = true
    · rw [show insertAfterImports x (t :: tl) = t :: insertAfterImports x tl
          from by simp only [insertAfterImports, if_pos hit]]
      rw [removeWith, removeWith, List.filterMap_cons, List.filterMap_cons]
      cases hr : removeItem used t with
      | none => exact ih
      | some t' =>
        show t' :: removeWith used (insertAfterImports x tl)
            = t' :: removeWith used tl
        exact congrArg (fun z => t' :: z) ih
    · rw [show insertAfterImports x (t :: tl) = x :: t :: tl
          from by simp only [insertAfterImports, if_neg hit]]
      rw [removeWith, List.filterMap_cons, hx]
      rfl

/-! ### The legacy `from attr import Factory` check across the edits -/

/-- Inserting an item where the predicate fails leaves an `any`
unchanged. -/
theorem any_insert_false (p : TopStmt → Bool) (x : TopStmt) (hx : p x = false) :
    ∀ l : List TopStmt, (insertAfterImports x l).any p = l.any p := by
  intro l
  induction l with
  | nil =>
    rw [show insertAfterImports x [] = [x] from rfl]
    simp [hx]
  | cons t tl ih =>
    by_cases hit : isImportItem t = true
    · rw [show insertAfterImports x (t :: tl) = t :: insertAfterImports x tl
          from by simp only [insertAfterImports, if_pos hit]]
      rw [List.any_cons, List.any_cons, ih]
    · rw [show insertAfterImports x (t :: tl) = x :: t :: tl
          from by simp only [insertAfterImports, if_neg hit]]
      rw [List.any_cons, hx]
      simp

/-- Merging names into an `attrs` import never changes a `from` import
check on another module name. -/
theorem hasFromImport_mergeIntoFirst (m : List String) (mn obj : String)
    (hmn : ¬ mn = "attrs") :
    ∀ l : List TopStmt,
      hasFromImport (mergeIntoFirst m l) mn obj = hasFromImport l mn obj := by
  intro l
  induction l with
  | nil => rfl
  | cons t tl ih =>
    cases t with
    | importFrom mn2 ns =>
      by_cases hmn2 : mn2 = "attrs"
      · subst hmn2
        rw [show mergeIntoFirst m (TopStmt.importFrom "attrs" ns :: tl)
            = .importFrom "attrs" (ns ++ m) :: tl from by
              simp [mergeIntoFirst]]
        have hb : (("attrs" : String) == mn) = false := by
          cases hb2 : (("attrs" : String) == mn) with
          | false => rfl
          | true => exact absurd (eq_of_beq hb2) (fun h => hmn h.symm)
        rw [hasFromImport, hasFromImport, List.any_cons, List.any_cons]
        simp only [hb, Bool.false_and]
      · rw [show mergeIntoFirst m (TopStmt.importFrom mn2 ns :: tl)
            = .importFrom mn2 ns :: mergeIntoFirst m tl from by
              simp only [mergeIntoFirst, if_neg hmn2]]
        rw [hasFromImport, hasFromImport, List.any_cons, List.any_cons]
        rw [show (mergeIntoFirst m tl).any _ = hasFromImport (mergeIntoFirst m tl) mn obj
          from rfl]
        rw [show tl.any _ = hasFromImport tl mn obj from rfl]
        rw [ih]
    | importMod mn2 =>
      rw [show mergeIntoFirst m (TopStmt.importMod mn2 :: tl)
          = .importMod mn2 :: mergeIntoFirst m tl from rfl]
      rw [hasFromImport, hasFromImport, List.any_cons, List.any_cons]
      rw [show (mergeIntoFirst m tl).any _ = hasFromImport (mergeIntoFirst m tl) mn obj
        from rfl]
      rw [show tl.any _ = hasFromImport tl mn obj from rfl]
      rw [ih]
    | classDef nm decs body =>
      rw [show mergeIntoFirst m (TopStmt.classDef nm decs body :: tl)
          = .classDef nm decs body :: mergeIntoFirst m tl from rfl]
      rw [hasFromImport, hasFromImport, List.any_cons, List.any_cons]
      rw [show (mergeIntoFirst m tl).any _ = hasFromImport (mergeIntoFirst m tl) mn obj
        from rfl]
      rw [show tl.any _ = hasFromImport tl mn obj from rfl]
      rw [ih]
    | stmt s =>
      rw [show mergeIntoFirst m (TopStmt.stmt s :: tl)
          = .stmt s :: mergeIntoFirst m tl from rfl]
      rw [hasFromImport, hasFromImport, List.any_cons, List.any_cons]
      rw [show (mergeIntoFirst m tl).any _ = hasFromImport (mergeIntoFirst m tl) mn obj
        from rfl]
      rw [show tl.any _ = hasFromImport tl mn obj from rfl]
      rw [ih]

/-- The add pass never changes a `from` import check on a module name
other than `attrs`. -/
theorem hasFromImport_applyAdds (adds : List String) (mn obj : String)
    (hmn : ¬ mn = "attrs") (l : List TopStmt) :
    hasFromImport (applyAdds adds l) mn obj = hasFromImport l mn obj := by
  unfold applyAdds
  by_cases he : (adds.filter (fun s => !(attrsImportNames l).contains s)).isEmpty = true
  · simp only [he, if_true]
  · simp only [he, if_false, Bool.false_eq_true]
    by_cases hh : hasAttrsFromImport l = true
    · simp only [hh, if_true]
      exact hasFromImport_mergeIntoFirst _ mn obj hmn l
    · simp only [hh, if_false, Bool.false_eq_true]
      have hb : (("attrs" : String) == mn) = false := by
        cases hb2 : (("attrs" : String) == mn) with
        | false => rfl
        | true => exact absurd (eq_of_beq hb2) (fun h => hmn h.symm)
      refine any_insert_false _ _ ?_ l
      simp only [hb, Bool.false_and]

/-- A `from` import of a used object survives the removal pass. -/
theorem hasFromImport_removeWith_used (used : String → Bool)
    (l : List TopStmt) (mn obj : String) (hU : used obj = true)
    (h : hasFromImport l mn obj = true) :
    hasFromImport (removeWith used l) mn obj = true := by
  rw [hasFromImport, List.any_eq_true] at h
  obtain ⟨t, ht, hp⟩ := h
  cases t with
  | importFrom m2 ns =>
    simp only [Bool.and_eq_true] at hp
    have hobj : obj ∈ ns := by
      have := hp.2
      simpa [List.contains] using this
    have hkeep : obj ∈ ns.filter
        (fun o => !((removalObjs m2).contains o && !used o)) := by
      rw [List.mem_filter]
      refine ⟨hobj, ?_⟩
      rw [hU]
      simp
    cases hns : ns.filter (fun o => !((removalObjs m2).contains o && !used o)) with
    | nil =>
      rw [hns] at hkeep
      cases hkeep
    | cons a as =>
      have hsome : removeItem used (TopStmt.importFrom m2 ns)
          = some (.importFrom m2 (a :: as)) := by
        simp only [removeItem]
        rw [hns]
        rfl
      rw [hasFromImport, List.any_eq_true]
      refine ⟨.importFrom m2 (a :: as), ?_, ?_⟩
      · rw [removeWith]
        exact List.mem_filterMap.mpr ⟨_, ht, hsome⟩
      · simp only [Bool.and_eq_true]
        refine ⟨hp.1, ?_⟩
        rw [hns] at hkeep
        simpa [List.contains] using hkeep
  | importMod mn2 => simp at hp
  | classDef nm decs body => simp at hp
  | stmt s => simp at hp

/-! ### The scheduled additions -/

/-- Only the three target symbols are ever scheduled for addition. -/
theorem mem_addsOf_names (res : Resolver) (items : List TopStmt) (n : String)
    (h : n ∈ addsOf res items) :
    n = "Factory" ∨ n = "define" ∨ n = "field" := by
  by_cases h1 : (hasSub factoryPat (renderModule (walkedOf res items))
      && !hasFromImport (walkedOf res items) "attr" "Factory") = true
  · by_cases h2 : hasSub fieldPat (renderModule (walkedOf res items)) = true
    · simp [addsOf, h1, h2] at h
      tauto
    · simp [addsOf, h1, h2] at h
      tauto
  · by_cases h2 : hasSub fieldPat (renderModule (walkedOf res items)) = true
    · simp [addsOf, h1, h2] at h
      tauto
    · simp [addsOf, h1, h2] at h
      tauto

/-- The marker symbol is always scheduled for addition. -/
theorem define_mem_addsOf (res : Resolver) (items : List TopStmt) :
    "define" ∈ addsOf res items := by
  by_cases h1 : (hasSub factoryPat (renderModule (walkedOf res items))
      && !hasFromImport (walkedOf res items) "attr" "Factory") = true
  · by_cases h2 : hasSub fieldPat (renderModule (walkedOf res items)) = true
    · simp [addsOf, h1, h2]
    · simp [addsOf, h1, h2]
  · by_cases h2 : hasSub fieldPat (renderModule (walkedOf res items)) = true
    · simp [addsOf, h1, h2]
    · simp [addsOf, h1, h2]

/-- Every scheduled addition is a clean name. -/
theorem addsOf_clean (res : Resolver) (items : List TopStmt) :
    ∀ n ∈ addsOf res items, cleanStr n = true := by
  intro n hn
  rcases mem_addsOf_names res items n hn with rfl | rfl | rfl
  · decide
  · decide
  · decide

end ModernizeAttrs

namespace ModernizeAttrs

/-! ### Assembly: idempotence on clean modules -/

/-- The items of one whole transformation: the walked tree with imports
added then pruned. -/
def reconciled (res : Resolver) (items : List TopStmt) : List TopStmt :=
  applyRemovals (applyAdds (addsOf res items) (walkedOf res items))

/-- The transformation's items are the reconciled walked tree. -/
theorem transformModule_items (res : Resolver) (items : List TopStmt) :
    (transformModule res items).items = reconciled res items := rfl

/-- The output tree of a clean-defaults module is a fixed point of the
walk. -/
theorem out_walk_fixed (items : List TopStmt)
    (hnd : moduleFieldDefaultsClean stdResolver items = true) :
    walkedOf stdResolver (reconciled stdResolver items)
      = reconciled stdResolver items := by
  have h1 : (walkItems stdResolver initSt (walkedOf stdResolver items)).1
      = walkedOf stdResolver items := (walk_walk items hnd initSt initSt rfl).1
  have h2 := walk_fixed_applyAdds stdResolver (addsOf stdResolver items)
    (walkedOf stdResolver items) initSt
    (walkItems stdResolver initSt (walkedOf stdResolver items)).2 h1 rfl
  have h3 := walk_fixed_removeWith stdResolver
    (fun n => moduleUses (applyAdds (addsOf stdResolver items)
      (walkedOf stdResolver items)) n)
    (applyAdds (addsOf stdResolver items) (walkedOf stdResolver items)) initSt
    (walkItems stdResolver initSt (walkedOf stdResolver items)).2 h2.1 h2.2
  exact h3.1

/-- The textual scans agree on the output tree and the walked tree of a
clean-imports module. -/
theorem scan_transfer (items : List TopStmt) (pat : List Char)
    (hne : pat ≠ []) (hn : ¬ '\n' ∈ pat) (hp : '(' ∈ pat)
    (hclean : importsCleanB items = true) :
    hasSub pat (renderModule (reconciled stdResolver items))
      = hasSub pat (renderModule (walkedOf stdResolver items)) := by
  rw [hasSub_renderModule pat hne hn (reconciled stdResolver items),
    hasSub_renderModule pat hne hn (walkedOf stdResolver items)]
  have hcw1 : importsCleanB (walkedOf stdResolver items) = true :=
    walk_clean stdResolver items initSt hclean
  have hcx1 : importsCleanB (applyAdds (addsOf stdResolver items)
      (walkedOf stdResolver items)) = true :=
    applyAdds_clean _ (addsOf_clean stdResolver items) _ hcw1
  exact Eq.trans
    (any_scan_removeWith pat hp
      (fun n => moduleUses (applyAdds (addsOf stdResolver items)
        (walkedOf stdResolver items)) n)
      (applyAdds (addsOf stdResolver items) (walkedOf stdResolver items)) hcx1)
    (any_scan_applyAdds pat hp (addsOf stdResolver items)
      (addsOf_clean stdResolver items) (walkedOf stdResolver items) hcw1)

/-- Add-then-remove collapses to nothing when the scheduled names that
are actually used are already imported and everything present is kept. -/
theorem reconcile_cancel (l : List TopStmt) (adds2 : List String)
    (U : String → Bool)
    (hsub : ∀ n ∈ adds2, n = "Factory" ∨ n = "define" ∨ n = "field")
    (hfix : ∀ t ∈ l, removeItem U t = some t)
    (hmain : ∀ n ∈ adds2, U n = true → n ∈ attrsImportNames l) :
    removeWith U (applyAdds adds2 l) = l := by
  unfold applyAdds
  by_cases he : (adds2.filter (fun s => !(attrsImportNames l).contains s)).isEmpty = true
  · simp only [he, if_true]
    exact filterMap_fixed _ l hfix
  · simp only [he, if_false, Bool.false_eq_true]
    have hm : ∀ n ∈ adds2.filter (fun s => !(attrsImportNames l).contains s),
        (removalObjs "attrs").contains n = true ∧ U n = false := by
      intro n hn
      obtain ⟨hin, hnc⟩ := List.mem_filter.mp hn
      have hnotmem : ¬ n ∈ attrsImportNames l := by
        intro hmem
        have hcc : (attrsImportNames l).contains n = true := by
          simpa [List.contains] using hmem
        rw [hcc] at hnc
        simp at hnc
      constructor
      · rcases hsub n hin with rfl | rfl | rfl
        · decide
        · decide
        · decide
      · cases hu : U n with
        | false => rfl
        | true => exact absurd (hmain n hin hu) hnotmem
    by_cases hh : hasAttrsFromImport l = true
    · simp only [hh, if_true]
      rw [removeWith_mergeIntoFirst_cancel U _ hm l]
      exact filterMap_fixed _ l hfix
    · simp only [hh, if_false, Bool.false_eq_true]
      have hnone : removeItem U (.importFrom "attrs"
          (adds2.filter (fun s => !(attrsImportNames l).contains s))) = none := by
        simp only [removeItem]
        have hfe : (adds2.filter (fun s => !(attrsImportNames l).contains s)).filter
            (fun o => !((removalObjs "attrs").contains o && !U o)) = [] := by
          rw [List.filter_eq_nil_iff]
          intro a ha
          have h2 := hm a ha
          have h3 : a ∈ removalObjs "attrs" := by
            simpa [List.contains] using h2.1
          simp [h3, h2.2]
        rw [hfe]
        rfl
      rw [removeWith_insertAfterImports_cancel U _ hnone l]
      exact filterMap_fixed _ l hfix

/-- On a clean module, every scheduled-and-used symbol of the second run
is already imported in the first run's output. -/
theorem used_add_mem_out (items : List TopStmt)
    (hclean : importsCleanB items = true)
    (hnd : moduleFieldDefaultsClean stdResolver items = true) :
    ∀ n ∈ addsOf stdResolver (reconciled stdResolver items),
      moduleUses (applyAdds (addsOf stdResolver items)
        (walkedOf stdResolver items)) n = true →
      n ∈ attrsImportNames (reconciled stdResolver items) := by
  intro n hn hU
  have hwo : walkedOf stdResolver (reconciled stdResolver items)
      = reconciled stdResolver items := out_walk_fixed items hnd
  have hchain : n ∈ addsOf stdResolver items →
      n ∈ attrsImportNames (reconciled stdResolver items) := by
    intro hadd
    have hs : (removalObjs "attrs").contains n = true := by
      rcases mem_addsOf_names stdResolver items n hadd with rfl | rfl | rfl
      · decide
      · decide
      · decide
    show n ∈ attrsImportNames (removeWith
      (fun k => moduleUses (applyAdds (addsOf stdResolver items)
        (walkedOf stdResolver items)) k)
      (applyAdds (addsOf stdResolver items) (walkedOf stdResolver items)))
    refine (mem_attrsNames_removeWith _ _ n hs).mpr ⟨?_, hU⟩
    exact (mem_attrsNames_applyAdds (addsOf stdResolver items)
      (walkedOf stdResolver items) n).mpr (Or.inr hadd)
  rcases mem_addsOf_names stdResolver (reconciled stdResolver items) n hn
    with rfl | rfl | rfl
  · have hfac := (mem_addsOf_factory stdResolver (reconciled stdResolver items)).mp hn
    rw [hwo, Bool.and_eq_true] at hfac
    have hnf : hasFromImport (reconciled stdResolver items) "attr" "Factory"
        = false := by simpa using hfac.2
    have hscan1 : hasSub factoryPat (renderModule (walkedOf stdResolver items))
        = true := by
      rw [← scan_transfer items factoryPat (by decide) (by decide) (by decide) hclean]
      exact hfac.1
    by_cases hwf : hasFromImport (walkedOf stdResolver items) "attr" "Factory" = true
    · have hx1 : hasFromImport (applyAdds (addsOf stdResolver items)
          (walkedOf stdResolver items)) "attr" "Factory" = true := by
        rw [hasFromImport_applyAdds (addsOf stdResolver items) "attr" "Factory"
          (by decide) (walkedOf stdResolver items)]
        exact hwf
      have hout : hasFromImport (reconciled stdResolver items) "attr" "Factory"
          = true :=
        hasFromImport_removeWith_used _ _ _ _ hU hx1
      rw [hout] at hnf
      cases hnf
    · have hadd1 : "Factory" ∈ addsOf stdResolver items := by
        refine (mem_addsOf_factory stdResolver items).mpr ?_
        rw [Bool.and_eq_true]
        refine ⟨hscan1, ?_⟩
        rw [Bool.eq_false_iff.mpr hwf]
        rfl
      exact hchain hadd1
  · exact hchain (define_mem_addsOf stdResolver items)
  · have hfld := (mem_addsOf_field stdResolver (reconciled stdResolver items)).mp hn
    rw [hwo] at hfld
    have hscan1 : hasSub fieldPat (renderModule (walkedOf stdResolver items))
        = true := by
      rw [← scan_transfer items fieldPat (by decide) (by decide) (by decide) hclean]
      exact hfld
    exact hchain ((mem_addsOf_field stdResolver items).mpr hscan1)

/-- C5 (amended): on a module whose import names are clean and where no
`default=` argument value is itself a legacy builder call, applying the
whole transformation twice yields the same tree as applying it once. -/
theorem c5_amended (items : List TopStmt)
    (hclean : importsCleanB items = true)
    (hnd : moduleFieldDefaultsClean stdResolver items = true) :
    (transformModule stdResolver (transformModule stdResolver items).items).items
      = (transformModule stdResolver items).items := by
  rw [transformModule_items stdResolver items,
    transformModule_items stdResolver (reconciled stdResolver items)]
  have hwo : walkedOf stdResolver (reconciled stdResolver items)
      = reconciled stdResolver items := out_walk_fixed items hnd
  rw [show reconciled stdResolver (reconciled stdResolver items)
      = applyRemovals (applyAdds
          (addsOf stdResolver (reconciled stdResolver items))
          (walkedOf stdResolver (reconciled stdResolver items))) from rfl,
    hwo]
  rw [show applyRemovals (applyAdds
        (addsOf stdResolver (reconciled stdResolver items))
        (reconciled stdResolver items))
      = removeWith
          (fun k => moduleUses (applyAdds
            (addsOf stdResolver (reconciled stdResolver items))
            (reconciled stdResolver items)) k)
          (applyAdds (addsOf stdResolver (reconciled stdResolver items))
            (reconciled stdResolver items)) from rfl]
  have hUeq : (fun k => moduleUses (applyAdds
        (addsOf stdResolver (reconciled stdResolver items))
        (reconciled stdResolver items)) k)
      = (fun k => moduleUses (applyAdds (addsOf stdResolver items)
          (walkedOf stdResolver items)) k) := by
    funext k
    rw [moduleUses_applyAdds]
    show moduleUses (removeWith
      (fun j => moduleUses (applyAdds (addsOf stdResolver items)
        (walkedOf stdResolver items)) j)
      (applyAdds (addsOf stdResolver items) (walkedOf stdResolver items))) k = _
    rw [moduleUses_removeWith]
  rw [hUeq]
  exact reconcile_cancel (reconciled stdResolver items)
    (addsOf stdResolver (reconciled stdResolver items))
    (fun k => moduleUses (applyAdds (addsOf stdResolver items)
      (walkedOf stdResolver items)) k)
    (mem_addsOf_names stdResolver (reconciled stdResolver items))
    (fun t ht => removeWith_fixed_mem _
      (applyAdds (addsOf stdResolver items) (walkedOf stdResolver items)) t ht)
    (used_add_mem_out items hclean hnd)

/-- Concrete clean module for the C5 witness. -/
def c5wmod : List TopStmt :=
  [ .importMod "attr",
    .classDef "W" [.attr (.name "attr") "s"]
      [ .assign (.name "x") []
          (.call (.attr (.name "attr") "ib")
            (.argCons (some "type") (.name "int") .argNil)) ] ]

/-- Witness: the hypotheses of the amended C5 hold at a concrete module
and the amended theorem applies to it. -/
theorem c5_amended_witness :
    importsCleanB c5wmod = true
      ∧ moduleFieldDefaultsClean stdResolver c5wmod = true
      ∧ (transformModule stdResolver (transformModule stdResolver c5wmod).items).items
          = (transformModule stdResolver c5wmod).items :=
  ⟨by decide, by decide, c5_amended c5wmod (by decide) (by decide)⟩

end ModernizeAttrs

namespace ModernizeAttrs

/-- A resolver modeling an aliased legacy import (`from attr import ib
as Factory` in the file): the bare name `Factory` resolves to the legacy
field builder; everything else resolves by its dotted name. -/
def aliasResolver : Resolver := fun e =>
  if e = Expr.name "Factory" then ["attr.ib"] else stdResolver e

/-- Concrete module under the aliasing resolver: parenthesis-free import
names and a factory-wrapped (non-builder) `default=` value. -/
def c5amod : List TopStmt :=
  [ .importFrom "attr" ["ib"],
    .classDef "A" [.attr (.name "attr") "s"]
      [ .annAssign (.name "x") (.name "int")
          (some (.call (.attr (.name "attr") "ib")
            (.argCons (some "default")
              (.call (.attr (.name "attr") "Factory")
                (.argCons none (.name "list") .argNil)) .argNil))) ] ]

/-- Necessity of the dotted-name-resolution proviso in the amended C5:
under a resolver with an alias for the legacy builder, a module
satisfying both cleanliness restrictions still fails idempotence — the
first run emits the bare call `Factory(list)`, which the second run
resolves to the legacy builder through the alias and rewrites again. -/
theorem c5_alias_not_idempotent :
    importsCleanB c5amod = true
      ∧ moduleFieldDefaultsClean aliasResolver c5amod = true
      ∧ (transformModule aliasResolver
            (transformModule aliasResolver c5amod).items).items
          ≠ (transformModule aliasResolver c5amod).items := by decide

end ModernizeAttrs
